import Mathlib

/-!
# Verification of the synapse type-library core (`synapse/lib/types.py`)

This file gives a shallow embedding, in Lean 4, of the value-normalization
core found in `src/synapse/lib/types.py`: the Python value universe the
library manipulates, the per-type normalization behaviors (`StrType`,
`IntType`, `BoolType`, `JsonType`, `GuidType`, `TimeType`, `TagType`,
`SeprType`, `CompType`, `XrefType`), and the registry (`TypeLib`) with its
deferred-resolution queue, inheritance tree and subtype cache.

Modelling conventions:

* Python values are embedded as `PyVal` (`None`, `int`, `str`, `list`,
  `dict`).  Python `bool` is a subclass of `int` and compares equal to the
  numbers 0/1, so it is modelled as `PyVal.int 0/1`; as a consequence the
  JSON literals `true`/`false` normalize to the strings `"1"`/`"0"` in the
  model where CPython prints `"true"`/`"false"` — a display-level choice
  that affects no claim checked here.  Floats are not modelled.
* Python dicts are embedded as insertion-ordered association lists with
  update-in-place assignment (`aset`), mirroring CPython dict semantics.
* Exceptions are embedded as `Except Err`; `Err` distinguishes the error
  classes the code raises (`BadTypeValu`, `NoSuchType`, `DupTypeName`,
  `BadInfoValu`, …) including Python `NameError` (needed because
  `XrefType._norm_list` references an unbound local).
* `re` patterns are interpreted by `pyReMatch`, which implements the exact
  semantics of the concrete patterns appearing in the default library
  (`\w` is modelled as ASCII word characters).
* Unbounded recursion through the registry (a type graph may be cyclic)
  is made total with a fuel parameter; fuel exhaustion is a distinguished
  error that no theorem confuses with genuine behavior.
-/

namespace Synapse

/-- The universe of Python values handled by the library.  Python `bool`
is identified with `int 0/1` (it is an `int` subclass), floats are out of
scope, and dict keys are restricted to strings (the only keys produced by
the JSON path that needs the constructor). -/
inductive PyVal where
  | none : PyVal
  | int (n : Int) : PyVal
  | str (s : String) : PyVal
  | list (xs : List PyVal) : PyVal
  | dict (ps : List (String × PyVal)) : PyVal
deriving Repr

mutual

/-- Structural (= Python `==`) equality test on embedded values. -/
def pyBeq : PyVal → PyVal → Bool
  | .none, .none => true
  | .int n, .int m => n == m
  | .str s, .str t => s == t
  | .list xs, .list ys => pyBeqL xs ys
  | .dict ps, .dict qs => pyBeqD ps qs
  | _, _ => false

def pyBeqL : List PyVal → List PyVal → Bool
  | [], [] => true
  | x :: xs, y :: ys => pyBeq x y && pyBeqL xs ys
  | _, _ => false

def pyBeqD : List (String × PyVal) → List (String × PyVal) → Bool
  | [], [] => true
  | (k, v) :: ps, (k', v') :: qs => k == k' && pyBeq v v' && pyBeqD ps qs
  | _, _ => false

end

mutual

theorem pyBeq_iff : ∀ a b : PyVal, pyBeq a b = true ↔ a = b
  | .none, .none => by simp [pyBeq]
  | .int n, .int m => by simp [pyBeq]
  | .str s, .str t => by simp [pyBeq]
  | .list xs, .list ys => by
      simp only [pyBeq, pyBeqL_iff xs ys, PyVal.list.injEq]
  | .dict ps, .dict qs => by
      simp only [pyBeq, pyBeqD_iff ps qs, PyVal.dict.injEq]
  | .none, .int _ | .none, .str _ | .none, .list _ | .none, .dict _
  | .int _, .none | .int _, .str _ | .int _, .list _ | .int _, .dict _
  | .str _, .none | .str _, .int _ | .str _, .list _ | .str _, .dict _
  | .list _, .none | .list _, .int _ | .list _, .str _ | .list _, .dict _
  | .dict _, .none | .dict _, .int _ | .dict _, .str _ | .dict _, .list _ => by
      simp [pyBeq]

theorem pyBeqL_iff : ∀ xs ys : List PyVal, pyBeqL xs ys = true ↔ xs = ys
  | [], [] => by simp [pyBeqL]
  | x :: xs, y :: ys => by
      simp [pyBeqL, pyBeq_iff x y, pyBeqL_iff xs ys]
  | [], _ :: _ => by simp [pyBeqL]
  | _ :: _, [] => by simp [pyBeqL]

theorem pyBeqD_iff :
    ∀ ps qs : List (String × PyVal), pyBeqD ps qs = true ↔ ps = qs
  | [], [] => by simp [pyBeqD]
  | (k, v) :: ps, (k', v') :: qs => by
      simp [pyBeqD, pyBeq_iff v v', pyBeqD_iff ps qs, and_assoc]
  | [], _ :: _ => by simp [pyBeqD]
  | _ :: _, [] => by simp [pyBeqD]

end

instance : DecidableEq PyVal := fun a b => decidable_of_iff _ (pyBeq_iff a b)

/-- Keyword-argument dictionaries (`**info`): insertion-ordered string-keyed
association lists with unique keys. -/
abbrev Info : Type := List (String × PyVal)

/-- Derived sub-property dictionaries returned by `norm`. -/
abbrev Subs : Type := List (String × PyVal)

/-- First-match association-list lookup (Python `dict.get` for dicts with
unique keys). -/
def aget {K V : Type} [DecidableEq K] (d : List (K × V)) (k : K) : Option V :=
  match d with
  | [] => Option.none
  | (k', v) :: rest => if k' = k then some v else aget rest k

/-- Python dict assignment `d[k] = v`: update in place if present,
append otherwise. -/
def aset {K V : Type} [DecidableEq K] (d : List (K × V)) (k : K) (v : V) :
    List (K × V) :=
  match d with
  | [] => [(k, v)]
  | (k', v') :: rest =>
      if k' = k then (k', v) :: rest else (k', v') :: aset rest k v

/-- Python `dict.pop(k, default)`: remove the key, if present. -/
def aerase {K V : Type} [DecidableEq K] (d : List (K × V)) (k : K) :
    List (K × V) :=
  match d with
  | [] => []
  | (k', v') :: rest =>
      if k' = k then rest else (k', v') :: aerase rest k

/-- Truthiness of an embedded Python value (`bool(x)`). -/
def pyTruthy : PyVal → Bool
  | .none => false
  | .int n => n != 0
  | .str s => s != ""
  | .list xs => !xs.isEmpty
  | .dict ps => !ps.isEmpty

/-- `s_compat.isstr` -/
def isstr : PyVal → Bool
  | .str _ => true
  | _ => false

/-- `s_compat.isint` (Python bools count as ints; they are embedded as ints). -/
def isint : PyVal → Bool
  | .int _ => true
  | _ => false

/-- `islist` from the source: `type(x) in (list, tuple)`. -/
def islist : PyVal → Bool
  | .list _ => true
  | _ => false

/-! ## Python string primitives (ASCII model of `str.lower`, `str.strip`,
`str.split`, `%`-formatting and `int(text, 0)`) -/

/-- `str.lower` on one character (ASCII model; the default library only
case-folds ASCII identifiers). -/
def pyLowerChar (c : Char) : Char :=
  if 'A' ≤ c ∧ c ≤ 'Z' then Char.ofNat (c.toNat + 32) else c

/-- `str.lower`. -/
def pyLower (s : String) : String := ⟨s.data.map pyLowerChar⟩

/-- Python whitespace recognized by `str.strip` / `int()` (ASCII model). -/
def pySpaceChar (c : Char) : Bool :=
  c = ' ' || c = '\t' || c = '\n' || c = '\r' || c = '\x0b' || c = '\x0c'

/-- `str.strip` on a character list. -/
def stripL (cs : List Char) : List Char :=
  ((cs.dropWhile pySpaceChar).reverse.dropWhile pySpaceChar).reverse

/-- `str.strip`. -/
def pyStrip (s : String) : String := ⟨stripL s.data⟩

/-- The fuel-indexed worker for `splitL` (fuel makes the recursion
structural; `splitL` supplies fuel that always suffices). -/
def splitLF (sep : List Char) : Nat → List Char → List (List Char)
  | 0, cs => [cs]
  | _ + 1, [] => [[]]
  | fuel + 1, c :: rest =>
      if sep.isPrefixOf (c :: rest) ∧ sep ≠ [] then
        [] :: splitLF sep fuel ((c :: rest).drop sep.length)
      else
        match splitLF sep fuel rest with
        | part :: parts => (c :: part) :: parts
        | [] => [[c]]

/-- Python `s.split(sep)` (non-empty separator) on character lists:
leftmost non-overlapping separator occurrences, empty parts kept. -/
def splitL (sep : List Char) (cs : List Char) : List (List Char) :=
  splitLF sep (cs.length + 1) cs

/-- Python `s.split(sep)`. -/
def pySplit (s sep : String) : List String :=
  (splitL sep.data s.data).map (fun cs => ⟨cs⟩)

/-- Python `sep.join(parts)` on character lists. -/
def joinL (sep : List Char) : List (List Char) → List Char
  | [] => []
  | [p] => p
  | p :: q :: ps => p ++ sep ++ joinL sep (q :: ps)

/-- Python `sep.join(parts)`. -/
def pyJoin (sep : String) (parts : List String) : String :=
  ⟨joinL sep.data (parts.map String.data)⟩

/-- Python `s.split(sep, n)`: at most `n` splits from the left. -/
def pySplitN (s sep : String) (n : Nat) : List String :=
  let parts := pySplit s sep
  if parts.length ≤ n + 1 then parts
  else parts.take n ++ [pyJoin sep (parts.drop n)]

/-- Python `s.rsplit(sep, n)`: at most `n` splits from the right. -/
def pyRSplitN (s sep : String) (n : Nat) : List String :=
  let parts := pySplit s sep
  if parts.length ≤ n + 1 then parts
  else pyJoin sep (parts.take (parts.length - n))
    :: parts.drop (parts.length - n)

/-- `valu.replace('-', '')` as used by `GuidType.norm`. -/
def stripDashes (s : String) : String := ⟨s.data.filter (fun c => c ≠ '-')⟩

/-! ## Regular-expression models

The default library compiles a fixed handful of patterns; `pyReMatch`
interprets exactly those (with `\w` as the ASCII word characters — the
ASCII model of Python's unicode `\w` — and without Python's
`$`-matches-before-a-final-newline subtlety, which no claim exercises). -/

/-- `\w` (ASCII model). -/
def wordChar (c : Char) : Bool := c.isAlphanum || c = '_'

/-- A maximal `[\w]+` component. -/
def allWord (s : String) : Bool := s ≠ "" && s.data.all wordChar

/-- `^([\w]+:)*[\w]+$` (the `syn:type` pattern). -/
def colonWordsMatch (s : String) : Bool := (pySplit s ":").all allWord

/-- `^([\w]+:)*([\w]+|\*)$` (the `syn:prop` pattern). -/
def synPropMatch (s : String) : Bool :=
  let parts := pySplit s ":"
  parts.dropLast.all allWord &&
    (match parts.getLast? with
     | some t => allWord t || t = "*"
     | Option.none => false)

/-- `^([\w]+:)*[\w]+:\*$` (the `syn:glob` pattern). -/
def synGlobMatch (s : String) : Bool :=
  let parts := pySplit s ":"
  decide (2 ≤ parts.length) && parts.dropLast.all allWord &&
    (match parts.getLast? with
     | some t => t = "*"
     | Option.none => false)

/-- A lowercase hex digit. -/
def hexDigitLower (c : Char) : Bool :=
  ('0' ≤ c && c ≤ '9') || ('a' ≤ c && c ≤ 'f')

/-- `^[0-9a-f]+$` (the `str:hex` pattern). -/
def hexStrMatch (s : String) : Bool := s ≠ "" && s.data.all hexDigitLower

/-- `^([\w]+\.)*[\w]+$` — the module-level `tagre` used by `TagType`. -/
def tagMatch (s : String) : Bool := (pySplit s ".").all allWord

/-- `guidre`: `^[0-9a-f]{32}$` — module-level `isguid`. -/
def isguid (s : String) : Bool := s.length == 32 && s.data.all hexDigitLower

/-- `re.match(pattern, s)`, interpreted for the patterns compiled by the
default library.  Patterns outside this set do not occur in any claim and
are treated as non-matching. -/
def pyReMatch (pat : String) (s : String) : Bool :=
  if pat = "^([\\w]+:)*([\\w]+|\\*)$" then synPropMatch s
  else if pat = "^([\\w]+:)*[\\w]+$" then colonWordsMatch s
  else if pat = "^([\\w]+:)*[\\w]+:\\*$" then synGlobMatch s
  else if pat = "^[0-9a-f]+$" then hexStrMatch s
  else false

/-- `re.sub(pattern, '', s)` for the `restrip` option.  No type registered
in the default library sets `restrip`; the pattern is interpreted as a
literal substring here (dead code for every claim). -/
def pyReSubEmpty (pat : String) (s : String) : String :=
  pyJoin "" (pySplit s pat)

/-! ## Decimal / hex rendering and `int(text, 0)` -/

/-- Decimal digits of a natural number, most significant first
(CPython's `%d` for naturals). -/
def pyNatDec (n : Nat) : List Char :=
  if n = 0 then ['0']
  else (Nat.digits 10 n).reverse.map (fun d => Char.ofNat (d + 48))

/-- Hex digit character (lowercase). -/
def hexDigitChar (d : Nat) : Char :=
  if d < 10 then Char.ofNat (d + 48) else Char.ofNat (d + 87)

/-- Lowercase hex digits of a natural number, most significant first
(CPython's `%x` for naturals). -/
def pyNatHex (n : Nat) : List Char :=
  if n = 0 then ['0']
  else (Nat.digits 16 n).reverse.map hexDigitChar

/-- CPython `'%d' % n`. -/
def pyFmtD (n : Int) : String :=
  if n < 0 then ⟨'-' :: pyNatDec n.natAbs⟩ else ⟨pyNatDec n.natAbs⟩

/-- CPython `'%x' % n` (negative values render with a `-` sign). -/
def pyFmtX (n : Int) : String :=
  if n < 0 then ⟨'-' :: pyNatHex n.natAbs⟩ else ⟨pyNatHex n.natAbs⟩

/-- `%`-formatting of an int by a format string, for the format strings
appearing in the default library (`%d`, `%x`). -/
def pyFmtInt (fmt : String) (n : Int) : Option String :=
  if fmt = "%d" then some (pyFmtD n)
  else if fmt = "%x" then some (pyFmtX n)
  else Option.none

/-- Value of a decimal digit character. -/
def decDigitVal (c : Char) : Option Nat :=
  if '0' ≤ c && c ≤ '9' then some (c.toNat - 48) else Option.none

/-- Value of a hex digit character (either case). -/
def hexDigitVal (c : Char) : Option Nat :=
  if '0' ≤ c && c ≤ '9' then some (c.toNat - 48)
  else if 'a' ≤ c && c ≤ 'f' then some (c.toNat - 87)
  else if 'A' ≤ c && c ≤ 'F' then some (c.toNat - 55)
  else Option.none

/-- Value of an octal digit character. -/
def octDigitVal (c : Char) : Option Nat :=
  if '0' ≤ c && c ≤ '7' then some (c.toNat - 48) else Option.none

/-- Value of a binary digit character. -/
def binDigitVal (c : Char) : Option Nat :=
  if c = '0' then some 0 else if c = '1' then some 1 else Option.none

/-- Digit run with CPython underscore rules: `digit ('_'? digit)*`.
The head character must be a digit (callers handle a permitted leading
underscore after a base prefix). -/
def uDigits (dv : Char → Option Nat) : List Char → Option (List Nat)
  | [] => Option.none
  | [c] => (dv c).map (fun d => [d])
  | c :: c2 :: rest =>
      match dv c with
      | some d =>
          if c2 = '_' then (uDigits dv rest).map (fun ds => d :: ds)
          else (uDigits dv (c2 :: rest)).map (fun ds => d :: ds)
      | Option.none => Option.none

/-- Fold a most-significant-first digit list. -/
def digitsToNat (base : Nat) (ds : List Nat) : Nat :=
  ds.foldl (fun acc d => acc * base + d) 0

/-- Digits after a `0x`/`0o`/`0b` prefix (one leading underscore allowed). -/
def prefixedDigits (dv : Char → Option Nat) (base : Nat) (cs : List Char) :
    Option Nat :=
  let body := match cs with
    | '_' :: rest => rest
    | rest => rest
  (uDigits dv body).map (digitsToNat base)

/-- Unsigned body of `int(text, 0)`: base auto-detection with `0x`/`0o`/`0b`
prefixes; a bare decimal run may not have leading zeros unless it is all
zeros. -/
def pyIntParseBody (cs : List Char) : Option Nat :=
  match cs with
  | c0 :: x :: rest =>
      if c0 = '0' then
        if x = 'x' ∨ x = 'X' then prefixedDigits hexDigitVal 16 rest
        else if x = 'o' ∨ x = 'O' then prefixedDigits octDigitVal 8 rest
        else if x = 'b' ∨ x = 'B' then prefixedDigits binDigitVal 2 rest
        else
          match uDigits decDigitVal (c0 :: x :: rest) with
          | some ds => if ds.all (fun d => d = 0) then some 0 else Option.none
          | Option.none => Option.none
      else
        match uDigits decDigitVal (c0 :: x :: rest) with
        | some ds =>
            if ds.headD 0 = 0 ∧ ds.length ≠ 1 then
              if ds.all (fun d => d = 0) then some 0 else Option.none
            else some (digitsToNat 10 ds)
        | Option.none => Option.none
  | cs1 =>
      match uDigits decDigitVal cs1 with
      | some ds =>
          if ds.headD 0 = 0 ∧ ds.length ≠ 1 then
            if ds.all (fun d => d = 0) then some 0 else Option.none
          else some (digitsToNat 10 ds)
      | Option.none => Option.none

/-- CPython `int(text, 0)`: strip whitespace, optional sign, auto-base body. -/
def pyIntParse (s : String) : Option Int :=
  match stripL s.data with
  | c :: rest =>
      if c = '+' then (pyIntParseBody rest).map Int.ofNat
      else if c = '-' then (pyIntParseBody rest).map (fun n => -(Int.ofNat n))
      else (pyIntParseBody (c :: rest)).map Int.ofNat
  | [] => (pyIntParseBody []).map Int.ofNat

/-! ## JSON (`json.dumps(..., separators=(',', ':'))` and `json.loads`)

`JsonType.norm` canonicalizes through the CPython `json` module.  The
serializer below reproduces `json.dumps` with `ensure_ascii` (the default)
and the library's compact separators; the parser reproduces `json.loads`
on the sub-grammar the embedded value universe can produce (numbers are
integers — floats are out of scope — and lone surrogate escapes are
rejected since Lean characters are unicode scalar values). -/

/-- Four lowercase hex digits, most significant first (`"\u%04x"`). -/
def toHex4 (n : Nat) : List Char :=
  [hexDigitChar (n / 4096 % 16), hexDigitChar (n / 256 % 16),
   hexDigitChar (n / 16 % 16), hexDigitChar (n % 16)]

/-- `json.encoder.py_encode_basestring_ascii` on one character. -/
def jEscapeChar (c : Char) : List Char :=
  if c = '"' then ['\\', '"']
  else if c = '\\' then ['\\', '\\']
  else if c = '\x08' then ['\\', 'b']
  else if c = '\x0c' then ['\\', 'f']
  else if c = '\n' then ['\\', 'n']
  else if c = '\r' then ['\\', 'r']
  else if c = '\t' then ['\\', 't']
  else if c.toNat < 0x20 ∨ 0x7e < c.toNat then
    if c.toNat < 0x10000 then '\\' :: 'u' :: toHex4 c.toNat
    else
      let v := c.toNat - 0x10000
      ('\\' :: 'u' :: toHex4 (0xd800 + v / 1024)) ++
        ('\\' :: 'u' :: toHex4 (0xdc00 + v % 1024))
  else [c]

/-- ASCII-escaped JSON string body. -/
def jEscape (cs : List Char) : List Char := (cs.map jEscapeChar).flatten

mutual

/-- `json.dumps(v, separators=(',', ':'))`, as characters. -/
def dumpV : PyVal → List Char
  | .none => ['n', 'u', 'l', 'l']
  | .int n => (pyFmtD n).data
  | .str s => '"' :: (jEscape s.data ++ ['"'])
  | .list xs => '[' :: (dumpElems xs ++ [']'])
  | .dict ps => '\x7b' :: (dumpMembers ps ++ ['\x7d'])

def dumpElems : List PyVal → List Char
  | [] => []
  | [x] => dumpV x
  | x :: y :: xs => dumpV x ++ ',' :: dumpElems (y :: xs)

def dumpMembers : List (String × PyVal) → List Char
  | [] => []
  | [(k, v)] => '"' :: (jEscape k.data ++ '"' :: ':' :: dumpV v)
  | (k, v) :: q :: ps =>
      ('"' :: (jEscape k.data ++ '"' :: ':' :: dumpV v)) ++
        ',' :: dumpMembers (q :: ps)

end

/-- `json.dumps(v, separators=(',', ':'))`. -/
def pyJsonDumps (v : PyVal) : String := ⟨dumpV v⟩

/-- JSON whitespace accepted between tokens by `json.loads`. -/
def jSpace (c : Char) : Bool := c = ' ' || c = '\t' || c = '\n' || c = '\r'

/-- Skip JSON whitespace. -/
def skipWs : List Char → List Char
  | [] => []
  | c :: rest => if jSpace c then skipWs rest else c :: rest

theorem skipWs_le (cs : List Char) : (skipWs cs).length ≤ cs.length := by
  induction cs with
  | nil => simp [skipWs]
  | cons c rest ih =>
      simp only [skipWs]
      split
      · exact Nat.le_succ_of_le ih
      · simp

/-- The shortcut escapes recognized after a backslash (strict mode). -/
def jUnescapeChar (e : Char) : Option Char :=
  if e = '"' then some '"'
  else if e = '\\' then some '\\'
  else if e = '/' then some '/'
  else if e = 'b' then some '\x08'
  else if e = 'f' then some '\x0c'
  else if e = 'n' then some '\n'
  else if e = 'r' then some '\r'
  else if e = 't' then some '\t'
  else Option.none

/-- The four hex digits of a `\uXXXX` escape, decoded. -/
def hex4 (a b c d : Char) : Option Nat :=
  match hexDigitVal a, hexDigitVal b, hexDigitVal c, hexDigitVal d with
  | some ha, some hb, some hc, some hd =>
      some (ha * 4096 + hb * 256 + hc * 16 + hd)
  | _, _, _, _ => Option.none

/-- JSON string-body scanner (strict mode): input starts after the opening
quote; produces the decoded characters and the input after the closing
quote.  The fuel only bounds recursion depth; each step consumes at least
one character, so any fuel at or above the input length is enough. -/
def parseStrBody : Nat → List Char → Option (List Char × List Char)
  | 0, _ => Option.none
  | _ + 1, [] => Option.none
  | fuel + 1, c :: rest =>
      if c = '"' then some ([], rest)
      else if c = '\\' then
        match rest with
        | [] => Option.none
        | e :: rest1 =>
            if e = 'u' then
              match rest1 with
              | a :: b :: c2 :: d :: rest2 =>
                  (match hex4 a b c2 d with
                   | some n =>
                      if 0xd800 ≤ n ∧ n < 0xdc00 then
                        match rest2 with
                        | b1 :: b2 :: e2 :: f :: g :: k :: rest3 =>
                            if b1 = '\\' ∧ b2 = 'u' then
                              match hex4 e2 f g k with
                              | some m =>
                                  if 0xdc00 ≤ m ∧ m < 0xe000 then
                                    match parseStrBody fuel rest3 with
                                    | some (s, r) =>
                                        some (Char.ofNat (0x10000 + (n - 0xd800) * 1024 + (m - 0xdc00)) :: s, r)
                                    | Option.none => Option.none
                                  else Option.none
                              | Option.none => Option.none
                            else Option.none
                        | _ => Option.none
                      else if 0xdc00 ≤ n ∧ n < 0xe000 then
                        Option.none
                      else
                        match parseStrBody fuel rest2 with
                        | some (s, r) => some (Char.ofNat n :: s, r)
                        | Option.none => Option.none
                   | Option.none => Option.none)
              | _ => Option.none
            else
              match jUnescapeChar e with
              | some ch =>
                  (match parseStrBody fuel rest1 with
                   | some (s, r) => some (ch :: s, r)
                   | Option.none => Option.none)
              | Option.none => Option.none
      else if c.toNat < 0x20 then Option.none
      else
        match parseStrBody fuel rest with
        | some (s, r) => some (c :: s, r)
        | Option.none => Option.none
termination_by structural fuel cs => fuel

/-- Maximal run of decimal digits, with their values. -/
def takeDigits : List Char → (List Nat × List Char)
  | [] => ([], [])
  | c :: rest =>
      match decDigitVal c with
      | some d =>
          let p := takeDigits rest
          (d :: p.1, p.2)
      | Option.none => ([], c :: rest)

theorem takeDigits_len (cs : List Char) :
    (takeDigits cs).1.length + (takeDigits cs).2.length = cs.length := by
  induction cs with
  | nil => simp [takeDigits]
  | cons c rest ih =>
      simp only [takeDigits]
      cases decDigitVal c
      all_goals simp_all
      all_goals omega

/-- JSON integer literal (`-? (0 | [1-9][0-9]*)`); fractions and exponents
are not consumed (floats are outside the embedded value universe). -/
def parseNum : List Char → Option (Int × List Char)
  | [] => Option.none
  | c :: rest =>
      if c = '-' then
        (match takeDigits rest with
         | (d :: ds, r) =>
            if d = 0 ∧ ds ≠ [] then Option.none
            else some (-(Int.ofNat (digitsToNat 10 (d :: ds))), r)
         | ([], _) => Option.none)
      else
        (match takeDigits (c :: rest) with
         | (d :: ds, r) =>
            if d = 0 ∧ ds ≠ [] then Option.none
            else some (Int.ofNat (digitsToNat 10 (d :: ds)), r)
         | ([], _) => Option.none)

/-- Python dict construction from a (possibly duplicated) key/value
sequence: later assignments win, first-occurrence position is kept. -/
def dictOf (ps : List (String × PyVal)) : List (String × PyVal) :=
  ps.foldl (fun d p => aset d p.1 p.2) []

mutual

/-- `json.loads` value scanner.  The input is assumed to start at a token
(callers skip whitespace).  The fuel bounds the recursion depth of the
mutual group; `pyJsonLoads` passes twice the input length, which always
suffices since at most two mutual steps happen per consumed character. -/
def parseVal : Nat → List Char → Option (PyVal × List Char)
  | 0, _ => Option.none
  | _ + 1, [] => Option.none
  | fuel + 1, c :: rest =>
      if c = 'n' then
        match rest with
        | 'u' :: 'l' :: 'l' :: r => some (.none, r)
        | _ => Option.none
      else if c = 't' then
        match rest with
        | 'r' :: 'u' :: 'e' :: r => some (.int 1, r)
        | _ => Option.none
      else if c = 'f' then
        match rest with
        | 'a' :: 'l' :: 's' :: 'e' :: r => some (.int 0, r)
        | _ => Option.none
      else if c = '"' then
        match parseStrBody (rest.length + 1) rest with
        | some (s, r) => some (.str ⟨s⟩, r)
        | Option.none => Option.none
      else if c = '[' then
        match skipWs rest with
        | [] => Option.none
        | c2 :: r2 =>
            if c2 = ']' then some (.list [], r2)
            else
              match parseElems fuel (c2 :: r2) with
              | some (vs, r) => some (.list vs, r)
              | Option.none => Option.none
      else if c = '\x7b' then
        match skipWs rest with
        | [] => Option.none
        | c2 :: r2 =>
            if c2 = '\x7d' then some (.dict [], r2)
            else
              match parseMembers fuel (c2 :: r2) with
              | some (ms, r) => some (.dict (dictOf ms), r)
              | Option.none => Option.none
      else
        match parseNum (c :: rest) with
        | some (n, r) => some (.int n, r)
        | Option.none => Option.none
termination_by structural fuel cs => fuel

def parseElems : Nat → List Char → Option (List PyVal × List Char)
  | 0, _ => Option.none
  | fuel + 1, cs =>
      match parseVal fuel cs with
      | some (v, r1) =>
          (match skipWs r1 with
           | [] => Option.none
           | c2 :: r3 =>
              if c2 = ',' then
                match parseElems fuel (skipWs r3) with
                | some (vs, r4) => some (v :: vs, r4)
                | Option.none => Option.none
              else if c2 = ']' then some ([v], r3)
              else Option.none)
      | Option.none => Option.none
termination_by structural fuel cs => fuel

/-- Object members: `string ws ':' ws value (ws ',' ws members)* ws '}'`,
returned as the raw key/value sequence in input order. -/
def parseMembers : Nat → List Char → Option (List (String × PyVal) × List Char)
  | 0, _ => Option.none
  | _ + 1, [] => Option.none
  | fuel + 1, c :: rest =>
      if c = '"' then
        match parseStrBody (rest.length + 1) rest with
        | some (kcs, r1) =>
            (match skipWs r1 with
             | [] => Option.none
             | c2 :: r2 =>
                if c2 = ':' then
                  match parseVal fuel (skipWs r2) with
                  | some (v, r3) =>
                      (match skipWs r3 with
                       | [] => Option.none
                       | c3 :: r4 =>
                          if c3 = ',' then
                            match parseMembers fuel (skipWs r4) with
                            | some (ms, r5) => some ((⟨kcs⟩, v) :: ms, r5)
                            | Option.none => Option.none
                          else if c3 = '\x7d' then some ([(⟨kcs⟩, v)], r4)
                          else Option.none)
                  | Option.none => Option.none
                else Option.none)
        | Option.none => Option.none
      else Option.none
termination_by structural fuel cs => fuel

end

/-- `json.loads`. -/
def pyJsonLoads (s : String) : Option PyVal :=
  match parseVal (2 * s.data.length + 2) (skipWs s.data) with
  | some (v, r) => if skipWs r = [] then some v else Option.none
  | Option.none => Option.none

mutual

/-- Well-formedness of an embedded value as a real Python value: every
dict has unique keys (a Python dict cannot hold duplicates). -/
def pyWF : PyVal → Bool
  | .none => true
  | .int _ => true
  | .str _ => true
  | .list xs => pyWFL xs
  | .dict ps => decide ((ps.map Prod.fst).Nodup) && pyWFD ps

def pyWFL : List PyVal → Bool
  | [] => true
  | x :: xs => pyWF x && pyWFL xs

def pyWFD : List (String × PyVal) → Bool
  | [] => true
  | (_, v) :: ps => pyWF v && pyWFD ps

end

/-! ## Spec-modelled externals

`synapse.lib.time`, `synapse.common.guid` and `synapse.lib.syntax` are
code of this repository that is not under `src/`; they are modelled from
the spec. -/

/-- Modelled from the spec: `synapse.lib.time.parse` is not under `src/`.
The spec says it "parses a textual timestamp into epoch-milliseconds".
The calendar arithmetic is abstracted: non-digit characters are treated
as separators and discarded, and the remaining digit string is read as
the millisecond value. -/
def timeParse (s : String) : Option Int :=
  let ds := s.data.filterMap decDigitVal
  if ds.isEmpty then Option.none else some (Int.ofNat (digitsToNat 10 ds))

/-- Modelled from the spec: `synapse.lib.time.repr` is not under `src/`.
The spec says it "renders epoch-ms back to text"; the model renders the
non-negative millisecond value as its digit string (the rendering of
pre-epoch values is left unspecified by the spec). -/
def timeRepr (t : Int) : Option String :=
  match t with
  | .ofNat n => some ⟨pyNatDec n⟩
  | .negSucc _ => Option.none

/-- Modelled from the spec: `synapse.common.guid` is not under `src/`.
The spec describes the identifier as a "deterministic hash/digest of the
ordered, normalized field tuple"; hashing is abstracted as the
deterministic canonical JSON serialization of the tuple. -/
def guidOf (v : PyVal) : String := pyJsonDumps v

/-- Modelled from the spec: `synapse.lib.syntax.parse_list` is not under
`src/`.  The spec says a composite accepts "a parenthesized list-literal
text, parsed into a value list"; the model splits the parenthesized body
on commas into stripped string items and reports the full text consumed.
No claim exercises this path. -/
def parseListLit (text : String) : Option (List PyVal) :=
  let cs := text.data
  match cs with
  | '(' :: _ =>
      if cs.getLast? = some ')' then
        let inner : List Char := (cs.drop 1).dropLast
        some ((pySplit (String.mk inner) ",").map
          (fun p => PyVal.str (pyStrip p)))
      else Option.none
  | _ => Option.none

/-! ## The type registry (`TypeLib`) and type instances -/

/-- The exception classes raised by the embedded code. -/
inductive Err where
  | badValu
  | noSuchType (name : Option PyVal)
  | dupType
  | badCfg
  | noSuchDyn
  | badInfo
  | nameError
  | typeError
  | noFuel
deriving DecidableEq, Repr

/-- The result of a `norm`: normalized value and sub-property dict. -/
abbrev NR : Type := PyVal × List (String × PyVal)

/-- Parsed construction-time configuration of `StrType.__init__`. -/
structure StrCfg where
  strip : PyVal
  nullval : Option PyVal
  envals : Option (List String)
  regex : Option String
  restrip : Option String
  frobintfmt : Option PyVal
deriving DecidableEq, Repr

/-- `ismin` / `ismax` accumulation configuration (`self.minmax`). -/
inductive MinMax where
  | none
  | useMin
  | useMax
deriving DecidableEq, Repr

/-- Parsed construction-time configuration of `IntType.__init__`. -/
structure IntCfg where
  fmt : PyVal
  minval : Option PyVal
  maxval : Option PyVal
  mm : MinMax
deriving DecidableEq, Repr

/-- Per-class behavior and parsed configuration of a type instance. -/
inductive TBody where
  | strB (cfg : StrCfg)
  | intB (cfg : IntCfg)
  | boolB
  | jsonB
  | guidB (galias : Option PyVal)
  | timeB (mm : MinMax)
  | tagB
  | seprB (sep : PyVal) (reverse : PyVal)
  | compB (fields : List (String × String)) (optfields : List (String × String))
  | xrefB (sorcName sorcType : Option String)
deriving DecidableEq, Repr

/-- A realized `DataType` instance (`self.name`, `self.info`, plus the
class-specific state built by `__init__`). -/
structure TInst where
  name : String
  info : Info
  body : TBody
deriving DecidableEq, Repr

/-- The construction-time class of an instance (`self.__class__`). -/
inductive TKind where
  | strK | intK | boolK | jsonK | guidK | timeK | tagK | seprK | compK | xrefK
deriving DecidableEq, Repr

def kindOf : TBody → TKind
  | .strB _ => .strK
  | .intB _ => .intK
  | .boolB => .boolK
  | .jsonB => .jsonK
  | .guidB _ => .guidK
  | .timeB _ => .timeK
  | .tagB => .tagK
  | .seprB _ _ => .seprK
  | .compB _ _ => .compK
  | .xrefB _ _ => .xrefK

/-- The `ctor` strings the default library resolves via `s_dyndeps`. -/
def ctorToKind (c : String) : Option TKind :=
  if c = "synapse.lib.types.StrType" then some .strK
  else if c = "synapse.lib.types.IntType" then some .intK
  else if c = "synapse.lib.types.BoolType" then some .boolK
  else if c = "synapse.lib.types.JsonType" then some .jsonK
  else if c = "synapse.lib.types.GuidType" then some .guidK
  else if c = "synapse.lib.types.TimeType" then some .timeK
  else if c = "synapse.lib.types.TagType" then some .tagK
  else if c = "synapse.lib.types.SeprType" then some .seprK
  else if c = "synapse.lib.types.CompType" then some .compK
  else if c = "synapse.lib.types.XrefType" then some .xrefK
  else Option.none

/-- `ismin`/`ismax` resolution shared by `IntType` and `TimeType` init
(`ismin` is tested first). -/
def mkMinMax (info : Info) : MinMax :=
  if pyTruthy ((aget info "ismin").getD (.int 0)) then .useMin
  else if pyTruthy ((aget info "ismax").getD (.int 0)) then .useMax
  else .none

/-- `StrType.__init__`: splits `enums`, compiles `regex`/`restrip`.
A non-string value for one of those raises at construction time. -/
def mkStr (info : Info) : Except Err TBody := do
  let envals ← match aget info "enums" with
    | Option.none => pure Option.none
    | some (.str e) => pure (some (pySplit e ","))
    | some _ => throw .typeError
  let regex ← match aget info "regex" with
    | Option.none => pure Option.none
    | some (.str r) => pure (some r)
    | some _ => throw .typeError
  let restrip ← match aget info "restrip" with
    | Option.none => pure Option.none
    | some (.str r) => pure (some r)
    | some _ => throw .typeError
  pure (.strB
    { strip := (aget info "strip").getD (.int 0)
      nullval := aget info "nullval"
      envals := envals
      regex := regex
      restrip := restrip
      frobintfmt := aget info "frob_int_fmt" })

/-- `IntType.__init__`. -/
def mkInt (info : Info) : TBody :=
  .intB
    { fmt := (aget info "fmt").getD (.str "%d")
      minval := aget info "min"
      maxval := aget info "max"
      mm := mkMinMax info }

/-- `part.split(sep1)` with exactly-two unpacking (`k, v = ...`), both
parts stripped — one yield of `_splitpairs`. -/
def splitPair2 (part sep1 : String) : Option (String × String) :=
  match pySplit part sep1 with
  | [k, v] => some (pyStrip k, pyStrip v)
  | _ => Option.none

/-- `_splitpairs(text, sep0, sep1)`; `Option.none` models the `ValueError`
raised by a part that does not unpack into exactly two. -/
def pySplitPairs (text sep0 sep1 : String) : Option (List (String × String)) :=
  (pySplit text sep0).mapM (fun p => splitPair2 p sep1)

/-- Lexicographic order on `(name, typename)` pairs — Python tuple
ordering, used by `self.optfields.sort()`. -/
def pairLe (a b : String × String) : Bool :=
  a.1 < b.1 || (a.1 = b.1 && a.2 ≤ b.2)

/-- `CompType.__init__`: eager parsing of `fields` and `optfields`;
option order is stabilized alphabetically. -/
def mkComp (info : Info) : Except Err TBody := do
  let fields ← match aget info "fields" with
    | Option.none => pure []
    | some fv =>
        if pyTruthy fv then
          match fv with
          | .str f =>
              (match (if f.data.contains '=' then pySplitPairs f "," "="
                      else pySplitPairs f "|" ",") with
               | some ps => pure ps
               | Option.none => throw .badInfo)
          | _ => throw .typeError
        else pure []
  let optfields ← match aget info "optfields" with
    | Option.none => pure []
    | some ov =>
        if pyTruthy ov then
          match ov with
          | .str o =>
              (match pySplitPairs o "," "=" with
               | some ps => pure (ps.mergeSort pairLe)
               | Option.none => throw .badInfo)
          | _ => throw .typeError
        else pure []
  pure (.compB fields optfields)

/-- `XrefType.__init__`: parses `source=<name>,<type>`. -/
def mkXref (info : Info) : Except Err TBody := do
  match aget info "source" with
  | Option.none => pure (.xrefB Option.none Option.none)
  | some (.str sorc) =>
      (match pySplit sorc "," with
       | [p0, p1] => pure (.xrefB (some p0) (some p1))
       | _ => throw .badInfo)
  | some _ => throw .typeError

/-- Dispatch of `cls(tlib, name, **info)` over the embedded classes. -/
def mkInstOfKind (k : TKind) (name : String) (info : Info) :
    Except Err TInst := do
  let body ← match k with
    | .strK => mkStr info
    | .intK => pure (mkInt info)
    | .boolK => pure .boolB
    | .jsonK => pure .jsonB
    | .guidK => pure (.guidB (aget info "alias"))
    | .timeK => pure (.timeB (mkMinMax info))
    | .tagK => pure .tagB
    | .seprK => pure (.seprB ((aget info "sep").getD (.str ","))
        ((aget info "reverse").getD (.int 0)))
    | .compK => mkComp info
    | .xrefK => mkXref info
  pure { name := name, info := info, body := body }

/-- `s_dyndeps.tryDynFunc(ctor, self, name, **info)`. -/
def mkInstByCtor (cpv : PyVal) (name : String) (info : Info) :
    Except Err TInst :=
  match cpv with
  | .str c =>
      (match ctorToKind c with
       | some k => mkInstOfKind k name info
       | Option.none => .error .noSuchDyn)
  | _ => .error .noSuchDyn

/-- `DataType.extend`: overlay the child's info on the parent's
(`info.setdefault(k, v)` for each parent item) and construct the parent's
class with the merged options. -/
def mergeInfo (childInfo parentInfo : Info) : Info :=
  parentInfo.foldl
    (fun acc kv => if (aget acc kv.1).isSome then acc else acc ++ [kv])
    childInfo

def extendInst (base : TInst) (name : String) (info : Info) :
    Except Err TInst :=
  mkInstOfKind (kindOf base.body) name (mergeInfo info base.info)

/-- `TypeLib` mutable state: `types`, `typeinfo`, `typetree`,
`subscache` and the `pended` queue (`casts` carries no claim and is
omitted). -/
structure State where
  types : List (String × TInst)
  typeinfo : List (String × Info)
  typetree : List (String × String)
  subscache : List ((String × String) × Bool)
  pended : List (Option PyVal × List (String × Info))
deriving DecidableEq, Repr

def emptyState : State := ⟨[], [], [], [], []⟩

/-- `TypeLib.getTypeInst` / `TypeLib.getDataType` (`types.get(name)`). -/
def getTypeInst (s : State) (name : String) : Option TInst :=
  aget s.types name

/-- `TypeLib.reqDataType` for a string name. -/
def reqDataType (s : State) (name : String) : Except Err TInst :=
  match aget s.types name with
  | some t => .ok t
  | Option.none => .error (.noSuchType (some (.str name)))

/-- `TypeLib.reqDataType` applied to the raw `subof` option (which is
`None` when absent: `types.get(None)` misses and raises
`NoSuchType(name=None)`). -/
def reqDataTypePV (s : State) (pv : Option PyVal) : Except Err TInst :=
  match pv with
  | some (.str p) =>
      (match aget s.types p with
       | some t => .ok t
       | Option.none => .error (.noSuchType (some (.str p))))
  | other => .error (.noSuchType other)

/-- The `while todo is not None` walk of `getTypeBases`, made total with
fuel (the real loop diverges on a cyclic `typetree`; reachable trees are
acyclic and the internal fuel `|typetree| + 1` then suffices). -/
def basesAux (tree : List (String × String)) : Nat → String → List String
  | 0, _ => []
  | fuel + 1, cur =>
      match aget tree cur with
      | some nxt => nxt :: basesAux tree fuel nxt
      | Option.none => []

/-- `TypeLib.getTypeBases`: inheritance names beginning with the base. -/
def getTypeBases (s : State) (name : String) : List String :=
  (name :: basesAux s.typetree (s.typetree.length + 1) name).reverse

/-- `TypeLib.isSubType`: memoized membership of `base` in the bases. -/
def isSubType (s : State) (name base : String) : Bool × State :=
  match aget s.subscache (name, base) with
  | some r => (r, s)
  | Option.none =>
      let r := (getTypeBases s name).contains base
      (r, { s with subscache := aset s.subscache (name, base) r })

mutual

/-- `TypeLib.addType`.  Fuel bounds the recursion through the pended
queue (`_bumpBasePend` re-enters `addType`); the recursion is structural
in the fuel so that the definition computes by kernel reduction. -/
def addType (fuel : Nat) (s : State) (name : String) (info : Info) :
    Except Err Bool × State :=
  match fuel with
  | 0 => (.error .noFuel, s)
  | fuel + 1 =>
    if (aget s.types name).isSome then (.error .dupType, s)
    else
      let ctor := aget info "ctor"
      let subof := aget info "subof"
      if ctor = Option.none ∧ subof = Option.none then (.error .badCfg, s)
      else
        match ctor with
        | some cpv =>
            let s1 : State := { s with typeinfo := aset s.typeinfo name info }
            (match mkInstByCtor cpv name info with
             | .ok item =>
                let s2 := { s1 with types := aset s1.types name item }
                (.ok true, bumpBasePend fuel s2 name)
             | .error _ =>
                -- construction failed: log, drop from typeinfo, and fall
                -- through to the subof block (there is no early return)
                let s2 : State := { s1 with typeinfo := aerase s1.typeinfo name }
                addTypeSub fuel s2 name info subof)
        | Option.none => addTypeSub fuel s name info subof
termination_by structural fuel

/-- The `try: base = self.reqDataType(subof) ... except NoSuchType`
block of `addType`. -/
def addTypeSub (fuel : Nat) (s : State) (name : String) (info : Info)
    (subof : Option PyVal) : Except Err Bool × State :=
  match fuel with
  | 0 => (.error .noFuel, s)
  | fuel + 1 =>
    match reqDataTypePV s subof with
    | .error (.noSuchType tnam) =>
        let s1 : State := { s with typeinfo := aerase s.typeinfo name }
        let cur := (aget s1.pended tnam).getD []
        (.ok false, { s1 with pended := aset s1.pended tnam (cur ++ [(name, info)]) })
    | .error e => (.error e, s)
    | .ok base =>
        let s1 : State := { s with typeinfo := aset s.typeinfo name info }
        (match extendInst base name info with
         | .error e => (.error e, s1)  -- not NoSuchType: propagates uncaught
         | .ok item =>
            let s2 := { s1 with types := aset s1.types name item }
            let s3 := bumpBasePend fuel s2 name
            let s4 := (match subof with
                       | some (.str p) => { s3 with typetree := aset s3.typetree name p }
                       | _ => s3)
            (.ok true, { s4 with subscache := [] }))
termination_by structural fuel

/-- `TypeLib._bumpBasePend`: drain and retry everything pended under the
newly available name (each retry's own failure is swallowed). -/
def bumpBasePend (fuel : Nat) (s : State) (name : String) : State :=
  match fuel with
  | 0 => s
  | fuel + 1 =>
      let entries := (aget s.pended (some (.str name))).getD []
      bumpList fuel { s with pended := aerase s.pended (some (.str name)) } entries
termination_by structural fuel

def bumpList (fuel : Nat) (s : State) (entries : List (String × Info)) : State :=
  match fuel with
  | 0 => s
  | fuel + 1 =>
      match entries with
      | [] => s
      | (n, i) :: rest => bumpList fuel (addType fuel s n i).2 rest
termination_by structural fuel

end

/-- The definitions registered by `TypeLib.__init__` (the ten ctor-backed
base types followed by the subtype registrations), in source order.  The
`loadModModels` batch comes from the excluded model-supply collaborator
and registers nothing here; the cast table carries no claim. -/
def initDefs : List (String × Info) := [
  ("str", [("ctor", .str "synapse.lib.types.StrType"),
           ("doc", .str "The base string type")]),
  ("int", [("ctor", .str "synapse.lib.types.IntType"),
           ("doc", .str "The base integer type")]),
  ("bool", [("ctor", .str "synapse.lib.types.BoolType"),
            ("doc", .str "A boolean type")]),
  ("json", [("ctor", .str "synapse.lib.types.JsonType"),
            ("doc", .str "A json type (stored as str)")]),
  ("guid", [("ctor", .str "synapse.lib.types.GuidType"),
            ("doc", .str "A Globally Unique Identifier type")]),
  ("sepr", [("ctor", .str "synapse.lib.types.SeprType"),
            ("doc", .str "A multi-field composite type which uses separated repr values")]),
  ("comp", [("ctor", .str "synapse.lib.types.CompType"),
            ("doc", .str "A multi-field composite type which generates a stable guid from normalized fields")]),
  ("xref", [("ctor", .str "synapse.lib.types.XrefType"),
            ("doc", .str "A multi-field composite type which can be used to link a known form to an unknown form")]),
  ("time", [("ctor", .str "synapse.lib.types.TimeType"),
            ("doc", .str "Timestamp in milliseconds since epoch"),
            ("ex", .str "20161216084632")]),
  ("syn:tag", [("ctor", .str "synapse.lib.types.TagType"),
               ("doc", .str "A synapse tag"), ("ex", .str "foo.bar")]),
  ("syn:prop", [("subof", .str "str"),
                ("regex", .str "^([\\w]+:)*([\\w]+|\\*)$"), ("lower", .int 1)]),
  ("syn:type", [("subof", .str "str"),
                ("regex", .str "^([\\w]+:)*[\\w]+$"), ("lower", .int 1)]),
  ("syn:glob", [("subof", .str "str"),
                ("regex", .str "^([\\w]+:)*[\\w]+:\\*$"), ("lower", .int 1)]),
  ("int:min", [("subof", .str "int"), ("ismin", .int 1)]),
  ("int:max", [("subof", .str "int"), ("ismax", .int 1)]),
  ("str:lwr", [("subof", .str "str"), ("lower", .int 1), ("strip", .int 1)]),
  ("str:txt", [("subof", .str "str"),
               ("doc", .str "Multi-line text or text blob.")]),
  ("str:hex", [("subof", .str "str"), ("frob_int_fmt", .str "%x"),
               ("regex", .str "^[0-9a-f]+$"), ("lower", .int 1)])]

/-- The default `TypeLib()` state after `__init__` (model supply excluded). -/
def dflt : State := initDefs.foldl (fun s ni => (addType 4 s ni.1 ni.2).2) emptyState

/-! ## Per-type `norm` / `repr` behaviors -/

/-- `StrType.norm`. -/
def strNorm (info : Info) (cfg : StrCfg) (valu : PyVal) : Except Err NR := do
  let valu ← (match cfg.frobintfmt, valu with
    | some f, .int n =>
        if pyTruthy f then
          match f with
          | .str fs =>
              (match pyFmtInt fs n with
               | some fv => pure (PyVal.str fv)
               | Option.none => throw .typeError)
          | _ => throw .typeError
        else pure (PyVal.int n)
    | _, v => pure v)
  match valu with
  | .str sv =>
      let sv := if pyTruthy ((aget info "lower").getD .none) then pyLower sv else sv
      if cfg.nullval = some (.str sv) then pure (.str sv, [])
      else
        let sv := match cfg.restrip with
          | some r => pyReSubEmpty r sv
          | Option.none => sv
        let sv := if pyTruthy cfg.strip then pyStrip sv else sv
        match cfg.envals with
        | some es => if es.contains sv then pure () else throw .badValu
        | Option.none => pure ()
        match cfg.regex with
        | some r => if pyReMatch r sv then pure () else throw .badValu
        | Option.none => pure ()
        pure (.str sv, [])
  | _ => throw .badValu

/-- `IntType.norm`. -/
def intNorm (cfg : IntCfg) (valu : PyVal) (oldval : Option PyVal) :
    Except Err NR := do
  let valu ← (match valu with
    | .str sv =>
        (match pyIntParse sv with
         | some n => pure (PyVal.int n)
         | Option.none => throw .badValu)
    | v => pure v)
  match valu with
  | .int n => do
      let n ← (match oldval, cfg.mm with
        | some (.int o), .useMin => pure (min n o)
        | some (.int o), .useMax => pure (max n o)
        | some _, .useMin => throw .typeError
        | some _, .useMax => throw .typeError
        | _, _ => pure n)
      match cfg.minval with
      | some (.int mn) => if n < mn then throw .badValu else pure ()
      | some _ => throw .typeError
      | Option.none => pure ()
      match cfg.maxval with
      | some (.int mx) => if mx < n then throw .badValu else pure ()
      | some _ => throw .typeError
      | Option.none => pure ()
      pure (.int n, [])
  | _ => throw .badValu

/-- `BoolType.norm`. -/
def boolNorm (valu : PyVal) : Except Err NR :=
  match valu with
  | .str sv =>
      let sv := pyLower sv
      if ["true", "t", "y", "yes", "1", "on"].contains sv then .ok (.int 1, [])
      else if ["false", "f", "n", "no", "0", "off"].contains sv then .ok (.int 0, [])
      else .error .badValu
  | v => .ok (.int (if pyTruthy v then 1 else 0), [])

/-- `JsonType.norm`. -/
def jsonNorm (valu : PyVal) : Except Err NR :=
  match valu with
  | .str sv =>
      (match pyJsonLoads sv with
       | some w => .ok (.str (pyJsonDumps w), [])
       | Option.none => .error .badValu)
  | v => .ok (.str (pyJsonDumps v), [])

/-- `GuidType.norm`.  `rnd` stands for the random 32-hex identifier
`s_common.guid()` would generate for `'*'`.  A plain `TypeLib` has no
`getTufoByProp` capability, so the `$alias` resolver path always raises. -/
def guidNorm (galias : Option PyVal) (rnd : String) (valu : PyVal) :
    Except Err NR :=
  match valu with
  | .str sv =>
      if sv.length < 1 then .error .badValu
      else if sv = "*" then .ok (.str rnd, [])
      else if sv.data.head? ≠ some '$' then
        let retn := stripDashes (pyLower sv)
        if isguid retn then .ok (.str retn, []) else .error .badValu
      else
        (match galias with
         | Option.none => .error .badValu   -- non-aliased guid
         | some _ => .error .badValu)       -- non-cortex tlib
  | _ => .error .badValu

/-- `TimeType.norm`. -/
def timeNorm (mm : MinMax) (valu : PyVal) (oldval : Option PyVal) :
    Except Err NR := do
  let valu ← (match valu with
    | .str sv =>
        (match timeParse sv with
         | some t => pure (PyVal.int t)
         | Option.none => throw .badValu)
    | v => pure v)
  match oldval, mm with
  | some ov, .useMin =>
      (match valu, ov with
       | .int n, .int o => pure (.int (min n o), [])
       | _, _ => throw .typeError)
  | some ov, .useMax =>
      (match valu, ov with
       | .int n, .int o => pure (.int (max n o), [])
       | _, _ => throw .typeError)
  | _, _ => pure (valu, [])

/-- `DataType.repr` and its overrides (`IntType`, `BoolType`, `TimeType`). -/
def reprT (t : TInst) (valu : PyVal) : Except Err PyVal :=
  match t.body with
  | .intB cfg =>
      (match valu, cfg.fmt with
       | .int n, .str f =>
          (match pyFmtInt f n with
           | some sv => .ok (.str sv)
           | Option.none => .error .typeError)
       | _, _ => .error .typeError)
  | .boolB => .ok (.str (if pyTruthy valu then "True" else "False"))
  | .timeB _ =>
      (match valu with
       | .int n =>
          (match timeRepr n with
           | some sv => .ok (.str sv)
           | Option.none => .error .typeError)
       | _ => .error .typeError)
  | _ => .ok valu

/-- `TypeLib.getTypeRepr`. -/
def getTypeRepr (s : State) (name : String) (valu : PyVal) :
    Except Err PyVal :=
  match reqDataType s name with
  | .error e => .error e
  | .ok t => reprT t valu

/-- `MultiFieldType._get_fields` (resolved through the registry at first
use; a field type missing from the registry yields `None`, exactly as
`getTypeInst` does). -/
def getFields (s : State) (info : Info) :
    Except Err (List (String × Option TInst)) :=
  match aget info "fields" with
  | some fv =>
      if pyTruthy fv then
        match fv with
        | .str f =>
            (match (pySplit f "|").mapM (fun part =>
                match pySplit part "," with
                | [fname, ftype] => some (fname, getTypeInst s ftype)
                | _ => Option.none) with
             | some flds => .ok flds
             | Option.none => .error .badInfo)
        | _ => .error .typeError
      else .ok []
  | Option.none =>
      let fnv := (aget info "names").getD .none
      let ftv := (aget info "types").getD (.str "")
      match (if pyTruthy fnv then some fnv else Option.none),
            (if pyTruthy ftv then some ftv else Option.none) with
      | some (.str ns), some (.str ts) =>
          let fnames := pySplit ns ","
          let ftypes := pySplit ts ","
          if fnames.length ≠ ftypes.length then .error .badInfo
          else .ok (fnames.zip (ftypes.map (getTypeInst s)))
      | Option.none, Option.none => .ok []
      | Option.none, some (.str ts) =>
          let ftypes := pySplit ts ","
          if 0 ≠ ftypes.length then .error .badInfo
          else .ok []
      | some (.str ns), Option.none =>
          let fnames := pySplit ns ","
          if fnames.length ≠ 0 then .error .badInfo
          else .ok []
      | _, _ => .error .typeError

/-- `SeprType._split_str`. -/
def seprSplit (sepS : String) (rev : PyVal)
    (flds : List (String × Option TInst)) (text : String) :
    Except Err (List String) :=
  let parts := if pyTruthy rev then pyRSplitN text sepS (flds.length - 1)
               else pySplitN text sepS (flds.length - 1)
  if parts.length ≠ flds.length then .error .badValu else .ok parts

/-- Comp list tail as `(key, value)` pairs (`for k, v in valu[fsize:]`;
an entry that does not unpack into exactly two is a `ValueError`). -/
def pairsOf : List PyVal → Option (List (PyVal × PyVal))
  | [] => some []
  | .list [k, v] :: rest => (pairsOf rest).map (fun ps => (k, v) :: ps)
  | _ => Option.none

/-- Python `min`/`max` over the parsed tag times (all ints here). -/
def intsOf (vs : List PyVal) : Option (List Int) :=
  vs.mapM (fun v => match v with | .int n => some n | _ => Option.none)

mutual

/-- `TypeLib.getTypeNorm`.  `rnd` models the randomness consumed by
`s_common.guid()`; fuel bounds recursion through the type graph (the
recursion is structural in the fuel so the definition computes by kernel
reduction). -/
def getTypeNorm (fuel : Nat) (s : State) (rnd : String) (name : String)
    (valu : PyVal) (oldval : Option PyVal) : Except Err NR :=
  match fuel with
  | 0 => .error .noFuel
  | fuel + 1 =>
      match reqDataType s name with
      | .error e => .error e
      | .ok t => normT fuel s rnd t valu oldval
termination_by structural fuel

/-- `DataType.norm` dispatch over the embedded classes. -/
def normT (fuel : Nat) (s : State) (rnd : String) (t : TInst)
    (valu : PyVal) (oldval : Option PyVal) : Except Err NR :=
  match fuel with
  | 0 => .error .noFuel
  | fuel + 1 =>
      match t.body with
      | .strB cfg => strNorm t.info cfg valu
      | .intB cfg => intNorm cfg valu oldval
      | .boolB => boolNorm valu
      | .jsonB => jsonNorm valu
      | .guidB ga => guidNorm ga rnd valu
      | .timeB mm => timeNorm mm valu oldval
      | .tagB => tagNorm fuel s rnd valu
      | .seprB sep rev => seprNorm fuel s rnd t sep rev valu
      | .compB fields optf => compNorm fuel s rnd fields optf valu
      | .xrefB sn st => xrefNorm fuel s rnd sn st valu
termination_by structural fuel

/-- `TagType.norm`. -/
def tagNorm (fuel : Nat) (s : State) (rnd : String) (valu : PyVal) :
    Except Err NR :=
  match fuel with
  | 0 => .error .noFuel
  | fuel + 1 =>
      match valu with
      | .str v =>
          (match pySplitN v "@" 1 with
           | [tpart, tsuffix] =>
              (match tagTimes fuel s rnd (pySplit tsuffix "-") with
               | .error e => .error e
               | .ok tims =>
                  match intsOf tims with
                  | some (i :: is) =>
                      let tmin := is.foldl min i
                      let tmax := is.foldl max i
                      let subs : Subs :=
                        aset (aset [] "seen:min" (.int tmin)) "seen:max" (.int tmax)
                      let retn := pyLower tpart
                      if tagMatch retn then .ok (.str retn, subs)
                      else .error .badValu
                  | _ => .error .typeError)
           | [tpart] =>
              let retn := pyLower tpart
              if tagMatch retn then .ok (.str retn, []) else .error .badValu
           | _ => .error .typeError)
      | _ => .error .typeError
termination_by structural fuel

/-- The list comprehension `[getTypeNorm('time', s)[0] for s in strs]`. -/
def tagTimes (fuel : Nat) (s : State) (rnd : String) (strs : List String) :
    Except Err (List PyVal) :=
  match fuel with
  | 0 => .error .noFuel
  | fuel + 1 =>
      match strs with
      | [] => .ok []
      | t :: rest =>
          match getTypeNorm fuel s rnd "time" (.str t) Option.none with
          | .error e => .error e
          | .ok (n, _) =>
              match tagTimes fuel s rnd rest with
              | .error e => .error e
              | .ok ns => .ok (n :: ns)
termination_by structural fuel

/-- `SeprType.norm`. -/
def seprNorm (fuel : Nat) (s : State) (rnd : String) (t : TInst)
    (sep rev : PyVal) (valu : PyVal) : Except Err NR :=
  match fuel with
  | 0 => .error .noFuel
  | fuel + 1 =>
      match getFields s t.info with
      | .error e => .error e
      | .ok flds =>
          (match sep with
           | .str sepS =>
              (match valu with
               | .str text =>
                  (match seprSplit sepS rev flds text with
                   | .error e => .error e
                   | .ok parts =>
                      match seprLoop fuel s rnd t.name
                          ((parts.map PyVal.str).zip flds) with
                      | .error e => .error e
                      | .ok (reprs, subs) =>
                          match reprs.mapM (fun r =>
                              match r with | .str rs => some rs | _ => Option.none) with
                          | some strs => .ok (.str (pyJoin sepS strs), subs)
                          | Option.none => .error .typeError)
               | .list xs =>
                  (match seprLoop fuel s rnd t.name (xs.zip flds) with
                   | .error e => .error e
                   | .ok (reprs, subs) =>
                      match reprs.mapM (fun r =>
                          match r with | .str rs => some rs | _ => Option.none) with
                      | some strs => .ok (.str (pyJoin sepS strs), subs)
                      | Option.none => .error .typeError)
               | _ => .error .typeError)
           | _ => .error .typeError)
termination_by structural fuel

/-- The per-field loop of `SeprType.norm` over `self._zipvals(valu)`
(`iterzip` truncates at the shorter sequence).  `tobj == self` — default
object identity — is modelled by registry-name equality: the registry
holds exactly one instance per name. -/
def seprLoop (fuel : Nat) (s : State) (rnd : String) (selfName : String)
    (pairs : List (PyVal × (String × Option TInst))) :
    Except Err (List PyVal × Subs) :=
  match fuel with
  | 0 => .error .noFuel
  | fuel + 1 =>
      match pairs with
      | [] => .ok ([], [])
      | (part, (fname, tobjOpt)) :: rest =>
          match tobjOpt with
          | Option.none => .error .typeError  -- None.norm: AttributeError
          | some tobj =>
              let step : Except Err (PyVal × PyVal × Subs) :=
                if tobj.name = selfName then .ok (part, part, [])
                else
                  match normT fuel s rnd tobj part Option.none with
                  | .error e => .error e
                  | .ok (norm, nsub) =>
                      match reprT tobj norm with
                      | .error e => .error e
                      | .ok rp => .ok (norm, rp, nsub)
              match step with
              | .error e => .error e
              | .ok (norm, rp, nsub) =>
                  match seprLoop fuel s rnd selfName rest with
                  | .error e => .error e
                  | .ok (reprs, subs2) =>
                      let subs0 : Subs := aset [] fname norm
                      let subs0 := nsub.foldl
                        (fun sb kv => aset sb (fname ++ ":" ++ kv.1) kv.2) subs0
                      .ok (rp :: reprs, subs0 ++ subs2)
termination_by structural fuel

/-- `CompType.norm`. -/
def compNorm (fuel : Nat) (s : State) (rnd : String)
    (fields optf : List (String × String)) (valu : PyVal) : Except Err NR :=
  match fuel with
  | 0 => .error .noFuel
  | fuel + 1 =>
      match valu with
      | .str text => compNormStr fuel s rnd fields optf text
      | .list xs => compNormList fuel s rnd fields optf xs
      | _ => .error .badValu  -- 'Expected guid or list/tuple'
termination_by structural fuel

/-- `CompType._norm_str`. -/
def compNormStr (fuel : Nat) (s : State) (rnd : String)
    (fields optf : List (String × String)) (text : String) : Except Err NR :=
  match fuel with
  | 0 => .error .noFuel
  | fuel + 1 =>
      let text := pyStrip text
      if text = "" then .error .badValu
      else if text.data.head? ≠ some '(' then
        getTypeNorm fuel s rnd "guid" (.str text) Option.none
      else
        match parseListLit text with
        | some vals => compNormList fuel s rnd fields optf vals
        | Option.none => .error .badValu
termination_by structural fuel

/-- `CompType._norm_list`. -/
def compNormList (fuel : Nat) (s : State) (rnd : String)
    (fields optf : List (String × String)) (xs : List PyVal) : Except Err NR :=
  match fuel with
  | 0 => .error .noFuel
  | fuel + 1 =>
      let fsize := fields.length
      if xs.length < fsize then .error .badValu
      else
        match pairsOf (xs.drop fsize) with
        | Option.none => .error .typeError
        | some kvs =>
            let opts : List (PyVal × PyVal) :=
              kvs.foldl (fun d p => aset d p.1 p.2) []
            match compReqLoop fuel s rnd (xs.take fsize) fields [] [] with
            | .error e => .error e
            | .ok (retn, subs) =>
                match compOptLoop fuel s rnd optf opts retn subs with
                | .error e => .error e
                | .ok (retn, subs) => .ok (.str (guidOf (.list retn)), subs)
termination_by structural fuel

/-- The required-field loop of `_norm_list` (`iterzip(vals, self.fields)`). -/
def compReqLoop (fuel : Nat) (s : State) (rnd : String)
    (vs : List PyVal) (fl : List (String × String)) (retn : List PyVal)
    (subs : Subs) : Except Err (List PyVal × Subs) :=
  match fuel with
  | 0 => .error .noFuel
  | fuel + 1 =>
      match vs, fl with
      | v :: vs, (fname, tname) :: fl =>
          (match getTypeNorm fuel s rnd tname v Option.none with
           | .error e => .error e
           | .ok (norm, ssubs) =>
              let subs := aset subs fname norm
              let subs := ssubs.foldl
                (fun sb kv => aset sb (fname ++ ":" ++ kv.1) kv.2) subs
              compReqLoop fuel s rnd vs fl (retn ++ [norm]) subs)
      | _, _ => .ok (retn, subs)
termination_by structural fuel

/-- The optional-field loop of `_norm_list` (`for name, tname in
self.optfields`; a present option's `(name, norm)` pair is appended to
the guid tuple). -/
def compOptLoop (fuel : Nat) (s : State) (rnd : String)
    (ofs : List (String × String)) (opts : List (PyVal × PyVal))
    (retn : List PyVal) (subs : Subs) : Except Err (List PyVal × Subs) :=
  match fuel with
  | 0 => .error .noFuel
  | fuel + 1 =>
      match ofs with
      | [] => .ok (retn, subs)
      | (fname, tname) :: rest =>
          match aget opts (PyVal.str fname) with
          | Option.none => compOptLoop fuel s rnd rest opts retn subs
          | some v =>
              if v = PyVal.none then compOptLoop fuel s rnd rest opts retn subs
              else
                match getTypeNorm fuel s rnd tname v Option.none with
                | .error e => .error e
                | .ok (norm, ssubs) =>
                    let subs := aset subs fname norm
                    let subs := ssubs.foldl
                      (fun sb kv => aset sb (fname ++ ":" ++ kv.1) kv.2) subs
                    compOptLoop fuel s rnd rest opts
                      (retn ++ [.list [.str fname, norm]]) subs
termination_by structural fuel

/-- `XrefType.norm`. -/
def xrefNorm (fuel : Nat) (s : State) (rnd : String)
    (sorcName sorcType : Option String) (valu : PyVal) : Except Err NR :=
  match fuel with
  | 0 => .error .noFuel
  | fuel + 1 =>
      match valu with
      | .str text => xrefNormStr fuel s rnd sorcName sorcType text
      | .list xs => xrefNormList fuel s rnd sorcName sorcType xs
      | _ => .error .badValu  -- 'Expected guid, psv, or list'
termination_by structural fuel

/-- `XrefType._norm_str`. -/
def xrefNormStr (fuel : Nat) (s : State) (rnd : String)
    (sorcName sorcType : Option String) (text : String) : Except Err NR :=
  match fuel with
  | 0 => .error .noFuel
  | fuel + 1 =>
      if text.length = 32 ∧ ¬ text.data.contains '|' then
        getTypeNorm fuel s rnd "guid" (.str text) Option.none
      else
        xrefNormList fuel s rnd sorcName sorcType ((pySplit text "|").map PyVal.str)
termination_by structural fuel

/-- `XrefType._norm_list`.  When the part count is not 3 the source
executes `self._raiseBadValu(text, ...)` where `text` is an unbound local
name, so Python raises `NameError` — not `BadTypeValu`. -/
def xrefNormList (fuel : Nat) (s : State) (rnd : String)
    (sorcName sorcType : Option String) (xs : List PyVal) : Except Err NR :=
  match fuel with
  | 0 => .error .noFuel
  | fuel + 1 =>
      if xs.length ≠ 3 then .error .nameError
      else
        match xs with
        | [valu, tstr, tval] =>
            (match sorcName, sorcType with
             | some sn, some st =>
                (match getTypeNorm fuel s rnd st valu Option.none with
                 | .error e => .error e
                 | .ok (nvalu, _) =>
                    match tstr with
                    | .str tn =>
                        (match getTypeNorm fuel s rnd tn tval Option.none with
                         | .error e => .error e
                         | .ok (ntval, _) =>
                            let iden := guidOf (.list [nvalu, tstr, ntval])
                            let subs := dictOf
                              [(sn, nvalu), ("xtype", tstr),
                               ("xref:" ++ tn, ntval)]
                            .ok (.str iden, subs))
                    | _ => .error (.noSuchType (some tstr)))
             | _, _ => .error (.noSuchType Option.none))
        | _ => .error .nameError
termination_by structural fuel

end

/-! ## Association-list (Python dict) lemmas -/

theorem aget_aset {K V : Type} [DecidableEq K] (d : List (K × V)) (k k' : K)
    (v : V) : aget (aset d k v) k' = if k = k' then some v else aget d k' := by
  induction d with
  | nil => simp only [aset, aget]
  | cons kv rest ih =>
      obtain ⟨k0, v0⟩ := kv
      simp only [aset]
      by_cases h0 : k0 = k
      · subst h0
        by_cases h1 : k0 = k'
        · subst h1; simp [aget]
        · simp [aget, h1]
      · simp only [if_neg h0, aget]
        by_cases h1 : k0 = k'
        · subst h1
          have : ¬ k = k0 := fun h => h0 h.symm
          simp [this]
        · simp [h1, ih]

theorem aget_eq_none_of_not_mem {K V : Type} [DecidableEq K]
    {d : List (K × V)} {k : K} (h : k ∉ d.map Prod.fst) :
    aget d k = Option.none := by
  induction d with
  | nil => rfl
  | cons kv rest ih =>
      obtain ⟨k0, v0⟩ := kv
      simp only [List.map_cons, List.mem_cons] at h
      push_neg at h
      have hne : ¬ k0 = k := fun he => h.1 he.symm
      simp only [aget, if_neg hne, ih h.2]

theorem aget_append {K V : Type} [DecidableEq K]
    (d₁ d₂ : List (K × V)) (k : K) :
    aget (d₁ ++ d₂) k =
      match aget d₁ k with
      | some v => some v
      | Option.none => aget d₂ k := by
  induction d₁ with
  | nil => simp [aget]
  | cons kv rest ih =>
      obtain ⟨k0, v0⟩ := kv
      simp only [List.cons_append, aget]
      by_cases h0 : k0 = k
      · simp [h0]
      · simp [h0, ih]

theorem aget_aerase_ne {K V : Type} [DecidableEq K]
    (d : List (K × V)) (k k' : K) (h : k ≠ k') :
    aget (aerase d k) k' = aget d k' := by
  induction d with
  | nil => rfl
  | cons kv rest ih =>
      obtain ⟨k0, v0⟩ := kv
      by_cases h0 : k0 = k
      · simp only [aerase, if_pos h0, aget,
          if_neg (show ¬ k0 = k' from fun he => h (h0 ▸ he))]
      · simp only [aerase, if_neg h0, aget]
        by_cases h1 : k0 = k'
        · simp [h1]
        · simp [h1, ih]

theorem aget_aerase_self {K V : Type} [DecidableEq K]
    (d : List (K × V)) (k : K) (hk : (d.map Prod.fst).Nodup) :
    aget (aerase d k) k = Option.none := by
  induction d with
  | nil => rfl
  | cons kv rest ih =>
      obtain ⟨k0, v0⟩ := kv
      simp only [List.map_cons, List.nodup_cons] at hk
      simp only [aerase]
      by_cases h0 : k0 = k
      · subst h0
        simp only [if_pos rfl]
        exact aget_eq_none_of_not_mem hk.1
      · simp only [if_neg h0, aget, if_neg h0]
        exact ih hk.2

theorem aset_append_of_aget_none {K V : Type} [DecidableEq K]
    (d : List (K × V)) (k : K) (v : V) (h : aget d k = Option.none) :
    aset d k v = d ++ [(k, v)] := by
  induction d with
  | nil => simp [aset]
  | cons kv rest ih =>
      obtain ⟨k0, v0⟩ := kv
      simp only [aget] at h
      by_cases h0 : k0 = k
      · simp [h0] at h
      · simp only [aset, if_neg h0, List.cons_append, List.cons.injEq, true_and]
        exact ih (by simpa [h0] using h)

theorem aerase_aset_cancel {K V : Type} [DecidableEq K]
    (d : List (K × V)) (k : K) (v : V) (h : aget d k = Option.none) :
    aerase (aset d k v) k = d := by
  induction d with
  | nil => simp [aset, aerase]
  | cons kv rest ih =>
      obtain ⟨k0, v0⟩ := kv
      simp only [aget] at h
      by_cases h0 : k0 = k
      · simp [h0] at h
      · simp only [aset, if_neg h0, aerase, if_neg h0, List.cons.injEq, true_and]
        exact ih (by simpa [h0] using h)

theorem aget_foldl_aset_nodup {K V : Type} [DecidableEq K]
    (ps : List (K × V)) (d : List (K × V))
    (h : ∀ p ∈ ps, aget d p.1 = Option.none)
    (hn : (ps.map Prod.fst).Nodup) :
    ps.foldl (fun acc p => aset acc p.1 p.2) d = d ++ ps := by
  induction ps generalizing d with
  | nil => simp
  | cons p rest ih =>
      obtain ⟨k0, v0⟩ := p
      simp only [List.map_cons, List.nodup_cons] at hn
      simp only [List.foldl_cons]
      rw [aset_append_of_aget_none d k0 v0 (h _ (List.mem_cons_self _ _))]
      rw [ih (d ++ [(k0, v0)]) ?_ hn.2]
      · simp
      · intro q hq
        have h1 := h q (List.mem_cons_of_mem _ hq)
        have h2 : ¬ k0 = q.1 := by
          intro he
          exact hn.1 (he ▸ List.mem_map_of_mem Prod.fst hq)
        rw [aget_append, h1]
        simp [aget, h2]

/-- Building a dict from distinct-keyed pairs is the identity. -/
theorem dictOf_nodup {K V : Type} [DecidableEq K] (ps : List (K × V))
    (hn : (ps.map Prod.fst).Nodup) :
    ps.foldl (fun acc p => aset acc p.1 p.2) ([] : List (K × V)) = ps := by
  simpa using aget_foldl_aset_nodup ps [] (by simp [aget]) hn

/-- First-match lookup into distinct-keyed pairs is invariant under
permutation. -/
theorem aget_perm_nodup {K V : Type} [DecidableEq K]
    {ps qs : List (K × V)} (hp : ps.Perm qs)
    (hn : (ps.map Prod.fst).Nodup) (k : K) : aget ps k = aget qs k := by
  induction hp with
  | nil => rfl
  | cons x l ih =>
      simp only [List.map_cons, List.nodup_cons] at hn
      simp only [aget]
      split
      · rfl
      · exact ih hn.2
  | swap x y l =>
      obtain ⟨ky, vy⟩ := y
      obtain ⟨kx, vx⟩ := x
      simp only [List.map_cons, List.nodup_cons, List.mem_cons] at hn
      simp only [aget]
      by_cases h0 : ky = k
      · subst h0
        have : ¬ kx = ky := fun h => hn.1 (Or.inl h.symm)
        simp [this]
      · simp [h0]
  | trans h1 h2 ih1 ih2 =>
      rw [ih1 hn, ih2]
      have := (h1.map Prod.fst).nodup_iff.mp hn
      exact this

/-! ## Claim C5 — cross-reference part count -/

/-- An `xref` subtype configured as in the class docstring
(`addType('foo:barrefs', subof='xref', source='bar,foo:bar')`, with the
source type taken as `str` so the state is self-contained). -/
def xrefDemo : State :=
  (addType 4 dflt "foo:barrefs"
    [("subof", .str "xref"), ("source", .str "bar,str")]).2

/-- **C5.** The claim says a list whose length is not exactly 3, or a
pipe-separated text that does not split into exactly 3 parts, fails by
raising `BadValue`.  The part-count check is real, but the failure path
executes `self._raiseBadValu(text, ...)` in `XrefType._norm_list` where
`text` is an unbound local name, so CPython raises `NameError` — not
`BadTypeValu`: the evaluation below shows all three failing inputs
produce the embedded `NameError`, which differs from `BadValue`. -/
theorem c5_xref_wrong_count_raises_nameerror :
    getTypeNorm 5 xrefDemo "" "foo:barrefs"
      (.list [.str "a", .str "b"]) Option.none = .error .nameError ∧
    getTypeNorm 5 xrefDemo "" "foo:barrefs"
      (.list [.str "a", .str "str", .str "b", .str "c"]) Option.none
      = .error .nameError ∧
    getTypeNorm 5 xrefDemo "" "foo:barrefs" (.str "a|b") Option.none
      = .error .nameError ∧
    Err.nameError ≠ Err.badValu :=
  ⟨rfl, rfl, rfl, by decide⟩

/-! ## Claim C6 — integer min/max accumulation -/

/-- `IntType.norm` on an integer with an integer `oldval` under a
min-accumulating configuration. -/
theorem intNorm_useMin (cfg : IntCfg) (v o : Int) (mn mx : Option Int)
    (hmm : cfg.mm = .useMin)
    (hmn : cfg.minval = mn.map PyVal.int) (hmx : cfg.maxval = mx.map PyVal.int) :
    intNorm cfg (.int v) (some (.int o)) =
      (if mn.any (fun b => decide (min v o < b)) then .error .badValu
       else if mx.any (fun b => decide (b < min v o)) then .error .badValu
       else .ok (.int (min v o), [])) := by
  cases mn with
  | none =>
      cases mx with
      | none => simp [intNorm, hmm, hmn, hmx, Bind.bind, Except.bind, pure, Except.pure,
            throw, throwThe, MonadExceptOf.throw, Except.map, Functor.map,
            min_lt_iff, lt_min_iff, max_lt_iff, lt_max_iff]
      | some b => simp [intNorm, hmm, hmn, hmx, Bind.bind, Except.bind, pure, Except.pure,
            throw, throwThe, MonadExceptOf.throw, Except.map, Functor.map,
            min_lt_iff, lt_min_iff, max_lt_iff, lt_max_iff]
  | some a =>
      cases mx with
      | none => simp [intNorm, hmm, hmn, hmx, Bind.bind, Except.bind, pure, Except.pure,
            throw, throwThe, MonadExceptOf.throw, Except.map, Functor.map,
            min_lt_iff, lt_min_iff, max_lt_iff, lt_max_iff]
      | some b => simp [intNorm, hmm, hmn, hmx, Bind.bind, Except.bind, pure, Except.pure,
            throw, throwThe, MonadExceptOf.throw, Except.map, Functor.map,
            min_lt_iff, lt_min_iff, max_lt_iff, lt_max_iff]

/-- `IntType.norm` on an integer with an integer `oldval` under a
max-accumulating configuration. -/
theorem intNorm_useMax (cfg : IntCfg) (v o : Int) (mn mx : Option Int)
    (hmm : cfg.mm = .useMax)
    (hmn : cfg.minval = mn.map PyVal.int) (hmx : cfg.maxval = mx.map PyVal.int) :
    intNorm cfg (.int v) (some (.int o)) =
      (if mn.any (fun b => decide (max v o < b)) then .error .badValu
       else if mx.any (fun b => decide (b < max v o)) then .error .badValu
       else .ok (.int (max v o), [])) := by
  cases mn with
  | none =>
      cases mx with
      | none => simp [intNorm, hmm, hmn, hmx, Bind.bind, Except.bind, pure, Except.pure,
            throw, throwThe, MonadExceptOf.throw, Except.map, Functor.map,
            min_lt_iff, lt_min_iff, max_lt_iff, lt_max_iff]
      | some b => simp [intNorm, hmm, hmn, hmx, Bind.bind, Except.bind, pure, Except.pure,
            throw, throwThe, MonadExceptOf.throw, Except.map, Functor.map,
            min_lt_iff, lt_min_iff, max_lt_iff, lt_max_iff]
  | some a =>
      cases mx with
      | none => simp [intNorm, hmm, hmn, hmx, Bind.bind, Except.bind, pure, Except.pure,
            throw, throwThe, MonadExceptOf.throw, Except.map, Functor.map,
            min_lt_iff, lt_min_iff, max_lt_iff, lt_max_iff]
      | some b => simp [intNorm, hmm, hmn, hmx, Bind.bind, Except.bind, pure, Except.pure,
            throw, throwThe, MonadExceptOf.throw, Except.map, Functor.map,
            min_lt_iff, lt_min_iff, max_lt_iff, lt_max_iff]

/-- **C6.**  For the default `int:min` type (configured `ismin`) and any
integers `v` and non-`None` `oldval` `o`, `norm(v, oldval=o)` returns
`min(v, o)`; for `int:max` it returns `max(v, o)`; and for any
min/max-accumulating `IntType` configuration carrying `min`/`max` bounds,
the bounds are enforced on the accumulated result, raising `BadValue`
when violated. -/
theorem c6_int_minmax_accumulation (fuel : Nat) (rnd : String) (v o : Int)
    (cfg : IntCfg) (mn mx : Option Int)
    (hmn : cfg.minval = mn.map PyVal.int) (hmx : cfg.maxval = mx.map PyVal.int) :
    getTypeNorm (fuel + 2) dflt rnd "int:min" (.int v) (some (.int o))
      = .ok (.int (min v o), []) ∧
    getTypeNorm (fuel + 2) dflt rnd "int:max" (.int v) (some (.int o))
      = .ok (.int (max v o), []) ∧
    (cfg.mm = .useMin →
      intNorm cfg (.int v) (some (.int o)) =
        (if mn.any (fun b => decide (min v o < b)) then .error .badValu
         else if mx.any (fun b => decide (b < min v o)) then .error .badValu
         else .ok (.int (min v o), []))) ∧
    (cfg.mm = .useMax →
      intNorm cfg (.int v) (some (.int o)) =
        (if mn.any (fun b => decide (max v o < b)) then .error .badValu
         else if mx.any (fun b => decide (b < max v o)) then .error .badValu
         else .ok (.int (max v o), []))) := by
  refine ⟨?_, ?_, fun hmm => intNorm_useMin cfg v o mn mx hmm hmn hmx,
    fun hmm => intNorm_useMax cfg v o mn mx hmm hmn hmx⟩
  · have hreq : reqDataType dflt "int:min" =
        .ok { name := "int:min",
              info := [("subof", .str "int"), ("ismin", .int 1),
                       ("ctor", .str "synapse.lib.types.IntType"),
                       ("doc", .str "The base integer type")],
              body := .intB { fmt := .str "%d", minval := Option.none,
                              maxval := Option.none, mm := .useMin } } := rfl
    simp only [getTypeNorm, hreq, normT]
    have := intNorm_useMin
      { fmt := .str "%d", minval := Option.none, maxval := Option.none,
        mm := .useMin } v o Option.none Option.none rfl rfl rfl
    simpa using this
  · have hreq : reqDataType dflt "int:max" =
        .ok { name := "int:max",
              info := [("subof", .str "int"), ("ismax", .int 1),
                       ("ctor", .str "synapse.lib.types.IntType"),
                       ("doc", .str "The base integer type")],
              body := .intB { fmt := .str "%d", minval := Option.none,
                              maxval := Option.none, mm := .useMax } } := rfl
    simp only [getTypeNorm, hreq, normT]
    have := intNorm_useMax
      { fmt := .str "%d", minval := Option.none, maxval := Option.none,
        mm := .useMax } v o Option.none Option.none rfl rfl rfl
    simpa using this

/-- Witness for C6 at the spec's concrete example (`50` with `oldval=30`),
plus a configured lower bound `40` that the accumulated `30` violates. -/
theorem c6_witness :
    getTypeNorm 2 dflt "" "int:min" (.int 50) (some (.int 30))
      = .ok (.int 30, []) ∧
    getTypeNorm 2 dflt "" "int:max" (.int 50) (some (.int 30))
      = .ok (.int 50, []) ∧
    intNorm { fmt := .str "%d", minval := some (.int 40),
              maxval := Option.none, mm := .useMin }
      (.int 50) (some (.int 30)) = .error .badValu := by
  have h := c6_int_minmax_accumulation 0 "" 50 30
    { fmt := .str "%d", minval := some (.int 40),
      maxval := Option.none, mm := .useMin }
    (some 40) Option.none rfl rfl
  refine ⟨by simpa using h.1, by simpa using h.2.1, ?_⟩
  have h3 := h.2.2.1 rfl
  simpa using h3

/-! ## Claim C10 — bases always contain the name itself -/

/-- **C10.**  For every type name — registered or not — `getTypeBases`
returns a list containing the name itself; for a name absent from the
inheritance tree the result is exactly `[name]`; and consequently
`isSubType(name, name)` answers `True` (the cache hypothesis states that
no cached self-entry is `False`, which holds in every reachable state
since `isSubType` only ever caches the computed membership, which is
`True` for a self-query).  Both operations are total functions of the
state: no input raises. -/
theorem c10_bases_contain_self (s : State) (name : String) :
    name ∈ getTypeBases s name ∧
    (aget s.typetree name = Option.none → getTypeBases s name = [name]) ∧
    ((∀ r, aget s.subscache (name, name) = some r → r = true) →
      (isSubType s name name).1 = true) := by
  refine ⟨?_, ?_, ?_⟩
  · simp [getTypeBases]
  · intro h
    simp [getTypeBases, basesAux, h]
  · intro hc
    unfold isSubType
    cases hcase : aget s.subscache (name, name) with
    | some r => simpa using hc r hcase
    | none =>
        have hm : name ∈ getTypeBases s name := by simp [getTypeBases]
        simp [hcase, hm]

/-- Witness for C10 at the default library and a name that was never
registered. -/
theorem c10_witness :
    "wat" ∈ getTypeBases dflt "wat" ∧
    getTypeBases dflt "wat" = ["wat"] ∧
    (isSubType dflt "wat" "wat").1 = true := by
  have h := c10_bases_contain_self dflt "wat"
  exact ⟨h.1, h.2.1 rfl, h.2.2 (by intro r hr; simp [show aget dflt.subscache ("wat", "wat") = Option.none from rfl] at hr)⟩

/-! ## Claim C8 — the subtype cache is cleared on every new edge -/

/-- **C8.**  Whenever `addType` successfully registers a `subof`
definition (no `ctor`, parent resolved, returns `True`), the resulting
state's entire subtype cache is the empty dict: the cache is cleared, not
partially updated, so no stale `isSubType` answer survives the addition
of an inheritance edge. -/
theorem c8_subscache_cleared (fuel : Nat) (s : State) (name : String)
    (info : Info) (p : PyVal) (s' : State)
    (hc : aget info "ctor" = Option.none) (hs : aget info "subof" = some p)
    (h : addType fuel s name info = (.ok true, s')) :
    s'.subscache = [] := by
  cases fuel with
  | zero => simp [addType] at h
  | succ fuel =>
      simp only [addType, hc, hs] at h
      split at h
      · simp at h
      · split at h
        · simp at h
        cases fuel with
        | zero => simp [addTypeSub] at h
        | succ fuel =>
            simp only [addTypeSub] at h
            split at h
            · simp at h
            · simp at h
            · rename_i base heq
              split at h
              · simp at h
              · simp only [Prod.mk.injEq] at h
                rw [← h.2]

/-- Witness for C8: registering a fresh `str` subtype on a state whose
cache holds an entry (the demo state after one `isSubType` query). -/
theorem c8_witness :
    (isSubType dflt "str:hex" "str").2.subscache ≠ [] ∧
    addType 4 (isSubType dflt "str:hex" "str").2 "foo:w"
        [("subof", .str "str")]
      = ((addType 4 (isSubType dflt "str:hex" "str").2 "foo:w"
          [("subof", .str "str")]).1,
         (addType 4 (isSubType dflt "str:hex" "str").2 "foo:w"
          [("subof", .str "str")]).2) ∧
    ((addType 4 (isSubType dflt "str:hex" "str").2 "foo:w"
        [("subof", .str "str")]).2).subscache = [] := by
  refine ⟨by decide, rfl, ?_⟩
  exact c8_subscache_cleared 4 (isSubType dflt "str:hex" "str").2 "foo:w"
    [("subof", .str "str")] (.str "str") _ rfl rfl rfl

/-! ## Claim C4 — constructor failures -/

theorem aerase_of_aget_none {K V : Type} [DecidableEq K]
    (d : List (K × V)) (k : K) (h : aget d k = Option.none) :
    aerase d k = d := by
  induction d with
  | nil => rfl
  | cons kv rest ih =>
      obtain ⟨k0, v0⟩ := kv
      simp only [aget] at h
      by_cases h0 : k0 = k
      · simp [h0] at h
      · simp only [aerase, if_neg h0, List.cons.injEq, true_and]
        exact ih (by simpa [h0] using h)

/-- The queue of definitions pended under the key `None` — reachable only
through a constructor failure with no `subof`. -/
def pN (s : State) : List (String × Info) :=
  (aget s.pended Option.none).getD []

theorem pN_types (s : State) (x : List (String × TInst)) :
    pN { s with types := x } = pN s := rfl

theorem pN_aset_some (s : State) (k : Option PyVal) (l : List (String × Info))
    (hk : k ≠ Option.none) :
    pN { s with pended := aset s.pended k l } = pN s := by
  simp only [pN, aget_aset, if_neg hk]

theorem pN_aerase_some (s : State) (x : PyVal) :
    pN { s with pended := aerase s.pended (some x) } = pN s := by
  simp only [pN, aget_aerase_ne s.pended (some x) Option.none (by simp)]

/-- Entries pended under `None` are never removed by `addType` (only the
string-keyed queues are drained); every call leaves the `None` queue as a
prefix of the new one. -/
theorem pendedNone_mono : ∀ fuel : Nat,
    (∀ s n i, pN s <+: pN ((addType fuel s n i).2)) ∧
    (∀ s n i so, pN s <+: pN ((addTypeSub fuel s n i so).2)) ∧
    (∀ s n, pN s <+: pN (bumpBasePend fuel s n)) ∧
    (∀ s es, pN s <+: pN (bumpList fuel s es)) := by
  intro fuel
  induction fuel with
  | zero =>
      refine ⟨fun s n i => ?_, fun s n i so => ?_, fun s n => ?_, fun s es => ?_⟩
      all_goals simp [addType, addTypeSub, bumpBasePend, bumpList]
  | succ fuel ih =>
      obtain ⟨ihA, ihS, ihB, ihL⟩ := ih
      have hL : ∀ s es, pN s <+: pN (bumpList (fuel + 1) s es) := by
        intro s es
        cases es with
        | nil => simp [bumpList]
        | cons e rest =>
            obtain ⟨n, i⟩ := e
            show pN s <+: pN (bumpList fuel (addType fuel s n i).2 rest)
            exact (ihA s n i).trans (ihL _ rest)
      have hB : ∀ s n, pN s <+: pN (bumpBasePend (fuel + 1) s n) := by
        intro s n
        show pN s <+: pN (bumpList fuel
          { s with pended := aerase s.pended (some (.str n)) }
          ((aget s.pended (some (.str n))).getD []))
        have h1 : pN s = pN { s with pended := aerase s.pended (some (.str n)) } :=
          (pN_aerase_some s (.str n)).symm
        rw [h1]
        exact ihL _ _
      have hS : ∀ s n i so, pN s <+: pN ((addTypeSub (fuel + 1) s n i so).2) := by
        intro s n i so
        simp only [addTypeSub]
        split
        · rename_i tnam heq
          by_cases h0 : tnam = Option.none
          · subst h0
            simp only [pN, aget_aset, if_pos rfl, Option.getD_some]
            exact ⟨[(n, i)], rfl⟩
          · simp only [pN, aget_aset, if_neg h0]
            exact List.prefix_refl _
        · exact List.prefix_refl _
        · rename_i base heq
          split
          · exact List.prefix_refl _
          · rename_i item heq2
            have hgoal : pN s <+: pN (bumpBasePend fuel
                { s with typeinfo := aset s.typeinfo n i,
                         types := aset s.types n item } n) := by
              have h2 : pN s = pN { s with typeinfo := aset s.typeinfo n i,
                                           types := aset s.types n item } := rfl
              rw [h2]
              exact ihB _ n
            split
            · exact hgoal
            · exact hgoal
      refine ⟨fun s n i => ?_, hS, hB, hL⟩
      simp only [addType]
      split
      · exact List.prefix_refl _
      · split
        · exact List.prefix_refl _
        · split
          · rename_i cpv heq
            split
            · rename_i item heq2
              exact ihB { s with typeinfo := aset s.typeinfo n i,
                                 types := aset s.types n item } n
            · have h2 : pN s = pN { s with
                  typeinfo := aerase (aset s.typeinfo n i) n } := rfl
              rw [h2]
              exact ihS _ n i _
          · exact ihS _ n i _

/-- **C4 counterexample.**  `addType` with a failing ctor and no `subof`
falls through to the `subof` block, `reqDataType(None)` raises
`NoSuchType(name=None)`, and the handler appends the definition to
`pended[None]`: the definition *is* enqueued on the pending queue,
contradicting the claim's "never enqueued". -/
theorem c4_counterexample :
    (addType 6 dflt "foo" [("ctor", .str "no.such.Ctor")]).1 = .ok false ∧
    aget ((addType 6 dflt "foo" [("ctor", .str "no.such.Ctor")]).2).pended
        Option.none = some [("foo", [("ctor", .str "no.such.Ctor")])] :=
  ⟨rfl, rfl⟩

/-- **C4 (amended).**  When `addType` is called with a ctor option (and
no `subof`) whose construction fails, the definition is logged and
dropped from both `types` and `typeinfo` and the call returns `False`;
however it *is* appended to the pending queue under the key `None`, where
no later registration can ever retry it (pended entries are only drained
under a type's string name, and `None`-keyed entries survive every
`addType` call as a prefix of the queue). -/
theorem c4_ctor_failure_dropped (fuel : Nat) (s : State) (name : String)
    (info : Info) (c : PyVal) (e : Err)
    (hc : aget info "ctor" = some c)
    (hfail : mkInstByCtor c name info = .error e)
    (hs : aget info "subof" = Option.none)
    (hnotyp : aget s.types name = Option.none)
    (hnoinfo : aget s.typeinfo name = Option.none) :
    (addType (fuel + 2) s name info =
      (.ok false,
       { s with pended := aset s.pended Option.none (pN s ++ [(name, info)]) })) ∧
    (∀ fuel2 s2 n2 i2, pN s2 <+: pN ((addType fuel2 s2 n2 i2).2)) := by
  refine ⟨?_, fun fuel2 s2 n2 i2 => (pendedNone_mono fuel2).1 s2 n2 i2⟩
  simp only [addType, hnotyp, Option.isSome_none, Bool.false_eq_true,
    if_false, hc, hs]
  rw [if_neg (by simp)]
  simp only [hfail]
  have hcancel : aerase (aset s.typeinfo name info) name = s.typeinfo :=
    aerase_aset_cancel _ _ _ hnoinfo
  simp only [addTypeSub, hcancel]
  have hreq : reqDataTypePV
      { s with typeinfo := s.typeinfo } Option.none
      = .error (.noSuchType Option.none) := rfl
  simp only [reqDataTypePV]
  rw [aerase_of_aget_none _ _ hnoinfo]
  rfl

/-- Witness for the amended C4 on the default library. -/
theorem c4_witness :
    addType 6 dflt "foo" [("ctor", .str "no.such.Ctor")] =
      (.ok false,
       { dflt with
          pended := aset dflt.pended Option.none
            (pN dflt ++ [("foo", [("ctor", .str "no.such.Ctor")])]) }) := by
  have h := c4_ctor_failure_dropped 4 dflt "foo"
    [("ctor", .str "no.such.Ctor")] (.str "no.such.Ctor") .noSuchDyn
    rfl rfl rfl rfl rfl
  exact h.1

/-! ## Claim C3 — deferred resolution, cascading -/

/-- `addType` on a `subof` definition whose parent is not yet registered:
returns `False` and queues the definition under the parent's name. -/
theorem addType_defer (fuel : Nat) (s : State) (child parent : String)
    (infoC : Info)
    (hc : aget infoC "ctor" = Option.none)
    (hs : aget infoC "subof" = some (.str parent))
    (hpar : aget s.types parent = Option.none)
    (hchild : aget s.types child = Option.none)
    (hinfo : aget s.typeinfo child = Option.none) :
    addType (fuel + 2) s child infoC =
      (.ok false,
       { s with
          pended := aset s.pended (some (.str parent))
            (((aget s.pended (some (.str parent))).getD []) ++ [(child, infoC)]) }) := by
  simp only [addType, hchild, Option.isSome_none, Bool.false_eq_true,
    if_false, hc, hs]
  rw [if_neg (by simp)]
  simp only [addTypeSub, reqDataTypePV, hpar]
  rw [aerase_of_aget_none _ _ hinfo]

/-- **C3.**  Child-before-parent registration: on a state with no pending
entries, registering `gchild` (subof `child`) and then `child` (subof
`parent`) both return `False` and leave neither in `types` (each is held
only in the pending queue).  A later successful ctor-registration of
`parent` returns `True` and — without any further `addType` call for
them — resolves `child` and, cascading, `gchild`. -/
theorem c3_deferred_resolution (fuel : Nat) (s0 : State)
    (parent child gchild : String) (infoP infoC infoG : Info)
    (cpv : PyVal) (item citem gitem : TInst)
    (hcC : aget infoC "ctor" = Option.none)
    (hsC : aget infoC "subof" = some (.str parent))
    (hcG : aget infoG "ctor" = Option.none)
    (hsG : aget infoG "subof" = some (.str child))
    (hcP : aget infoP "ctor" = some cpv)
    (hmk : mkInstByCtor cpv parent infoP = .ok item)
    (hext1 : extendInst item child infoC = .ok citem)
    (hext2 : extendInst citem gchild infoG = .ok gitem)
    (hne1 : child ≠ parent) (hne2 : gchild ≠ parent) (hne3 : gchild ≠ child)
    (habsP : aget s0.types parent = Option.none)
    (habsC : aget s0.types child = Option.none)
    (habsG : aget s0.types gchild = Option.none)
    (hinfC : aget s0.typeinfo child = Option.none)
    (hinfG : aget s0.typeinfo gchild = Option.none)
    (hpend : s0.pended = []) :
    (addType (fuel + 2) s0 gchild infoG).1 = .ok false ∧
    aget ((addType (fuel + 2) s0 gchild infoG).2).types gchild = Option.none ∧
    aget ((addType (fuel + 2) s0 gchild infoG).2).pended (some (.str child))
      = some [(gchild, infoG)] ∧
    ((addType (fuel + 2) ((addType (fuel + 2) s0 gchild infoG).2)
        child infoC).1 = .ok false) ∧
    aget ((addType (fuel + 2) ((addType (fuel + 2) s0 gchild infoG).2)
        child infoC).2).types child = Option.none ∧
    ((addType (fuel + 12)
        ((addType (fuel + 2) ((addType (fuel + 2) s0 gchild infoG).2)
          child infoC).2) parent infoP).1 = .ok true) ∧
    (aget ((addType (fuel + 12)
        ((addType (fuel + 2) ((addType (fuel + 2) s0 gchild infoG).2)
          child infoC).2) parent infoP).2).types parent).isSome = true ∧
    (aget ((addType (fuel + 12)
        ((addType (fuel + 2) ((addType (fuel + 2) s0 gchild infoG).2)
          child infoC).2) parent infoP).2).types child).isSome = true ∧
    (aget ((addType (fuel + 12)
        ((addType (fuel + 2) ((addType (fuel + 2) s0 gchild infoG).2)
          child infoC).2) parent infoP).2).types gchild).isSome = true := by
  have hne1' : ¬ (parent = child) := fun h => hne1 h.symm
  have hne2' : ¬ (parent = gchild) := fun h => hne2 h.symm
  have hne3' : ¬ (child = gchild) := fun h => hne3 h.symm
  have h1 : addType (fuel + 2) s0 gchild infoG =
      (.ok false,
       { s0 with pended := [(some (.str child), [(gchild, infoG)])] }) := by
    have h := addType_defer fuel s0 gchild child infoG hcG hsG habsC habsG hinfG
    rw [hpend] at h
    simpa [aget, aset] using h
  have h2 : addType (fuel + 2)
      { s0 with pended := [(some (.str child), [(gchild, infoG)])] }
      child infoC =
      (.ok false,
       { s0 with pended := [(some (.str child), [(gchild, infoG)]),
                            (some (.str parent), [(child, infoC)])] }) := by
    have h := addType_defer fuel
      { s0 with pended := [(some (.str child), [(gchild, infoG)])] }
      child parent infoC hcC hsC habsP habsC hinfC
    simpa [aget, aset, Option.some.injEq, PyVal.str.injEq, hne1] using h
  have hA : addType (fuel + 5)
      { types := aset (aset s0.types parent item) child citem,
        typeinfo := aset (aset s0.typeinfo parent infoP) child infoC,
        typetree := s0.typetree,
        subscache := s0.subscache,
        pended := [] }
      gchild infoG =
      (.ok true,
       { types := aset (aset (aset s0.types parent item) child citem) gchild gitem,
         typeinfo := aset (aset (aset s0.typeinfo parent infoP) child infoC) gchild infoG,
         typetree := aset s0.typetree gchild child,
         subscache := [],
         pended := [] }) := by
    simp only [addType, addTypeSub, bumpBasePend, bumpList, reqDataTypePV,
      aget_aset, aget, aerase, habsG, hcG, hsG, hext2,
      hne2', hne3', Option.isSome_none, Option.isSome_some, Option.getD_none,
      Bool.false_eq_true, if_false, if_true, ite_true, ite_false,
      eq_self_iff_true, reduceCtorEq, Option.some.injEq, PyVal.str.injEq,
      and_false, and_true, true_and, false_and]
  have hBB : bumpBasePend (fuel + 7)
      { types := aset (aset s0.types parent item) child citem,
        typeinfo := aset (aset s0.typeinfo parent infoP) child infoC,
        typetree := s0.typetree,
        subscache := s0.subscache,
        pended := [(some (.str child), [(gchild, infoG)])] }
      child =
      { types := aset (aset (aset s0.types parent item) child citem) gchild gitem,
        typeinfo := aset (aset (aset s0.typeinfo parent infoP) child infoC) gchild infoG,
        typetree := aset s0.typetree gchild child,
        subscache := [],
        pended := [] } := by
    simp only [bumpBasePend, bumpList, aget, aerase, Option.getD_some,
      eq_self_iff_true, ite_true, ite_false, hA]
  have hB : addType (fuel + 9)
      { types := aset s0.types parent item,
        typeinfo := aset s0.typeinfo parent infoP,
        typetree := s0.typetree,
        subscache := s0.subscache,
        pended := [(some (.str child), [(gchild, infoG)])] }
      child infoC =
      (.ok true,
       { types := aset (aset (aset s0.types parent item) child citem) gchild gitem,
         typeinfo := aset (aset (aset s0.typeinfo parent infoP) child infoC) gchild infoG,
         typetree := aset (aset s0.typetree gchild child) child parent,
         subscache := [],
         pended := [] }) := by
    simp only [addType, addTypeSub, reqDataTypePV,
      aget_aset, aget, habsC, hcC, hsC, hext1,
      hne1', Option.isSome_none, Option.isSome_some,
      Bool.false_eq_true, if_false, if_true, ite_true, ite_false,
      eq_self_iff_true, reduceCtorEq, Option.some.injEq, PyVal.str.injEq,
      and_false, and_true, true_and, false_and, hBB]
  have hPB : bumpBasePend (fuel + 11)
      { types := aset s0.types parent item,
        typeinfo := aset s0.typeinfo parent infoP,
        typetree := s0.typetree,
        subscache := s0.subscache,
        pended := [(some (.str child), [(gchild, infoG)]),
                   (some (.str parent), [(child, infoC)])] }
      parent =
      { types := aset (aset (aset s0.types parent item) child citem) gchild gitem,
        typeinfo := aset (aset (aset s0.typeinfo parent infoP) child infoC) gchild infoG,
        typetree := aset (aset s0.typetree gchild child) child parent,
        subscache := [],
        pended := [] } := by
    simp only [bumpBasePend, bumpList, aget, aerase, Option.getD_some,
      eq_self_iff_true, ite_true, ite_false,
      Option.some.injEq, PyVal.str.injEq, hne1, if_false, if_true, hB]
  have h3 : addType (fuel + 12)
      { s0 with pended := [(some (.str child), [(gchild, infoG)]),
                           (some (.str parent), [(child, infoC)])] }
      parent infoP =
      (.ok true,
       { types := aset (aset (aset s0.types parent item) child citem) gchild gitem,
         typeinfo := aset (aset (aset s0.typeinfo parent infoP) child infoC) gchild infoG,
         typetree := aset (aset s0.typetree gchild child) child parent,
         subscache := [],
         pended := [] }) := by
    simp only [addType, habsP, hcP, hmk,
      Option.isSome_none, Option.isSome_some,
      Bool.false_eq_true, if_false, if_true, ite_true, ite_false,
      eq_self_iff_true, reduceCtorEq, and_false, and_true, true_and, false_and,
      hPB]
  refine ⟨?_, ?_, ?_, ?_, ?_, ?_, ?_, ?_, ?_⟩
  · rw [h1]
  · rw [h1]
    exact habsG
  · rw [h1]
    simp [aget]
  · rw [h1, h2]
  · rw [h1, h2]
    exact habsC
  · rw [h1, h2, h3]
  · rw [h1, h2, h3]
    simp [aget_aset, hne1, hne2]
  · rw [h1, h2, h3]
    simp [aget_aset, hne3]
  · rw [h1, h2, h3]
    simp [aget_aset]

/-- Witness for C3: on the empty library, `a:child:kid` (subof `a:child`)
and then `a:child` (subof `a`) defer; registering `a` with the `StrType`
ctor resolves all three. -/
theorem c3_witness :
    (addType 6 emptyState "a:child:kid" [("subof", PyVal.str "a:child")]).1
      = .ok false ∧
    aget ((addType 6 emptyState "a:child:kid"
        [("subof", PyVal.str "a:child")]).2).types "a:child:kid"
      = Option.none ∧
    aget ((addType 6 emptyState "a:child:kid"
        [("subof", PyVal.str "a:child")]).2).pended (some (.str "a:child"))
      = some [("a:child:kid", [("subof", PyVal.str "a:child")])] ∧
    (addType 6 ((addType 6 emptyState "a:child:kid"
        [("subof", PyVal.str "a:child")]).2) "a:child"
        [("subof", PyVal.str "a")]).1 = .ok false ∧
    aget ((addType 6 ((addType 6 emptyState "a:child:kid"
        [("subof", PyVal.str "a:child")]).2) "a:child"
        [("subof", PyVal.str "a")]).2).types "a:child" = Option.none ∧
    (addType 16 ((addType 6 ((addType 6 emptyState "a:child:kid"
        [("subof", PyVal.str "a:child")]).2) "a:child"
        [("subof", PyVal.str "a")]).2) "a"
        [("ctor", PyVal.str "synapse.lib.types.StrType")]).1 = .ok true ∧
    (aget ((addType 16 ((addType 6 ((addType 6 emptyState "a:child:kid"
        [("subof", PyVal.str "a:child")]).2) "a:child"
        [("subof", PyVal.str "a")]).2) "a"
        [("ctor", PyVal.str "synapse.lib.types.StrType")]).2).types
        "a").isSome = true ∧
    (aget ((addType 16 ((addType 6 ((addType 6 emptyState "a:child:kid"
        [("subof", PyVal.str "a:child")]).2) "a:child"
        [("subof", PyVal.str "a")]).2) "a"
        [("ctor", PyVal.str "synapse.lib.types.StrType")]).2).types
        "a:child").isSome = true ∧
    (aget ((addType 16 ((addType 6 ((addType 6 emptyState "a:child:kid"
        [("subof", PyVal.str "a:child")]).2) "a:child"
        [("subof", PyVal.str "a")]).2) "a"
        [("ctor", PyVal.str "synapse.lib.types.StrType")]).2).types
        "a:child:kid").isSome = true := by
  exact c3_deferred_resolution 4 emptyState "a" "a:child" "a:child:kid"
    [("ctor", .str "synapse.lib.types.StrType")]
    [("subof", .str "a")]
    [("subof", .str "a:child")]
    (.str "synapse.lib.types.StrType")
    { name := "a",
      info := [("ctor", .str "synapse.lib.types.StrType")],
      body := .strB { strip := .int 0, nullval := Option.none,
                      envals := Option.none, regex := Option.none,
                      restrip := Option.none, frobintfmt := Option.none } }
    { name := "a:child",
      info := [("subof", .str "a"), ("ctor", .str "synapse.lib.types.StrType")],
      body := .strB { strip := .int 0, nullval := Option.none,
                      envals := Option.none, regex := Option.none,
                      restrip := Option.none, frobintfmt := Option.none } }
    { name := "a:child:kid",
      info := [("subof", .str "a:child"),
               ("ctor", .str "synapse.lib.types.StrType")],
      body := .strB { strip := .int 0, nullval := Option.none,
                      envals := Option.none, regex := Option.none,
                      restrip := Option.none, frobintfmt := Option.none } }
    rfl rfl rfl rfl rfl rfl rfl rfl
    (by decide) (by decide) (by decide)
    rfl rfl rfl rfl rfl rfl

/-! ## Claim C9 — the sepr list path performs no field-count validation -/

/-- `zip` pairs only up to the shorter list, so truncating the left list
to the right list's length does not change the result. -/
theorem zip_take_left {α β : Type} (xs : List α) (ys : List β) :
    (xs.take ys.length).zip ys = xs.zip ys := by
  induction xs generalizing ys with
  | nil => simp
  | cons x xs ih =>
      cases ys with
      | nil => simp
      | cons y ys => simp [ih]

/-- A successful `seprLoop` returns exactly one repr per zipped pair. -/
theorem seprLoop_ok_length (s : State) (rnd selfName : String) :
    ∀ (fuel : Nat) (pairs : List (PyVal × (String × Option TInst)))
      (reprs : List PyVal) (subs : Subs),
      seprLoop fuel s rnd selfName pairs = .ok (reprs, subs) →
      reprs.length = pairs.length := by
  intro fuel
  induction fuel with
  | zero => intro pairs reprs subs h; simp [seprLoop] at h
  | succ fuel ih =>
      intro pairs reprs subs h
      cases pairs with
      | nil =>
          simp only [seprLoop, Except.ok.injEq, Prod.mk.injEq] at h
          obtain ⟨h1, h2⟩ := h
          subst h1
          rfl
      | cons p rest =>
          obtain ⟨part, fname, tobjOpt⟩ := p
          cases tobjOpt with
          | none => simp [seprLoop] at h
          | some tobj =>
              by_cases hself : tobj.name = selfName
              · cases hrec : seprLoop fuel s rnd selfName rest with
                | error e =>
                    simp only [seprLoop, if_pos hself, hrec] at h
                    exact Except.noConfusion h
                | ok pr =>
                    obtain ⟨reprs2, subs2⟩ := pr
                    simp only [seprLoop, if_pos hself, hrec,
                      Except.ok.injEq, Prod.mk.injEq] at h
                    obtain ⟨h1, h2⟩ := h
                    subst h1
                    simp [ih rest reprs2 subs2 hrec]
              · cases hn : normT fuel s rnd tobj part Option.none with
                | error e =>
                    simp only [seprLoop, if_neg hself, hn] at h
                    exact Except.noConfusion h
                | ok nr =>
                    obtain ⟨norm, nsub⟩ := nr
                    cases hr : reprT tobj norm with
                    | error e =>
                        simp only [seprLoop, if_neg hself, hn, hr] at h
                        exact Except.noConfusion h
                    | ok rp =>
                        cases hrec : seprLoop fuel s rnd selfName rest with
                        | error e =>
                            simp only [seprLoop, if_neg hself, hn, hr,
                              hrec] at h
                            exact Except.noConfusion h
                        | ok pr =>
                            obtain ⟨reprs2, subs2⟩ := pr
                            simp only [seprLoop, if_neg hself, hn, hr, hrec,
                              Except.ok.injEq, Prod.mk.injEq] at h
                            obtain ⟨h1, h2⟩ := h
                            subst h1
                            simp [ih rest reprs2 subs2 hrec]

/-- An `Option`-valued `mapM` that succeeds maps each element to one
output element. -/
theorem mapM_option_length {α β : Type} (f : α → Option β) :
    ∀ (xs : List α) (ys : List β), xs.mapM f = some ys →
      ys.length = xs.length := by
  intro xs
  induction xs with
  | nil =>
      intro ys h
      have h' : some ([] : List β) = some ys := h
      injection h' with h2
      subst h2
      rfl
  | cons x xs ih =>
      intro ys h
      rw [List.mapM_cons] at h
      cases hf : f x with
      | none => rw [hf] at h; exact Option.noConfusion h
      | some b =>
          rw [hf] at h
          cases hm : List.mapM f xs with
          | none => rw [hm] at h; exact Option.noConfusion h
          | some bs =>
              rw [hm] at h
              have h' : some (b :: bs) = some ys := h
              injection h' with h2
              subst h2
              simp [ih bs hm]

/-- **C9.**  `SeprType.norm` on a list value performs no field-count
validation: the value may be truncated to the declared field count
without changing the result (extra entries are silently ignored), a
successful loop over the zipped pairs yields the separator-join of
exactly `min (len valu) (len fields)` reprs (a shorter list is accepted
with the missing fields absent), while on the text path a split that
does not produce exactly one part per declared field raises BadValue. -/
theorem c9_sepr_list_no_count_check (fuel : Nat) (s : State) (rnd : String)
    (t : TInst) (sepS : String) (rev : PyVal)
    (flds : List (String × Option TInst))
    (hf : getFields s t.info = .ok flds) :
    (∀ xs : List PyVal,
      seprNorm (fuel + 1) s rnd t (.str sepS) rev (.list xs) =
        seprNorm (fuel + 1) s rnd t (.str sepS) rev
          (.list (xs.take flds.length))) ∧
    (∀ (xs reprs : List PyVal) (subs : Subs) (strs : List String),
      seprLoop fuel s rnd t.name (xs.zip flds) = .ok (reprs, subs) →
      reprs.mapM (fun r =>
        match r with | .str rs => some rs | _ => Option.none) = some strs →
      seprNorm (fuel + 1) s rnd t (.str sepS) rev (.list xs) =
        .ok (.str (pyJoin sepS strs), subs) ∧
      strs.length = min xs.length flds.length) ∧
    (∀ text : String,
      (if pyTruthy rev then pyRSplitN text sepS (flds.length - 1)
       else pySplitN text sepS (flds.length - 1)).length ≠ flds.length →
      seprNorm (fuel + 1) s rnd t (.str sepS) rev (.str text) =
        .error .badValu) := by
  refine ⟨?_, ?_, ?_⟩
  · intro xs
    simp only [seprNorm, hf]
    rw [zip_take_left]
  · intro xs reprs subs strs hloop hmap
    constructor
    · simp only [seprNorm, hf, hloop, hmap]
    · have l1 := mapM_option_length _ reprs strs hmap
      have l2 := seprLoop_ok_length s rnd t.name fuel (xs.zip flds)
        reprs subs hloop
      rw [List.length_zip] at l2
      omega
  · intro text hlen
    simp only [seprNorm, hf, seprSplit]
    rw [if_pos hlen]

/-- A concrete sepr type for the C9 witness: two fields `a,str|b,str`
registered on the default library. -/
def seprDemo : State :=
  (addType 4 dflt "foo:pair"
    [("subof", .str "sepr"), ("fields", .str "a,str|b,str")]).2

/-- The instance registered by `seprDemo` (checked by `rfl` below). -/
def seprPairT : TInst :=
  { name := "foo:pair",
    info := [("subof", .str "sepr"),
             ("fields", .str "a,str|b,str"),
             ("ctor", .str "synapse.lib.types.SeprType"),
             ("doc", .str "A multi-field composite type which uses separated repr values")],
    body := .seprB (.str ",") (.int 0) }

/-- The parsed fields of `seprPairT` (checked by `rfl` below). -/
def seprFlds : List (String × Option TInst) :=
  [("a",
    some { name := "str",
           info := [("ctor", .str "synapse.lib.types.StrType"),
                    ("doc", .str "The base string type")],
           body := .strB { strip := .int 0, nullval := Option.none,
                           envals := Option.none, regex := Option.none,
                           restrip := Option.none,
                           frobintfmt := Option.none } }),
   ("b",
    some { name := "str",
           info := [("ctor", .str "synapse.lib.types.StrType"),
                    ("doc", .str "The base string type")],
           body := .strB { strip := .int 0, nullval := Option.none,
                           envals := Option.none, regex := Option.none,
                           restrip := Option.none,
                           frobintfmt := Option.none } })]

/-- Witness for C9 on a `a,str|b,str` sepr type: a 3-element list equals
its 2-element truncation, the 3- and 1-element lists normalize with 2
and 1 paired reprs respectively, and the text `"x"` (1 part, 2 fields)
raises BadValue. -/
theorem c9_witness :
    (seprNorm 4 seprDemo "" seprPairT (.str ",") (.int 0)
        (.list [.str "x", .str "y", .str "extra"]) =
      seprNorm 4 seprDemo "" seprPairT (.str ",") (.int 0)
        (.list [.str "x", .str "y"])) ∧
    (seprNorm 4 seprDemo "" seprPairT (.str ",") (.int 0)
        (.list [.str "x", .str "y", .str "extra"]) =
      .ok (.str "x,y", [("a", .str "x"), ("b", .str "y")]) ∧
      (["x", "y"] : List String).length = min 3 2) ∧
    (seprNorm 4 seprDemo "" seprPairT (.str ",") (.int 0)
        (.list [.str "x"]) =
      .ok (.str "x", [("a", .str "x")]) ∧
      (["x"] : List String).length = min 1 2) ∧
    (seprNorm 4 seprDemo "" seprPairT (.str ",") (.int 0) (.str "x") =
      .error .badValu) := by
  have h := c9_sepr_list_no_count_check 3 seprDemo "" seprPairT ","
    (.int 0) seprFlds rfl
  exact ⟨h.1 [.str "x", .str "y", .str "extra"],
         h.2.1 [.str "x", .str "y", .str "extra"] [.str "x", .str "y"]
           [("a", .str "x"), ("b", .str "y")] ["x", "y"] rfl rfl,
         h.2.1 [.str "x"] [.str "x"] [("a", .str "x")] ["x"] rfl rfl,
         h.2.2 "x" (by decide)⟩

/-! ## Claim C7 — tag normalization with an `@`-suffix of times -/

/-- Python `min(tims)`: `is.foldl min i` is a member of `i :: is` and a
lower bound for it. -/
theorem foldl_min_spec (is : List Int) :
    ∀ i : Int, is.foldl min i ∈ i :: is ∧
      ∀ j ∈ i :: is, is.foldl min i ≤ j := by
  induction is with
  | nil =>
      intro i
      refine ⟨by simp, ?_⟩
      intro j hj
      rw [List.mem_singleton] at hj
      subst hj
      exact le_refl _
  | cons a is ih =>
      intro i
      have h := ih (min i a)
      have hle : is.foldl min (min i a) ≤ min i a :=
        h.2 _ (List.mem_cons_self _ _)
      constructor
      · rw [List.foldl_cons]
        rcases List.mem_cons.mp h.1 with he | hm
        · rcases min_choice i a with hc | hc
          · rw [he, hc]; exact List.mem_cons_self _ _
          · rw [he, hc]
            exact List.mem_cons_of_mem _ (List.mem_cons_self _ _)
        · exact List.mem_cons_of_mem _ (List.mem_cons_of_mem _ hm)
      · intro j hj
        rw [List.foldl_cons]
        rcases List.mem_cons.mp hj with he | hj2
        · subst he
          exact le_trans hle (min_le_left _ _)
        · rcases List.mem_cons.mp hj2 with he | hj3
          · subst he
            exact le_trans hle (min_le_right _ _)
          · exact h.2 _ (List.mem_cons_of_mem _ hj3)

/-- Python `max(tims)`: `is.foldl max i` is a member of `i :: is` and an
upper bound for it. -/
theorem foldl_max_spec (is : List Int) :
    ∀ i : Int, is.foldl max i ∈ i :: is ∧
      ∀ j ∈ i :: is, j ≤ is.foldl max i := by
  induction is with
  | nil =>
      intro i
      refine ⟨by simp, ?_⟩
      intro j hj
      rw [List.mem_singleton] at hj
      subst hj
      exact le_refl _
  | cons a is ih =>
      intro i
      have h := ih (max i a)
      have hle : max i a ≤ is.foldl max (max i a) :=
        h.2 _ (List.mem_cons_self _ _)
      constructor
      · rw [List.foldl_cons]
        rcases List.mem_cons.mp h.1 with he | hm
        · rcases max_choice i a with hc | hc
          · rw [he, hc]; exact List.mem_cons_self _ _
          · rw [he, hc]
            exact List.mem_cons_of_mem _ (List.mem_cons_self _ _)
        · exact List.mem_cons_of_mem _ (List.mem_cons_of_mem _ hm)
      · intro j hj
        rw [List.foldl_cons]
        rcases List.mem_cons.mp hj with he | hj2
        · subst he
          exact le_trans (le_max_left _ _) hle
        · rcases List.mem_cons.mp hj2 with he | hj3
          · subst he
            exact le_trans (le_max_right _ _) hle
          · exact h.2 _ (List.mem_cons_of_mem _ hj3)

/-- **C7.**  `TagType.norm` on a value that `split('@', 1)`s into a tag
part and a time suffix: when every `-`-separated time expression
normalizes via the `time` type, the result is the lower-cased tag part
(which must match the dotted-segment tag pattern) with sub-properties
`seen:min`/`seen:max` holding Python's `min(tims)`/`max(tims)` — members
of the parsed list bounding it below/above — and any reordering of the
parsed time values yields the same `seen:min`/`seen:max`. -/
theorem c7_tag_at_suffix_seen_minmax (fuel : Nat) (s : State)
    (rnd v tpart tsuffix : String) (tims : List PyVal) (i : Int)
    (is : List Int)
    (hsplit : pySplitN v "@" 1 = [tpart, tsuffix])
    (htims : tagTimes fuel s rnd (pySplit tsuffix "-") = .ok tims)
    (hints : intsOf tims = some (i :: is))
    (hmatch : tagMatch (pyLower tpart) = true) :
    tagNorm (fuel + 1) s rnd (.str v) =
      .ok (.str (pyLower tpart),
           [("seen:min", .int (is.foldl min i)),
            ("seen:max", .int (is.foldl max i))]) ∧
    (is.foldl min i ∈ i :: is ∧ ∀ j ∈ i :: is, is.foldl min i ≤ j) ∧
    (is.foldl max i ∈ i :: is ∧ ∀ j ∈ i :: is, j ≤ is.foldl max i) ∧
    (∀ (i2 : Int) (is2 : List Int), List.Perm (i :: is) (i2 :: is2) →
      is2.foldl min i2 = is.foldl min i ∧
      is2.foldl max i2 = is.foldl max i) := by
  refine ⟨?_, foldl_min_spec is i, foldl_max_spec is i, ?_⟩
  · simp only [tagNorm, hsplit, htims, hints]
    rw [if_pos hmatch]
    simp [aset]
  · intro i2 is2 hp
    have h1 := foldl_min_spec is i
    have h2 := foldl_min_spec is2 i2
    have h3 := foldl_max_spec is i
    have h4 := foldl_max_spec is2 i2
    constructor
    · exact le_antisymm
        (h2.2 _ ((hp.mem_iff).mp h1.1))
        (h1.2 _ ((hp.mem_iff).mpr h2.1))
    · exact le_antisymm
        (h3.2 _ ((hp.mem_iff).mpr h4.1))
        (h4.2 _ ((hp.mem_iff).mp h3.1))

/-- Witness for C7: `Foo.Bar@20200101-20200102` and the order-swapped
`Foo.Bar@20200102-20200101` both normalize on the default library to
`foo.bar` with `seen:min = 20200101` and `seen:max = 20200102`. -/
theorem c7_witness :
    (tagNorm 5 dflt "" (.str "Foo.Bar@20200101-20200102") =
      .ok (.str "foo.bar",
           [("seen:min", .int 20200101), ("seen:max", .int 20200102)])) ∧
    (tagNorm 5 dflt "" (.str "Foo.Bar@20200102-20200101") =
      .ok (.str "foo.bar",
           [("seen:min", .int 20200101), ("seen:max", .int 20200102)])) := by
  have h1 := c7_tag_at_suffix_seen_minmax 4 dflt ""
    "Foo.Bar@20200101-20200102" "Foo.Bar" "20200101-20200102"
    [.int 20200101, .int 20200102] 20200101 [20200102] rfl rfl rfl (by decide)
  have h2 := c7_tag_at_suffix_seen_minmax 4 dflt ""
    "Foo.Bar@20200102-20200101" "Foo.Bar" "20200102-20200101"
    [.int 20200102, .int 20200101] 20200102 [20200101] rfl rfl rfl (by decide)
  exact ⟨h1.1, h2.1⟩

/-! ## Claim C1 — comp identifier is independent of optional-pair order -/

/-- A successful `pairsOf` unpacks each element into one pair. -/
theorem pairsOf_length :
    ∀ (l : List PyVal) (kvs : List (PyVal × PyVal)),
      pairsOf l = some kvs → l.length = kvs.length := by
  intro l
  induction l with
  | nil =>
      intro kvs h
      have h' : some ([] : List (PyVal × PyVal)) = some kvs := h
      injection h' with h2
      subst h2
      rfl
  | cons x rest ih =>
      intro kvs h
      match x with
      | .list [k, v] =>
          have h' : (pairsOf rest).map (fun ps => (k, v) :: ps) = some kvs := h
          cases hm : pairsOf rest with
          | none => rw [hm] at h'; exact Option.noConfusion h'
          | some ps =>
              rw [hm] at h'
              have h2 : some ((k, v) :: ps) = some kvs := h'
              injection h2 with h3
              rw [← h3]
              simp [ih ps hm]
      | .none | .int _ | .str _ | .dict _ =>
          exact Option.noConfusion
            (show (Option.none : Option (List (PyVal × PyVal))) = some kvs from h)
      | .list [] =>
          exact Option.noConfusion
            (show (Option.none : Option (List (PyVal × PyVal))) = some kvs from h)
      | .list [_] =>
          exact Option.noConfusion
            (show (Option.none : Option (List (PyVal × PyVal))) = some kvs from h)
      | .list (_ :: _ :: _ :: _) =>
          exact Option.noConfusion
            (show (Option.none : Option (List (PyVal × PyVal))) = some kvs from h)

/-- `compOptLoop` reads the supplied options only through `aget`, so two
option dicts with identical lookups drive it identically. -/
theorem compOptLoop_congr (s : State) (rnd : String) :
    ∀ (fuel : Nat) (ofs : List (String × String))
      (opts1 opts2 : List (PyVal × PyVal)) (retn : List PyVal) (subs : Subs),
      (∀ k, aget opts1 k = aget opts2 k) →
      compOptLoop fuel s rnd ofs opts1 retn subs =
        compOptLoop fuel s rnd ofs opts2 retn subs := by
  intro fuel
  induction fuel with
  | zero => intro ofs o1 o2 retn subs hag; rfl
  | succ fuel ih =>
      intro ofs o1 o2 retn subs hag
      cases ofs with
      | nil => rfl
      | cons p rest =>
          obtain ⟨fname, tname⟩ := p
          simp only [compOptLoop, hag (PyVal.str fname)]
          cases ha : aget o2 (PyVal.str fname) with
          | none => exact ih rest o1 o2 retn subs hag
          | some v =>
              show (if v = PyVal.none then
                      compOptLoop fuel s rnd rest o1 retn subs
                    else
                      match getTypeNorm fuel s rnd tname v Option.none with
                      | .error e => .error e
                      | .ok (norm, ssubs) =>
                          compOptLoop fuel s rnd rest o1
                            (retn ++ [.list [.str fname, norm]])
                            (ssubs.foldl (fun sb kv =>
                              aset sb (fname ++ ":" ++ kv.1) kv.2)
                              (aset subs fname norm))) =
                   (if v = PyVal.none then
                      compOptLoop fuel s rnd rest o2 retn subs
                    else
                      match getTypeNorm fuel s rnd tname v Option.none with
                      | .error e => .error e
                      | .ok (norm, ssubs) =>
                          compOptLoop fuel s rnd rest o2
                            (retn ++ [.list [.str fname, norm]])
                            (ssubs.foldl (fun sb kv =>
                              aset sb (fname ++ ":" ++ kv.1) kv.2)
                              (aset subs fname norm)))
              by_cases hv : v = PyVal.none
              · rw [if_pos hv, if_pos hv]
                exact ih rest o1 o2 retn subs hag
              · rw [if_neg hv, if_neg hv]
                cases hn : getTypeNorm fuel s rnd tname v Option.none with
                | error e => rfl
                | ok nr =>
                    obtain ⟨norm, ssubs⟩ := nr
                    exact ih rest o1 o2 _ _ hag

/-- **C1.**  `CompType._norm_list` on required values `req` followed by
optional `(key, value)` pairs with distinct keys: reordering the
optional pairs leaves the entire result — in particular the identifier —
unchanged.  The option pairs are consulted only by name, in the fixed
(alphabetically sorted at construction) order of `optf`, after the
ordered required values. -/
theorem c1_comp_opt_order_irrelevant (fuel : Nat) (s : State) (rnd : String)
    (fields optf : List (String × String)) (req l1 l2 : List PyVal)
    (kvs1 kvs2 : List (PyVal × PyVal))
    (hreq : req.length = fields.length)
    (h1 : pairsOf l1 = some kvs1)
    (h2 : pairsOf l2 = some kvs2)
    (hperm : List.Perm kvs1 kvs2)
    (hnodup : (kvs1.map Prod.fst).Nodup) :
    compNormList (fuel + 1) s rnd fields optf (req ++ l1) =
      compNormList (fuel + 1) s rnd fields optf (req ++ l2) := by
  have hnodup2 : (kvs2.map Prod.fst).Nodup :=
    ((hperm.map Prod.fst).nodup_iff).mp hnodup
  have hag : ∀ k, aget (kvs1.foldl (fun d p => aset d p.1 p.2) []) k =
      aget (kvs2.foldl (fun d p => aset d p.1 p.2) []) k := by
    intro k
    rw [dictOf_nodup kvs1 hnodup, dictOf_nodup kvs2 hnodup2]
    exact aget_perm_nodup hperm hnodup k
  have hll : l1.length = l2.length := by
    rw [pairsOf_length l1 kvs1 h1, pairsOf_length l2 kvs2 h2,
      hperm.length_eq]
  have hdrop1 : (req ++ l1).drop fields.length = l1 := by
    rw [← hreq]; exact List.drop_left req l1
  have hdrop2 : (req ++ l2).drop fields.length = l2 := by
    rw [← hreq]; exact List.drop_left req l2
  have htake1 : (req ++ l1).take fields.length = req := by
    rw [← hreq]; exact List.take_left req l1
  have htake2 : (req ++ l2).take fields.length = req := by
    rw [← hreq]; exact List.take_left req l2
  have hnl1 : ¬ ((req ++ l1).length < fields.length) := by
    rw [List.length_append, ← hreq]; omega
  have hnl2 : ¬ ((req ++ l2).length < fields.length) := by
    rw [List.length_append, ← hreq]; omega
  simp only [compNormList, hdrop1, hdrop2, htake1, htake2, h1, h2,
    if_neg hnl1, if_neg hnl2]
  cases hr : compReqLoop fuel s rnd req fields [] [] with
  | error e => rfl
  | ok pr =>
      obtain ⟨retn, subs⟩ := pr
      exact congrArg
        (fun r => match r with
          | Except.error e => (Except.error e : Except Err NR)
          | Except.ok (retn, subs) =>
              Except.ok (PyVal.str (guidOf (PyVal.list retn)), subs))
        (compOptLoop_congr s rnd fuel optf
          (kvs1.foldl (fun d p => aset d p.1 p.2) [])
          (kvs2.foldl (fun d p => aset d p.1 p.2) []) retn subs hag)

/-- A concrete comp type for the C1 witness: required fields
`a,str|b,str` and optional fields `d=str,c=str` (sorted to `c`, `d` at
construction), registered on the default library. -/
def compDemo : State :=
  (addType 4 dflt "foo:cmp"
    [("subof", .str "comp"), ("fields", .str "a,str|b,str"),
     ("optfields", .str "d=str,c=str")]).2

/-- Witness for C1: supplying the optional pairs as `d`,`c` or as
`c`,`d` yields the identical result, whose identifier lists the required
values in order and then the present optional pairs in the alphabetical
order of the option names. -/
theorem c1_witness :
    compNormList 5 compDemo "" [("a", "str"), ("b", "str")]
        [("c", "str"), ("d", "str")]
        [.str "x", .str "y",
         .list [.str "d", .str "v2"], .list [.str "c", .str "v1"]] =
      compNormList 5 compDemo "" [("a", "str"), ("b", "str")]
        [("c", "str"), ("d", "str")]
        [.str "x", .str "y",
         .list [.str "c", .str "v1"], .list [.str "d", .str "v2"]] ∧
    compNormList 5 compDemo "" [("a", "str"), ("b", "str")]
        [("c", "str"), ("d", "str")]
        [.str "x", .str "y",
         .list [.str "d", .str "v2"], .list [.str "c", .str "v1"]] =
      .ok (.str "[\"x\",\"y\",[\"c\",\"v1\"],[\"d\",\"v2\"]]",
           [("a", .str "x"), ("b", .str "y"),
            ("c", .str "v1"), ("d", .str "v2")]) := by
  refine ⟨?_, rfl⟩
  exact c1_comp_opt_order_irrelevant 4 compDemo ""
    [("a", "str"), ("b", "str")] [("c", "str"), ("d", "str")]
    [.str "x", .str "y"]
    [.list [.str "d", .str "v2"], .list [.str "c", .str "v1"]]
    [.list [.str "c", .str "v1"], .list [.str "d", .str "v2"]]
    [(.str "d", .str "v2"), (.str "c", .str "v1")]
    [(.str "c", .str "v1"), (.str "d", .str "v2")]
    rfl rfl rfl (by decide) (by decide)

/-! ## Claim C2 — digit and character groundwork -/

/-- The decimal digit characters: value, and distinctness from the
syntax characters the parsers dispatch on. -/
theorem digitChar_facts (d : Nat) (hd : d < 10) :
    decDigitVal (Char.ofNat (d + 48)) = some d ∧
    Char.ofNat (d + 48) ≠ '_' ∧
    Char.ofNat (d + 48) ≠ '+' ∧
    Char.ofNat (d + 48) ≠ '-' ∧
    pySpaceChar (Char.ofNat (d + 48)) = false ∧
    jSpace (Char.ofNat (d + 48)) = false ∧
    Char.ofNat (d + 48) ≠ 'n' ∧
    Char.ofNat (d + 48) ≠ 't' ∧
    Char.ofNat (d + 48) ≠ 'f' ∧
    Char.ofNat (d + 48) ≠ '"' ∧
    Char.ofNat (d + 48) ≠ '[' ∧
    Char.ofNat (d + 48) ≠ '\x7b' ∧
    (Char.ofNat (d + 48) = '0' ↔ d = 0) := by
  interval_cases d <;> exact (by decide)

/-- Appending one digit to a most-significant-first fold. -/
theorem digitsToNat_append (b : Nat) (l : List Nat) (d : Nat) :
    digitsToNat b (l ++ [d]) = digitsToNat b l * b + d := by
  simp [digitsToNat, List.foldl_append]

/-- The most-significant-first fold over reversed digits is
`Nat.ofDigits`. -/
theorem digitsToNat_reverse_ofDigits (b : Nat) :
    ∀ l : List Nat, digitsToNat b l.reverse = Nat.ofDigits b l := by
  intro l
  induction l with
  | nil => simp [digitsToNat, Nat.ofDigits]
  | cons d l ih =>
      rw [List.reverse_cons, digitsToNat_append, ih, Nat.ofDigits_cons]
      ring

/-- The digit values rendered by `pyNatDec`. -/
def dVals (n : Nat) : List Nat :=
  if n = 0 then [0] else (Nat.digits 10 n).reverse

/-- `pyNatDec` renders exactly the characters of `dVals`. -/
theorem pyNatDec_eq_map (n : Nat) :
    pyNatDec n = (dVals n).map (fun d => Char.ofNat (d + 48)) := by
  unfold pyNatDec dVals
  by_cases h : n = 0
  · subst h; rfl
  · rw [if_neg h, if_neg h]

/-- Every rendered digit value is below the base. -/
theorem dVals_lt (n : Nat) : ∀ d ∈ dVals n, d < 10 := by
  intro d hd
  unfold dVals at hd
  by_cases h : n = 0
  · rw [if_pos h] at hd
    rw [List.mem_singleton] at hd
    omega
  · rw [if_neg h, List.mem_reverse] at hd
    exact Nat.digits_lt_base (by norm_num) hd

/-- Reading the rendered digits back gives the number. -/
theorem digitsToNat_dVals (n : Nat) : digitsToNat 10 (dVals n) = n := by
  unfold dVals
  by_cases h : n = 0
  · rw [if_pos h, h]; rfl
  · rw [if_neg h, digitsToNat_reverse_ofDigits, Nat.ofDigits_digits]

/-- `dVals` is never empty. -/
theorem dVals_ne_nil (n : Nat) : dVals n ≠ [] := by
  unfold dVals
  by_cases h : n = 0
  · rw [if_pos h]; simp
  · rw [if_neg h]
    simp [Nat.digits_ne_nil_iff_ne_zero.mpr h]

/-- The leading rendered digit of a positive number is nonzero. -/
theorem dVals_head_ne_zero (n : Nat) (hn : n ≠ 0) :
    (dVals n).headD 0 ≠ 0 := by
  unfold dVals
  rw [if_neg hn]
  have hne : Nat.digits 10 n ≠ [] := Nat.digits_ne_nil_iff_ne_zero.mpr hn
  have hlast := Nat.getLast_digit_ne_zero 10 hn
  cases hr : (Nat.digits 10 n).reverse with
  | nil =>
      exact absurd (List.reverse_eq_nil_iff.mp hr) hne
  | cons d rest =>
      have : (Nat.digits 10 n).getLast? = some d := by
        rw [← List.head?_reverse, hr]
        rfl
      rw [List.getLast?_eq_getLast _ hne] at this
      injection this with h2
      simp only [List.headD_cons]
      rw [← h2]
      exact hlast

/-- A predicate false on every element leaves `dropWhile` inert. -/
theorem dropWhile_eq_self_of_all {p : Char → Bool} :
    ∀ (l : List Char), (∀ c ∈ l, p c = false) → l.dropWhile p = l := by
  intro l h
  cases l with
  | nil => rfl
  | cons c rest =>
      simp [List.dropWhile_cons, h c (List.mem_cons_self _ _)]

/-- `str.strip` leaves a string with no blank characters unchanged. -/
theorem stripL_eq_self (l : List Char)
    (h : ∀ c ∈ l, pySpaceChar c = false) : stripL l = l := by
  unfold stripL
  rw [dropWhile_eq_self_of_all l h,
    dropWhile_eq_self_of_all l.reverse
      (fun c hc => h c (List.mem_reverse.mp hc)),
    List.reverse_reverse]

/-- `uDigits` over rendered decimal digits reads the values back. -/
theorem uDigits_map_digits :
    ∀ (l : List Nat), (∀ d ∈ l, d < 10) → l ≠ [] →
      uDigits decDigitVal (l.map (fun d => Char.ofNat (d + 48))) = some l := by
  intro l
  induction l with
  | nil => intro _ h; exact absurd rfl h
  | cons d ds ih =>
      intro hlt _
      have hd := digitChar_facts d (hlt d (List.mem_cons_self _ _))
      cases ds with
      | nil =>
          simp only [List.map_cons, List.map_nil, uDigits, hd.1]
          rfl
      | cons d2 rest =>
          have hd2 := digitChar_facts d2
            (hlt d2 (List.mem_cons_of_mem _ (List.mem_cons_self _ _)))
          simp only [List.map_cons, uDigits, hd.1, if_neg hd2.2.1]
          rw [show (Char.ofNat (d2 + 48) :: rest.map (fun d => Char.ofNat (d + 48)))
              = (d2 :: rest).map (fun d => Char.ofNat (d + 48)) from rfl]
          rw [ih (fun x hx => hlt x (List.mem_cons_of_mem _ hx)) (by simp)]
          rfl

/-- The auto-base body of `int(text, 0)` on a canonical decimal digit
render (no leading zero unless the number is the single digit `0`). -/
theorem pyIntParseBody_digits (d0 : Nat) (ds : List Nat)
    (hlt : ∀ d ∈ d0 :: ds, d < 10)
    (hhead : d0 ≠ 0 ∨ ds = []) :
    pyIntParseBody ((d0 :: ds).map (fun d => Char.ofNat (d + 48))) =
      some (digitsToNat 10 (d0 :: ds)) := by
  have hu := uDigits_map_digits (d0 :: ds) hlt (by simp)
  cases ds with
  | nil =>
      simp only [List.map_cons, List.map_nil] at hu
      simp only [List.map_cons, List.map_nil, pyIntParseBody]
      rw [hu]
      simp
  | cons d1 rest =>
      have h0 : d0 ≠ 0 := by
        rcases hhead with h | h
        · exact h
        · exact absurd h (by simp)
      have hc0 : ¬ (Char.ofNat (d0 + 48) = '0') := by
        intro hc
        exact h0 (((digitChar_facts d0 (hlt d0 (List.mem_cons_self _ _))).2.2.2.2.2.2.2.2.2.2.2.2).mp hc)
      simp only [List.map_cons] at hu
      simp only [List.map_cons, pyIntParseBody, if_neg hc0, hu,
        List.headD_cons]
      rw [if_neg (by simp [h0])]

/-- `int(text, 0)` reads `pyNatDec` back. -/
theorem pyIntParse_pyNatDec (k : Nat) :
    pyIntParse ⟨pyNatDec k⟩ = some (Int.ofNat k) := by
  have hmem : ∀ c ∈ pyNatDec k, pySpaceChar c = false := by
    intro c hc
    rw [pyNatDec_eq_map] at hc
    obtain ⟨d, hd, hrfl⟩ := List.mem_map.mp hc
    rw [← hrfl]
    exact (digitChar_facts d (dVals_lt k d hd)).2.2.2.2.1
  obtain ⟨d0, ds, hd⟩ := List.exists_cons_of_ne_nil (dVals_ne_nil k)
  have hfacts := digitChar_facts d0 (dVals_lt k d0 (hd ▸ List.mem_cons_self _ _))
  have hstrip : stripL (pyNatDec k) = pyNatDec k := stripL_eq_self _ hmem
  have hmap := pyNatDec_eq_map k
  rw [hd] at hmap
  have hbody := pyIntParseBody_digits d0 ds
    (fun d hdm => dVals_lt k d (hd ▸ hdm))
    (by
      by_cases hk : k = 0
      · right
        have h5 : dVals k = [0] := by unfold dVals; rw [if_pos hk]
        rw [h5] at hd
        injection hd with h1 h2
        exact h2.symm
      · left
        have h5 := dVals_head_ne_zero k hk
        rw [hd] at h5
        simpa using h5)
  rw [show digitsToNat 10 (d0 :: ds) = k from by
    rw [← hd]; exact digitsToNat_dVals k] at hbody
  simp only [List.map_cons] at hbody
  rw [hmap] at hstrip
  simp only [pyIntParse, show (⟨pyNatDec k⟩ : String).data = pyNatDec k from rfl,
    hmap, List.map_cons] at hstrip ⊢
  simp only [hstrip, if_neg hfacts.2.2.1, if_neg hfacts.2.2.2.1, hbody]
  rfl

/-- `'%d' % m` parses back to `m` under `int(text, 0)`. -/
theorem pyIntParse_pyFmtD (m : Int) : pyIntParse (pyFmtD m) = some m := by
  unfold pyFmtD
  by_cases h : m < 0
  · rw [if_pos h]
    have hmem : ∀ c ∈ ('-' :: pyNatDec m.natAbs), pySpaceChar c = false := by
      intro c hc
      rcases List.mem_cons.mp hc with he | hm
      · subst he; decide
      · rw [pyNatDec_eq_map] at hm
        obtain ⟨d, hd, hrfl⟩ := List.mem_map.mp hm
        rw [← hrfl]
        exact (digitChar_facts d (dVals_lt _ d hd)).2.2.2.2.1
    have hstrip := stripL_eq_self _ hmem
    simp only [pyIntParse,
      show (⟨'-' :: pyNatDec m.natAbs⟩ : String).data
        = '-' :: pyNatDec m.natAbs from rfl,
      hstrip, if_neg (by decide : ¬ ('-' : Char) = '+'),
      if_pos (rfl : ('-' : Char) = '-')]
    obtain ⟨d0, ds, hd⟩ := List.exists_cons_of_ne_nil (dVals_ne_nil m.natAbs)
    have hmap := pyNatDec_eq_map m.natAbs
    rw [hd] at hmap
    have hbody := pyIntParseBody_digits d0 ds
      (fun d hdm => dVals_lt _ d (hd ▸ hdm))
      (by
        by_cases hk : m.natAbs = 0
        · right
          have h5 : dVals m.natAbs = [0] := by unfold dVals; rw [if_pos hk]
          rw [h5] at hd
          injection hd with h1 h2
          exact h2.symm
        · left
          have h5 := dVals_head_ne_zero m.natAbs hk
          rw [hd] at h5
          simpa using h5)
    rw [show digitsToNat 10 (d0 :: ds) = m.natAbs from by
      rw [← hd]; exact digitsToNat_dVals m.natAbs] at hbody
    have hofn : -((m.natAbs : Nat) : Int) = m := by omega
    simp only [List.map_cons] at hbody
    simp [hmap, hbody, hofn, Int.ofNat_eq_natCast]
    rw [abs_of_neg h, neg_neg]
  · rw [if_neg h]
    rw [pyIntParse_pyNatDec]
    have hofn : Int.ofNat m.natAbs = m := by
      rw [Int.ofNat_eq_natCast]; omega
    rw [hofn]

/-- Digit-valued `filterMap` over rendered digits reads them back. -/
theorem filterMap_digits :
    ∀ (l : List Nat), (∀ d ∈ l, d < 10) →
      l.filterMap (fun d => decDigitVal (Char.ofNat (d + 48))) = l := by
  intro l
  induction l with
  | nil => intro _; rfl
  | cons d ds ih =>
      intro hlt
      rw [List.filterMap_cons,
        (digitChar_facts d (hlt d (List.mem_cons_self _ _))).1,
        ih (fun x hx => hlt x (List.mem_cons_of_mem _ hx))]

/-- The spec-modelled `time.parse` reads `pyNatDec` back. -/
theorem timeParse_pyNatDec (k : Nat) :
    timeParse ⟨pyNatDec k⟩ = some (Int.ofNat k) := by
  have hfm : (pyNatDec k).filterMap decDigitVal = dVals k := by
    rw [pyNatDec_eq_map, List.filterMap_map]
    exact filterMap_digits (dVals k) (dVals_lt k)
  simp only [timeParse, show (⟨pyNatDec k⟩ : String).data = pyNatDec k from rfl,
    hfm]
  rw [if_neg (by simp [List.isEmpty_iff, dVals_ne_nil k]), digitsToNat_dVals]

/-! ## Claim C2 — character and string stability -/

/-- `Char.toNat` recovers a valid code point. -/
theorem toNat_ofNat_valid (n : Nat) (h : Nat.isValidChar n) :
    (Char.ofNat n).toNat = n := by
  simp only [Char.ofNat, h, dif_pos, Char.ofNatAux, Char.toNat]
  unfold Nat.isValidChar at h
  have h32 : n < 4294967296 := by omega
  simp [UInt32.toNat, UInt32.ofNat', Nat.mod_eq_of_lt h32]

/-- Character order is code-point order. -/
theorem char_le_iff_toNat (a b : Char) : a ≤ b ↔ a.toNat ≤ b.toNat := by
  rw [Char.le_def]
  rfl

/-- Character equality is code-point equality. -/
theorem char_eq_iff_toNat (a b : Char) : a = b ↔ a.toNat = b.toNat := by
  constructor
  · intro h; rw [h]
  · intro h
    exact Char.ext (UInt32.ext h)

/-- `str.lower` moves only the characters `A`–`Z`. -/
theorem pyLowerChar_eq_self (c : Char)
    (h : c.toNat < 65 ∨ 90 < c.toNat) : pyLowerChar c = c := by
  unfold pyLowerChar
  rw [if_neg]
  intro hcon
  have h1 := (char_le_iff_toNat 'A' c).mp hcon.1
  have h2 := (char_le_iff_toNat c 'Z').mp hcon.2
  revert h1 h2
  show 65 ≤ c.toNat → c.toNat ≤ 90 → False
  omega

/-- `str.lower` is idempotent character-wise. -/
theorem pyLowerChar_idem (c : Char) :
    pyLowerChar (pyLowerChar c) = pyLowerChar c := by
  by_cases h : 'A' ≤ c ∧ c ≤ 'Z'
  · have h1 := (char_le_iff_toNat 'A' c).mp h.1
    have h2 := (char_le_iff_toNat c 'Z').mp h.2
    have h1' : 65 ≤ c.toNat := h1
    have h2' : c.toNat ≤ 90 := h2
    have hval : Nat.isValidChar (c.toNat + 32) := Or.inl (by omega)
    have hshift : pyLowerChar c = Char.ofNat (c.toNat + 32) := by
      unfold pyLowerChar
      rw [if_pos h]
    rw [hshift]
    apply pyLowerChar_eq_self
    rw [toNat_ofNat_valid _ hval]
    omega
  · have hid : pyLowerChar c = c := by unfold pyLowerChar; rw [if_neg h]
    rw [hid, hid]

/-- No character at or above code point 48 is Python whitespace. -/
theorem pySpaceChar_eq_false_of_ge (c : Char) (h : 48 ≤ c.toNat) :
    pySpaceChar c = false := by
  have hne : ∀ d : Char, d.toNat < 48 → c ≠ d := by
    intro d hd he
    rw [(char_eq_iff_toNat c d).mp he] at h
    omega
  simp [pySpaceChar, hne ' ' (by decide), hne '\t' (by decide),
    hne '\n' (by decide), hne '\r' (by decide), hne '\x0b' (by decide),
    hne '\x0c' (by decide)]

/-- `str.lower` does not change whitespace-ness. -/
theorem pySpaceChar_pyLowerChar (c : Char) :
    pySpaceChar (pyLowerChar c) = pySpaceChar c := by
  by_cases h : 'A' ≤ c ∧ c ≤ 'Z'
  · have h1 : 65 ≤ c.toNat := (char_le_iff_toNat 'A' c).mp h.1
    have h2 : c.toNat ≤ 90 := (char_le_iff_toNat c 'Z').mp h.2
    have hval : Nat.isValidChar (c.toNat + 32) := Or.inl (by omega)
    have hshift : pyLowerChar c = Char.ofNat (c.toNat + 32) := by
      unfold pyLowerChar
      rw [if_pos h]
    rw [hshift, pySpaceChar_eq_false_of_ge _ (by rw [toNat_ofNat_valid _ hval]; omega),
      pySpaceChar_eq_false_of_ge _ (by omega)]
  · unfold pyLowerChar
    rw [if_neg h]

/-- `dropWhile` is inert when the head (if any) fails the predicate. -/
theorem dropWhile_eq_self_of_head {p : Char → Bool} (l : List Char)
    (h : ∀ c, l.head? = some c → p c = false) : l.dropWhile p = l := by
  cases l with
  | nil => rfl
  | cons c rest => simp [List.dropWhile_cons, h c rfl]

/-- The head surviving a `dropWhile` fails the predicate. -/
theorem head_dropWhile_false (p : Char → Bool) :
    ∀ (l : List Char) (c : Char), (l.dropWhile p).head? = some c →
      p c = false := by
  intro l
  induction l with
  | nil => intro c h; exact Option.noConfusion h
  | cons a rest ih =>
      intro c h
      rw [List.dropWhile_cons] at h
      by_cases ha : p a
      · rw [if_pos ha] at h
        exact ih c h
      · rw [if_neg ha] at h
        injection h with h2
        rw [← h2]
        exact Bool.of_not_eq_true ha

/-- A stripped string keeps no leading blank. -/
theorem stripL_head (l : List Char) (c : Char)
    (h : (stripL l).head? = some c) : pySpaceChar c = false := by
  unfold stripL at h
  have hsuff : (l.dropWhile pySpaceChar).reverse.dropWhile pySpaceChar
      <:+ (l.dropWhile pySpaceChar).reverse := List.dropWhile_suffix _
  have hpref :
      ((l.dropWhile pySpaceChar).reverse.dropWhile pySpaceChar).reverse
        <+: l.dropWhile pySpaceChar := by
    have h9 := List.reverse_prefix.mpr hsuff
    rwa [List.reverse_reverse] at h9
  obtain ⟨t, ht⟩ := hpref
  cases hc :
      ((l.dropWhile pySpaceChar).reverse.dropWhile pySpaceChar).reverse with
  | nil => rw [hc] at h; exact Option.noConfusion h
  | cons c0 rest =>
      rw [hc] at h ht
      injection h with h2
      refine head_dropWhile_false pySpaceChar l c ?_
      rw [← ht]
      simp [h2]

/-- A stripped string keeps no trailing blank. -/
theorem stripL_getLast (l : List Char) (c : Char)
    (h : (stripL l).getLast? = some c) : pySpaceChar c = false := by
  unfold stripL at h
  rw [List.getLast?_reverse] at h
  exact head_dropWhile_false pySpaceChar _ c h

/-- `str.strip` is inert on a string with no leading and no trailing
blank. -/
theorem stripL_eq_self_of_ends (l : List Char)
    (hh : ∀ c, l.head? = some c → pySpaceChar c = false)
    (hl : ∀ c, l.getLast? = some c → pySpaceChar c = false) :
    stripL l = l := by
  unfold stripL
  rw [dropWhile_eq_self_of_head l hh,
    dropWhile_eq_self_of_head l.reverse
      (fun c hc => hl c (by rwa [List.head?_reverse] at hc)),
    List.reverse_reverse]

/-- `str.strip` is idempotent. -/
theorem stripL_idem (l : List Char) : stripL (stripL l) = stripL l :=
  stripL_eq_self_of_ends _ (stripL_head l) (stripL_getLast l)

/-- `str.lower` commutes with `str.strip`. -/
theorem stripL_map_lower (l : List Char) :
    stripL (l.map pyLowerChar) = (stripL l).map pyLowerChar := by
  have hdw : ∀ x : List Char,
      (x.map pyLowerChar).dropWhile pySpaceChar =
        (x.dropWhile pySpaceChar).map pyLowerChar := by
    intro x
    rw [List.dropWhile_map]
    rw [show pySpaceChar ∘ pyLowerChar = pySpaceChar from
      funext pySpaceChar_pyLowerChar]
  unfold stripL
  rw [hdw, ← List.map_reverse, hdw, ← List.map_reverse]

/-- `str.lower` is idempotent. -/
theorem pyLower_idem (s : String) : pyLower (pyLower s) = pyLower s := by
  unfold pyLower
  rw [show (⟨s.data.map pyLowerChar⟩ : String).data
      = s.data.map pyLowerChar from rfl,
    List.map_map,
    show pyLowerChar ∘ pyLowerChar = pyLowerChar from
      funext pyLowerChar_idem]

/-- `str.strip` is idempotent (string level). -/
theorem pyStrip_idem (s : String) : pyStrip (pyStrip s) = pyStrip s := by
  unfold pyStrip
  rw [show (⟨stripL s.data⟩ : String).data = stripL s.data from rfl,
    stripL_idem]

/-- `lower` then `strip` re-lowers to itself. -/
theorem pyLower_pyStrip_pyLower (s : String) :
    pyLower (pyStrip (pyLower s)) = pyStrip (pyLower s) := by
  unfold pyLower pyStrip
  simp only [show ∀ l : List Char, (⟨l⟩ : String).data = l from fun _ => rfl]
  rw [← stripL_map_lower, List.map_map,
    show pyLowerChar ∘ pyLowerChar = pyLowerChar from
      funext pyLowerChar_idem]

/-! ## Claim C2 — split lemmas for the tag type -/

/-- `str.split` on an absent single-character separator returns the whole
string (any fuel). -/
theorem splitLF_no_occur (c0 : Char) :
    ∀ (fuel : Nat) (cs : List Char), c0 ∉ cs →
      splitLF [c0] fuel cs = [cs] := by
  intro fuel
  induction fuel with
  | zero => intro cs _; rfl
  | succ fuel ih =>
      intro cs h
      cases cs with
      | nil => rfl
      | cons c rest =>
          have hne : ¬ (([c0].isPrefixOf (c :: rest) : Bool) = true ∧
              ([c0] : List Char) ≠ []) := by
            intro hcon
            simp only [List.isPrefixOf, Bool.and_eq_true, beq_iff_eq] at hcon
            exact h (hcon.1.1 ▸ List.mem_cons_self _ _)
          simp only [splitLF, if_neg hne,
            ih rest (fun hm => h (List.mem_cons_of_mem _ hm))]

/-- The first fragment produced by `str.split` on a single-character
separator does not contain the separator. -/
theorem splitLF_head_no_occur (c0 : Char) :
    ∀ (fuel : Nat) (cs : List Char), cs.length < fuel →
      ∀ p ps, splitLF [c0] fuel cs = p :: ps → c0 ∉ p := by
  intro fuel
  induction fuel with
  | zero => intro cs h; omega
  | succ fuel ih =>
      intro cs hlen p ps hsplit
      cases cs with
      | nil =>
          have h2 : ([] : List Char) = p := by
            have h3 : ([[]] : List (List Char)) = p :: ps := hsplit
            injection h3 with h4 h5
          rw [← h2]
          simp
      | cons c rest =>
          by_cases hpre : (([c0].isPrefixOf (c :: rest) : Bool) = true ∧
              ([c0] : List Char) ≠ [])
          · simp only [splitLF, if_pos hpre] at hsplit
            injection hsplit with h4 h5
            rw [← h4]
            simp
          · have hcne : c0 ≠ c := by
              intro he
              exact hpre ⟨by simp [List.isPrefixOf, he], by simp⟩
            simp only [splitLF, if_neg hpre] at hsplit
            cases hrec : splitLF [c0] fuel rest with
            | nil =>
                rw [hrec] at hsplit
                injection hsplit with h4 h5
                rw [← h4]
                simp [hcne]
            | cons part parts =>
                rw [hrec] at hsplit
                injection hsplit with h4 h5
                rw [← h4]
                intro hm
                rcases List.mem_cons.mp hm with he | hm2
                · exact hcne he
                · exact ih rest (by simp at hlen; omega) part parts hrec hm2

/-- The head of `s.split(sep, 1)` for a single-character separator never
contains the separator. -/
theorem pySplitN_head_no_occur (s : String) (c0 : Char) (t : String)
    (ts : List String) (h : pySplitN s ⟨[c0]⟩ 1 = t :: ts) :
    c0 ∉ t.data := by
  unfold pySplitN pySplit splitL at h
  cases hsp : splitLF [c0] (s.data.length + 1) s.data with
  | nil =>
      rw [show (⟨[c0]⟩ : String).data = [c0] from rfl, hsp] at h
      simp at h
  | cons p ps =>
      have hp : c0 ∉ p :=
        splitLF_head_no_occur c0 (s.data.length + 1) s.data
          (by omega) p ps hsp
      rw [show (⟨[c0]⟩ : String).data = [c0] from rfl, hsp] at h
      by_cases hl : (((p :: ps).map (fun cs => (⟨cs⟩ : String))).length ≤ 2)
      · rw [if_pos hl] at h
        simp only [List.map_cons] at h
        injection h with h4 h5
        rw [← h4]
        exact hp
      · rw [if_neg hl] at h
        simp only [List.map_cons, List.take_succ_cons, List.take_zero] at h
        have h6 : (⟨p⟩ : String) = t := by
          have h7 := congrArg List.head? h
          simpa using h7
        rw [← h6]
        exact hp

/-- Lowering cannot create an `@`. -/
theorem pyLowerChar_eq_at (c : Char) (h : pyLowerChar c = '@') :
    c = '@' := by
  by_cases hs : 'A' ≤ c ∧ c ≤ 'Z'
  · exfalso
    have h1 : 65 ≤ c.toNat := (char_le_iff_toNat 'A' c).mp hs.1
    have h2 : c.toNat ≤ 90 := (char_le_iff_toNat c 'Z').mp hs.2
    have hval : Nat.isValidChar (c.toNat + 32) := Or.inl (by omega)
    unfold pyLowerChar at h
    rw [if_pos hs] at h
    have h3 := (char_eq_iff_toNat _ _).mp h
    rw [toNat_ofNat_valid _ hval] at h3
    rw [show Char.toNat '@' = 64 from rfl] at h3
    omega
  · unfold pyLowerChar at h
    rwa [if_neg hs] at h

/-! ## Claim C2 — per-type stability: guid -/

/-- Mapping a function that fixes every element is the identity. -/
theorem map_eq_self_of_fix {α : Type} {f : α → α} :
    ∀ l : List α, (∀ c ∈ l, f c = c) → l.map f = l := by
  intro l h
  induction l with
  | nil => rfl
  | cons c rest ih =>
      rw [List.map_cons, h c (List.mem_cons_self _ _),
        ih (fun x hx => h x (List.mem_cons_of_mem _ hx))]

/-- Code-point range of a lowercase hex digit. -/
theorem hexDigitLower_toNat (c : Char) (h : hexDigitLower c = true) :
    (48 ≤ c.toNat ∧ c.toNat ≤ 57) ∨ (97 ≤ c.toNat ∧ c.toNat ≤ 102) := by
  simp only [hexDigitLower, Bool.or_eq_true, Bool.and_eq_true,
    decide_eq_true_eq] at h
  rcases h with ⟨h1, h2⟩ | ⟨h1, h2⟩
  · exact Or.inl ⟨(char_le_iff_toNat '0' c).mp h1,
      (char_le_iff_toNat c '9').mp h2⟩
  · exact Or.inr ⟨(char_le_iff_toNat 'a' c).mp h1,
      (char_le_iff_toNat c 'f').mp h2⟩

/-- A 32-char lowercase-hex identifier normalizes to itself under
`GuidType.norm`. -/
theorem guidNorm_stable (ga : Option PyVal) (rnd g : String)
    (hg : isguid g = true) :
    guidNorm ga rnd (.str g) = .ok (.str g, []) := by
  have hg' := hg
  simp only [isguid, Bool.and_eq_true, beq_iff_eq, List.all_eq_true] at hg'
  obtain ⟨hlen, hall⟩ := hg'
  have hfix : ∀ c ∈ g.data, pyLowerChar c = c := by
    intro c hc
    rcases hexDigitLower_toNat c (hall c hc) with ⟨h1, h2⟩ | ⟨h1, h2⟩
    · exact pyLowerChar_eq_self c (Or.inl (by omega))
    · exact pyLowerChar_eq_self c (Or.inr (by omega))
  have hlower : pyLower g = g := by
    unfold pyLower
    rw [map_eq_self_of_fix g.data hfix]
  have hdash : stripDashes g = g := by
    unfold stripDashes
    rw [show (g.data.filter (fun c => c ≠ '-')) = g.data from ?_]
    · apply List.filter_eq_self.mpr
      intro c hc
      rcases hexDigitLower_toNat c (hall c hc) with ⟨h1, h2⟩ | ⟨h1, h2⟩
      all_goals
        simp only [ne_eq, decide_eq_true_eq]
        intro he
        rw [(char_eq_iff_toNat _ _).mp he,
          show Char.toNat '-' = 45 from rfl] at h1
        omega
  have hlen' : g.data.length = 32 := hlen
  show (match PyVal.str g with
    | PyVal.str sv =>
      if sv.length < 1 then Except.error Err.badValu
      else
        if sv = "*" then Except.ok (PyVal.str rnd, [])
        else
          if sv.data.head? ≠ some '$' then
            let retn := stripDashes (pyLower sv)
            if isguid retn = true then Except.ok (PyVal.str retn, [])
            else Except.error Err.badValu
          else
            match ga with
            | Option.none => Except.error Err.badValu
            | some _ => Except.error Err.badValu
    | _ => Except.error Err.badValu) = Except.ok (PyVal.str g, [])
  show (if g.length < 1 then Except.error Err.badValu
    else
      if g = "*" then Except.ok (PyVal.str rnd, [])
      else
        if g.data.head? ≠ some '$' then
          let retn := stripDashes (pyLower g)
          if isguid retn = true then Except.ok (PyVal.str retn, [])
          else Except.error Err.badValu
        else
          match ga with
          | Option.none => Except.error Err.badValu
          | some _ => Except.error Err.badValu) = Except.ok (PyVal.str g, [])
  rw [if_neg (by
      show ¬ (g.length < 1)
      have : g.length = g.data.length := rfl
      omega),
    if_neg (by
      intro he
      rw [he] at hlen'
      exact absurd hlen' (by decide)),
    if_pos (by
      cases hd : g.data with
      | nil =>
          rw [hd] at hlen'
          exact absurd hlen' (by decide)
      | cons c0 rest =>
          simp only [List.head?_cons, ne_eq, Option.some.injEq]
          intro he
          have := hall c0 (hd ▸ List.mem_cons_self _ _)
          rcases hexDigitLower_toNat c0 this with ⟨h1, h2⟩ | ⟨h1, h2⟩
          all_goals
            rw [(char_eq_iff_toNat _ _).mp he,
              show Char.toNat '$' = 36 from rfl] at h1
            omega),
    hlower, hdash, if_pos hg]

/-- A successful `GuidType.norm` yields a 32-char lowercase-hex string
(given the generator produces one for `*`). -/
theorem guidNorm_shape (ga : Option PyVal) (rnd : String) (v n : PyVal)
    (subs : Subs) (hrnd : isguid rnd = true)
    (h : guidNorm ga rnd v = .ok (n, subs)) :
    ∃ g, n = .str g ∧ isguid g = true := by
  cases v with
  | str sv =>
      by_cases h1 : sv.length < 1
      · simp only [guidNorm, if_pos h1] at h
        exact Except.noConfusion h
      · by_cases h2 : sv = "*"
        · simp only [guidNorm, if_pos h2, if_neg h1,
            Except.ok.injEq, Prod.mk.injEq] at h
          exact ⟨rnd, h.1.symm, hrnd⟩
        · by_cases h3 : sv.data.head? ≠ some '$'
          · by_cases h4 : isguid (stripDashes (pyLower sv)) = true
            · simp only [guidNorm, if_neg h1, if_neg h2, if_pos h3, h4,
                if_true, Except.ok.injEq, Prod.mk.injEq] at h
              exact ⟨stripDashes (pyLower sv), h.1.symm, h4⟩
            · simp only [guidNorm, if_neg h1, if_neg h2, if_pos h3,
                h4] at h
              simp at h
          · simp only [guidNorm, if_neg h1, if_neg h2, if_neg h3] at h
            cases ga with
            | none => simp at h
            | some a => simp at h
  | none => simp [guidNorm] at h
  | int m => simp [guidNorm] at h
  | list xs => simp [guidNorm] at h
  | dict ps => simp [guidNorm] at h

/-! ## Claim C2 — per-type stability: bool, int, time -/

/-- `BoolType.norm` only ever returns the integers 0 and 1, with no
sub-properties. -/
theorem boolNorm_shape (v n : PyVal) (subs : Subs)
    (h : boolNorm v = .ok (n, subs)) :
    (n = .int 1 ∨ n = .int 0) ∧ subs = [] := by
  cases v with
  | str sv =>
      by_cases h1 : ["true", "t", "y", "yes", "1", "on"].contains (pyLower sv)
      · simp only [boolNorm, h1, if_true, Except.ok.injEq,
          Prod.mk.injEq] at h
        exact ⟨Or.inl h.1.symm, h.2.symm⟩
      · by_cases h2 : ["false", "f", "n", "no", "0", "off"].contains (pyLower sv)
        · simp only [boolNorm, h1, h2, if_true, if_false, Bool.false_eq_true,
            Except.ok.injEq, Prod.mk.injEq] at h
          exact ⟨Or.inr h.1.symm, h.2.symm⟩
        · simp only [boolNorm, h1, h2, Bool.false_eq_true, if_false] at h
          exact Except.noConfusion h
  | none =>
      simp only [boolNorm, Except.ok.injEq, Prod.mk.injEq] at h
      refine ⟨?_, h.2.symm⟩
      rcases h with ⟨h1, _⟩
      by_cases ht : pyTruthy PyVal.none
      · exact Or.inl (by rw [← h1]; simp [ht])
      · exact Or.inr (by rw [← h1]; simp [ht])
  | int m =>
      simp only [boolNorm, Except.ok.injEq, Prod.mk.injEq] at h
      refine ⟨?_, h.2.symm⟩
      rcases h with ⟨h1, _⟩
      by_cases ht : pyTruthy (PyVal.int m)
      · exact Or.inl (by rw [← h1]; simp [ht])
      · exact Or.inr (by rw [← h1]; simp [ht])
  | list xs =>
      simp only [boolNorm, Except.ok.injEq, Prod.mk.injEq] at h
      refine ⟨?_, h.2.symm⟩
      rcases h with ⟨h1, _⟩
      by_cases ht : pyTruthy (PyVal.list xs)
      · exact Or.inl (by rw [← h1]; simp [ht])
      · exact Or.inr (by rw [← h1]; simp [ht])
  | dict ps =>
      simp only [boolNorm, Except.ok.injEq, Prod.mk.injEq] at h
      refine ⟨?_, h.2.symm⟩
      rcases h with ⟨h1, _⟩
      by_cases ht : pyTruthy (PyVal.dict ps)
      · exact Or.inl (by rw [← h1]; simp [ht])
      · exact Or.inr (by rw [← h1]; simp [ht])

/-- An unbounded `%d` int type accepts its own decimal render. -/
theorem intNorm_fmtD (mm : MinMax) (m : Int) :
    intNorm ⟨.str "%d", Option.none, Option.none, mm⟩
      (.str (pyFmtD m)) Option.none = .ok (.int m, []) := by
  simp only [intNorm, pyIntParse_pyFmtD, Bind.bind, Except.bind, pure,
    Except.pure]

/-- An unbounded `time` type accepts its own millisecond render. -/
theorem timeNorm_render (mm : MinMax) (k : Nat) :
    timeNorm mm (.str ⟨pyNatDec k⟩) Option.none = .ok (.int (Int.ofNat k), []) := by
  simp only [timeNorm, timeParse_pyNatDec, Bind.bind, Except.bind, pure,
    Except.pure]

/-! ## Claim C2 — per-type stability: syn:tag -/

/-- A successful `TagType.norm` returns a lower-cased tag that matches
the tag pattern and contains no `@`. -/
theorem tagNorm_shape (fuel : Nat) (s : State) (rnd : String)
    (v n : PyVal) (subs : Subs)
    (h : tagNorm (fuel + 1) s rnd v = .ok (n, subs)) :
    ∃ g : String, n = .str g ∧ tagMatch g = true ∧ '@' ∉ g.data ∧
      pyLower g = g := by
  cases v with
  | str sv =>
      cases hsp : pySplitN sv "@" 1 with
      | nil =>
          simp only [tagNorm, hsp] at h
          exact Except.noConfusion h
      | cons tpart rest =>
          have hat : '@' ∉ tpart.data :=
            pySplitN_head_no_occur sv '@' tpart rest hsp
          have hat2 : '@' ∉ (pyLower tpart).data := by
            intro hm
            obtain ⟨c, hc, hrfl⟩ := List.mem_map.mp hm
            exact hat (pyLowerChar_eq_at c hrfl ▸ hc)
          cases rest with
          | nil =>
              simp only [tagNorm, hsp] at h
              by_cases hm : tagMatch (pyLower tpart) = true
              · rw [if_pos hm] at h
                have h2 : Except.ok ((PyVal.str (pyLower tpart)),
                    ([] : Subs)) = Except.ok (n, subs) := h
                injection h2 with h3
                injection h3 with h4 h5
                exact ⟨pyLower tpart, h4.symm, hm, hat2, pyLower_idem tpart⟩
              · rw [if_neg (by simpa using hm)] at h
                exact Except.noConfusion h
          | cons tsuffix rest2 =>
              cases rest2 with
              | cons x xs =>
                  simp only [tagNorm, hsp] at h
                  exact Except.noConfusion h
              | nil =>
                  simp only [tagNorm, hsp] at h
                  cases htt : tagTimes fuel s rnd (pySplit tsuffix "-") with
                  | error e =>
                      rw [htt] at h
                      exact Except.noConfusion h
                  | ok tims =>
                      rw [htt] at h
                      have h1 : (match intsOf tims with
                          | some (i :: is) =>
                              if tagMatch (pyLower tpart) = true then
                                Except.ok ((PyVal.str (pyLower tpart)),
                                  (aset (aset [] "seen:min"
                                      (PyVal.int (List.foldl min i is)))
                                    "seen:max"
                                    (PyVal.int (List.foldl max i is))))
                              else Except.error Err.badValu
                          | _ => Except.error Err.typeError) =
                          Except.ok (n, subs) := h
                      cases hio : intsOf tims with
                      | none =>
                          rw [hio] at h1
                          exact Except.noConfusion h1
                      | some l =>
                          rw [hio] at h1
                          cases l with
                          | nil => exact Except.noConfusion h1
                          | cons i is =>
                              have h2 : (if tagMatch (pyLower tpart) = true then
                                  Except.ok ((PyVal.str (pyLower tpart)),
                                    (aset (aset [] "seen:min"
                                        (PyVal.int (List.foldl min i is)))
                                      "seen:max"
                                      (PyVal.int (List.foldl max i is))))
                                  else Except.error Err.badValu) =
                                  Except.ok (n, subs) := h1
                              by_cases hm : tagMatch (pyLower tpart) = true
                              · rw [if_pos hm] at h2
                                injection h2 with h3
                                injection h3 with h4 h5
                                exact ⟨pyLower tpart, h4.symm, hm, hat2,
                                  pyLower_idem tpart⟩
                              · rw [if_neg hm] at h2
                                exact Except.noConfusion h2
  | none => exact Except.noConfusion (h : Except.error Err.typeError = _)
  | int m => exact Except.noConfusion (h : Except.error Err.typeError = _)
  | list xs => exact Except.noConfusion (h : Except.error Err.typeError = _)
  | dict ps => exact Except.noConfusion (h : Except.error Err.typeError = _)

/-- A lower-cased `@`-free tag that matches the pattern normalizes to
itself with no sub-properties. -/
theorem tagNorm_stable (fuel : Nat) (s : State) (rnd : String) (g : String)
    (hm : tagMatch g = true) (hat : '@' ∉ g.data) (hlow : pyLower g = g) :
    tagNorm (fuel + 1) s rnd (.str g) = .ok (.str g, []) := by
  have hsp : pySplitN g "@" 1 = [g] := by
    unfold pySplitN pySplit splitL
    rw [show ("@" : String).data = ['@'] from rfl,
      splitLF_no_occur '@' (g.data.length + 1) g.data hat]
    simp
  simp only [tagNorm, hsp, hlow, if_pos hm]

/-! ## Claim C2 — per-type stability: the str family -/

/-- The string transform applied by `StrType.norm` (lower if configured,
then strip if configured). -/
def strTr (info : Info) (st : PyVal) (sv : String) : String :=
  let sv1 := if pyTruthy ((aget info "lower").getD .none) then pyLower sv
             else sv
  if pyTruthy st then pyStrip sv1 else sv1

/-- `StrType.norm` on a string input, for a configuration with no
null value, no enum values and no restrip pattern. -/
theorem strNorm_on_str (info : Info) (st : PyVal) (rg : Option String)
    (fi : Option PyVal) (sv : String) :
    strNorm info ⟨st, Option.none, Option.none, rg, Option.none, fi⟩
        (.str sv) =
      (match rg with
       | some r =>
          if pyReMatch r (strTr info st sv) then
            .ok (.str (strTr info st sv), [])
          else .error .badValu
       | Option.none => .ok (.str (strTr info st sv), [])) := by
  cases fi with
  | none =>
      cases rg with
      | none =>
          simp only [strNorm, strTr, Bind.bind, Except.bind, pure,
            Except.pure, throw, throwThe, MonadExceptOf.throw,
            reduceCtorEq, if_false]
      | some r =>
          simp only [strNorm, strTr, Bind.bind, Except.bind, pure,
            Except.pure, throw, throwThe, MonadExceptOf.throw,
            reduceCtorEq, if_false]
  | some f =>
      cases rg with
      | none =>
          simp only [strNorm, strTr, Bind.bind, Except.bind, pure,
            Except.pure, throw, throwThe, MonadExceptOf.throw,
            reduceCtorEq, if_false]
      | some r =>
          simp only [strNorm, strTr, Bind.bind, Except.bind, pure,
            Except.pure, throw, throwThe, MonadExceptOf.throw,
            reduceCtorEq, if_false]

/-- The transform of `StrType.norm` is idempotent. -/
theorem strTr_idem (info : Info) (st : PyVal) (sv : String) :
    strTr info st (strTr info st sv) = strTr info st sv := by
  unfold strTr
  by_cases b : pyTruthy ((aget info "lower").getD .none) = true
  · by_cases bs : pyTruthy st = true
    · simp only [b, bs, if_true]
      rw [pyLower_pyStrip_pyLower, pyStrip_idem]
    · simp only [b, bs, if_true, if_false, Bool.false_eq_true]
      rw [pyLower_idem]
  · by_cases bs : pyTruthy st = true
    · simp only [b, bs, if_true, if_false, Bool.false_eq_true]
      rw [pyStrip_idem]
    · simp only [b, bs, if_false, Bool.false_eq_true]

/-- `StrType.norm` output on a string input re-normalizes to itself. -/
theorem strNorm_str_stable (info : Info) (st : PyVal) (rg : Option String)
    (fi : Option PyVal) (sv : String) (n : PyVal) (subs : Subs)
    (h : strNorm info ⟨st, Option.none, Option.none, rg, Option.none, fi⟩
        (.str sv) = .ok (n, subs)) :
    strNorm info ⟨st, Option.none, Option.none, rg, Option.none, fi⟩ n =
      .ok (n, []) := by
  rw [strNorm_on_str] at h
  cases rg with
  | none =>
      have h2 : Except.ok ((PyVal.str (strTr info st sv)), ([] : Subs)) =
          Except.ok (n, subs) := h
      injection h2 with h3
      injection h3 with h4 h5
      rw [← h4, strNorm_on_str]
      simp [strTr_idem]
  | some r =>
      have h1 : (if pyReMatch r (strTr info st sv) = true then
          Except.ok ((PyVal.str (strTr info st sv)), ([] : Subs))
          else Except.error Err.badValu) = Except.ok (n, subs) := h
      by_cases hc : pyReMatch r (strTr info st sv) = true
      · rw [if_pos hc] at h1
        injection h1 with h3
        injection h3 with h4 h5
        rw [← h4, strNorm_on_str]
        simp [strTr_idem, hc]
      · rw [if_neg hc] at h1
        exact Except.noConfusion h1

/-- With a truthy `frob_int_fmt`, an integer input to `StrType.norm` is
formatted and then handled as the formatted string. -/
theorem strNorm_int_frob (info : Info) (st : PyVal) (rg : Option String)
    (fs : String) (k : Int) (fv : String)
    (ht : pyTruthy (.str fs) = true) (hfmt : pyFmtInt fs k = some fv) :
    strNorm info ⟨st, Option.none, Option.none, rg, Option.none,
        some (.str fs)⟩ (.int k) =
      strNorm info ⟨st, Option.none, Option.none, rg, Option.none,
        some (.str fs)⟩ (.str fv) := by
  simp only [strNorm, Bind.bind, Except.bind, pure, Except.pure,
    throw, throwThe, MonadExceptOf.throw, if_pos ht, hfmt]

/-- `StrType.norm` is stable for every accepted input, for a
configuration with no null value, no enum values and no restrip. -/
theorem strNorm_stable (info : Info) (st : PyVal) (rg : Option String)
    (fi : Option PyVal) (v n : PyVal) (subs : Subs)
    (h : strNorm info ⟨st, Option.none, Option.none, rg, Option.none, fi⟩
        v = .ok (n, subs)) :
    strNorm info ⟨st, Option.none, Option.none, rg, Option.none, fi⟩ n =
      .ok (n, []) := by
  cases v with
  | str sv => exact strNorm_str_stable info st rg fi sv n subs h
  | int k =>
      cases fi with
      | none =>
          exact Except.noConfusion (h : Except.error Err.badValu = _)
      | some f =>
          by_cases ht : pyTruthy f = true
          · cases f with
            | str fs =>
                cases hfmt : pyFmtInt fs k with
                | none =>
                    simp only [strNorm, Bind.bind, Except.bind, pure,
                      Except.pure, throw, throwThe, MonadExceptOf.throw,
                      if_pos ht, hfmt] at h
                    exact Except.noConfusion h
                | some fv =>
                    rw [strNorm_int_frob info st rg fs k fv ht hfmt] at h
                    exact strNorm_str_stable info st rg _ fv n subs h
            | none =>
                simp only [strNorm, Bind.bind, Except.bind, pure,
                  Except.pure, throw, throwThe, MonadExceptOf.throw,
                  if_pos ht] at h
                exact Except.noConfusion h
            | int m =>
                simp only [strNorm, Bind.bind, Except.bind, pure,
                  Except.pure, throw, throwThe, MonadExceptOf.throw,
                  if_pos ht] at h
                exact Except.noConfusion h
            | list xs =>
                simp only [strNorm, Bind.bind, Except.bind, pure,
                  Except.pure, throw, throwThe, MonadExceptOf.throw,
                  if_pos ht] at h
                exact Except.noConfusion h
            | dict ps =>
                simp only [strNorm, Bind.bind, Except.bind, pure,
                  Except.pure, throw, throwThe, MonadExceptOf.throw,
                  if_pos ht] at h
                exact Except.noConfusion h
          · simp only [strNorm, Bind.bind, Except.bind, pure,
              Except.pure, throw, throwThe, MonadExceptOf.throw,
              if_neg ht] at h
            exact Except.noConfusion h
  | none =>
      cases fi with
      | none => exact Except.noConfusion (h : Except.error Err.badValu = _)
      | some f => exact Except.noConfusion (h : Except.error Err.badValu = _)
  | list xs =>
      cases fi with
      | none => exact Except.noConfusion (h : Except.error Err.badValu = _)
      | some f => exact Except.noConfusion (h : Except.error Err.badValu = _)
  | dict ps =>
      cases fi with
      | none => exact Except.noConfusion (h : Except.error Err.badValu = _)
      | some f => exact Except.noConfusion (h : Except.error Err.badValu = _)

/-! ## Claim C2 — JSON roundtrip groundwork -/

/-- The lowercase hex digit characters decode to their value. -/
theorem hexDigitVal_hexDigitChar (d : Nat) (hd : d < 16) :
    hexDigitVal (hexDigitChar d) = some d := by
  interval_cases d <;> exact (by decide)

/-- Rebuilding a character from its code point. -/
theorem ofNat_toNat_char (c : Char) : Char.ofNat c.toNat = c :=
  (char_eq_iff_toNat _ _).mpr (toNat_ofNat_valid c.toNat c.valid)

/-- A character at or above code point 48 is not JSON whitespace. -/
theorem jSpace_eq_false_of_ge (c : Char) (h : 33 ≤ c.toNat) :
    jSpace c = false := by
  have hne : ∀ d : Char, d.toNat < 33 → c ≠ d := by
    intro d hd he
    rw [(char_eq_iff_toNat c d).mp he] at h
    omega
  simp [jSpace, hne ' ' (by decide), hne '\t' (by decide),
    hne '\n' (by decide), hne '\r' (by decide)]

/-- `cs` does not begin with a decimal digit. -/
def noDigitHead (cs : List Char) : Prop :=
  ∀ c, cs.head? = some c → decDigitVal c = Option.none

theorem noDigitHead_nil : noDigitHead [] := by
  intro c h
  simp at h

theorem noDigitHead_cons (c : Char) (l : List Char)
    (h : decDigitVal c = Option.none) : noDigitHead (c :: l) := by
  intro c' h'
  simp only [List.head?_cons, Option.some.injEq] at h'
  rw [← h']
  exact h

theorem takeDigits_stop (rest : List Char) (h : noDigitHead rest) :
    takeDigits rest = ([], rest) := by
  cases rest with
  | nil => rfl
  | cons c r => simp [takeDigits, h c rfl]

theorem takeDigits_digits :
    ∀ (l : List Nat), (∀ d ∈ l, d < 10) → ∀ (rest : List Char),
      noDigitHead rest →
      takeDigits (l.map (fun d => Char.ofNat (d + 48)) ++ rest) =
        (l, rest) := by
  intro l
  induction l with
  | nil => intro _ rest h; exact takeDigits_stop rest h
  | cons d ds ih =>
      intro hlt rest h
      simp only [List.map_cons, List.cons_append, takeDigits,
        (digitChar_facts d (hlt d (List.mem_cons_self _ _))).1]
      simp [ih (fun x hx => hlt x (List.mem_cons_of_mem _ hx)) rest h]

/-- `parseNum` reads a rendered integer back, leaving the rest. -/
theorem parseNum_dump (n : Int) (rest : List Char) (h : noDigitHead rest) :
    parseNum ((pyFmtD n).data ++ rest) = some (n, rest) := by
  obtain ⟨d0, ds, hd⟩ := List.exists_cons_of_ne_nil (dVals_ne_nil n.natAbs)
  have hmap := pyNatDec_eq_map n.natAbs
  rw [hd] at hmap
  have hlt : ∀ d ∈ d0 :: ds, d < 10 := fun d hdm => dVals_lt _ d (hd ▸ hdm)
  have hTD : takeDigits ((d0 :: ds).map (fun d => Char.ofNat (d + 48)) ++ rest)
      = (d0 :: ds, rest) := takeDigits_digits (d0 :: ds) hlt rest h
  have hfacts := digitChar_facts d0 (hlt d0 (List.mem_cons_self _ _))
  have hzero : ¬ (d0 = 0 ∧ ds ≠ []) := by
    intro ⟨hz, hne⟩
    by_cases hk : n.natAbs = 0
    · have h5 : dVals n.natAbs = [0] := by unfold dVals; rw [if_pos hk]
      rw [h5] at hd
      injection hd with h6 h7
      exact hne h7.symm
    · have h5 := dVals_head_ne_zero n.natAbs hk
      rw [hd] at h5
      simp [hz] at h5
  have hval : digitsToNat 10 (d0 :: ds) = n.natAbs := by
    rw [← hd]; exact digitsToNat_dVals n.natAbs
  by_cases hneg : n < 0
  · have hfd : (pyFmtD n).data = '-' :: pyNatDec n.natAbs := by
      unfold pyFmtD
      rw [if_pos hneg]
    rw [hfd, hmap]
    have hTD2 : takeDigits (Char.ofNat (d0 + 48) ::
        (List.map (fun d => Char.ofNat (d + 48)) ds ++ rest)) =
        (d0 :: ds, rest) := by
      simpa using hTD
    simp only [List.map_cons, List.cons_append, parseNum]
    rw [if_true, hTD2]
    show (if d0 = 0 ∧ ds ≠ [] then Option.none
      else some (-(Int.ofNat (digitsToNat 10 (d0 :: ds))), rest)) = some (n, rest)
    rw [if_neg hzero]
    simp only [hval, Option.some.injEq, Prod.mk.injEq, and_true]
    rw [Int.ofNat_eq_natCast]
    omega
  · have hfd : (pyFmtD n).data = pyNatDec n.natAbs := by
      unfold pyFmtD
      rw [if_neg hneg]
    rw [hfd, hmap]
    have hTD2 : takeDigits (Char.ofNat (d0 + 48) ::
        (List.map (fun d => Char.ofNat (d + 48)) ds ++ rest)) =
        (d0 :: ds, rest) := by
      simpa using hTD
    simp only [List.map_cons, List.cons_append, parseNum]
    rw [if_neg (show ¬ (Char.ofNat (d0 + 48) = '-') from hfacts.2.2.2.1), hTD2]
    show (if d0 = 0 ∧ ds ≠ [] then Option.none
      else some (Int.ofNat (digitsToNat 10 (d0 :: ds)), rest)) = some (n, rest)
    rw [if_neg hzero]
    simp only [hval, Option.some.injEq, Prod.mk.injEq, and_true]
    rw [Int.ofNat_eq_natCast]
    omega

/-- One shortcut escape step of the string-body scanner. -/
theorem parseStrBody_esc (e ch : Char) (fuel : Nat) (tail : List Char)
    (hne : ¬ (e = 'u')) (hun : jUnescapeChar e = some ch) :
    parseStrBody (fuel + 1) ('\\' :: e :: tail) =
      match parseStrBody fuel tail with
      | some (s, r) => some (ch :: s, r)
      | Option.none => Option.none := by
  simp only [parseStrBody, if_true]
  rw [if_neg hne, hun, if_neg (show ('\\' : Char) ≠ '"' from by decide)]

theorem hex4_toHex4 (n : Nat) (hlt : n < 65536) :
    hex4 (hexDigitChar (n / 4096 % 16)) (hexDigitChar (n / 256 % 16))
      (hexDigitChar (n / 16 % 16)) (hexDigitChar (n % 16)) = some n := by
  unfold hex4
  rw [hexDigitVal_hexDigitChar _ (Nat.mod_lt _ (by norm_num)),
    hexDigitVal_hexDigitChar _ (Nat.mod_lt _ (by norm_num)),
    hexDigitVal_hexDigitChar _ (Nat.mod_lt _ (by norm_num)),
    hexDigitVal_hexDigitChar _ (Nat.mod_lt _ (by norm_num))]
  show some (n / 4096 % 16 * 4096 + n / 256 % 16 * 256 + n / 16 % 16 * 16 +
    n % 16) = some n
  have h9 : n / 4096 % 16 * 4096 + n / 256 % 16 * 256 + n / 16 % 16 * 16 +
      n % 16 = n := by omega
  rw [h9]

/-- One `\uXXXX` escape step (no surrogate). -/
theorem parseStrBody_u4 (n : Nat) (fuel : Nat) (tail : List Char)
    (hlt : n < 65536)
    (hnosur1 : ¬ (55296 ≤ n ∧ n < 56320))
    (hnosur2 : ¬ (56320 ≤ n ∧ n < 57344)) :
    parseStrBody (fuel + 1) ('\\' :: 'u' :: (toHex4 n ++ tail)) =
      match parseStrBody fuel tail with
      | some (s, r) => some (Char.ofNat n :: s, r)
      | Option.none => Option.none := by
  simp only [toHex4, List.cons_append, List.nil_append, parseStrBody, if_true]
  simp only [hex4_toHex4 n hlt]
  rw [if_neg hnosur1, if_neg hnosur2,
    if_neg (show ('\\' : Char) ≠ '"' from by decide)]

/-- One surrogate-pair escape step. -/
theorem parseStrBody_surr (n m : Nat) (fuel : Nat) (tail : List Char)
    (hn : n < 65536) (hm : m < 65536)
    (hsn : 55296 ≤ n ∧ n < 56320)
    (hsm : 56320 ≤ m ∧ m < 57344) :
    parseStrBody (fuel + 1) ('\\' :: 'u' ::
        (toHex4 n ++ ('\\' :: 'u' :: (toHex4 m ++ tail)))) =
      match parseStrBody fuel tail with
      | some (s, r) =>
          some (Char.ofNat (65536 + (n - 55296) * 1024 + (m - 56320)) :: s, r)
      | Option.none => Option.none := by
  simp only [toHex4, List.cons_append, List.nil_append, parseStrBody, if_true]
  simp only [hex4_toHex4 n hn]
  rw [if_pos hsn]
  simp only [hex4_toHex4 m hm,
    show ((('\\' : Char) = '\\') ∧ (('u' : Char) = 'u')) ↔ True from by simp,
    if_true]
  rw [if_pos hsm, if_neg (show ('\\' : Char) ≠ '"' from by decide)]
  simp only [and_self, if_true]

set_option maxHeartbeats 1000000 in
/-- The string-body scanner decodes an ASCII-escaped body, stopping at the
closing quote, whenever the fuel covers the input length. -/
theorem parseStrBody_escape :
    ∀ (l : List Char) (fuel : Nat) (rest : List Char),
      (jEscape l ++ '"' :: rest).length ≤ fuel →
      parseStrBody fuel (jEscape l ++ '"' :: rest) = some (l, rest) := by
  intro l
  induction l with
  | nil =>
      intro fuel rest hfl
      simp only [jEscape, List.map_nil, List.flatten_nil, List.nil_append,
        List.length_cons] at hfl ⊢
      cases fuel with
      | zero => omega
      | succ f => rfl
  | cons c l ih =>
      intro fuel rest hfl
      have hje : jEscape (c :: l) = jEscapeChar c ++ jEscape l := by
        simp [jEscape]
      rw [hje, List.append_assoc] at hfl ⊢
      by_cases h1 : c = '"'
      · subst h1
        rw [show jEscapeChar '"' = ['\\', '"'] from rfl] at hfl ⊢
        simp only [List.cons_append, List.nil_append, List.length_cons] at hfl ⊢
        cases fuel with
        | zero => omega
        | succ f =>
            rw [parseStrBody_esc '"' '"' f _ (by decide) rfl,
              ih f rest (by simp only [List.length_append, List.length_cons] at hfl ⊢; omega)]
      · by_cases h2 : c = '\\'
        · subst h2
          rw [show jEscapeChar '\\' = ['\\', '\\'] from rfl] at hfl ⊢
          simp only [List.cons_append, List.nil_append, List.length_cons] at hfl ⊢
          cases fuel with
          | zero => omega
          | succ f =>
              rw [parseStrBody_esc '\\' '\\' f _ (by decide) rfl,
                ih f rest (by simp only [List.length_append, List.length_cons] at hfl ⊢; omega)]
        · by_cases h3 : c = '\x08'
          · subst h3
            rw [show jEscapeChar '\x08' = ['\\', 'b'] from rfl] at hfl ⊢
            simp only [List.cons_append, List.nil_append, List.length_cons] at hfl ⊢
            cases fuel with
            | zero => omega
            | succ f =>
                rw [parseStrBody_esc 'b' '\x08' f _ (by decide) rfl,
                  ih f rest (by simp only [List.length_append, List.length_cons] at hfl ⊢; omega)]
          · by_cases h4 : c = '\x0c'
            · subst h4
              rw [show jEscapeChar '\x0c' = ['\\', 'f'] from rfl] at hfl ⊢
              simp only [List.cons_append, List.nil_append, List.length_cons] at hfl ⊢
              cases fuel with
              | zero => omega
              | succ f =>
                  rw [parseStrBody_esc 'f' '\x0c' f _ (by decide) rfl,
                    ih f rest (by simp only [List.length_append, List.length_cons] at hfl ⊢; omega)]
            · by_cases h5 : c = '\n'
              · subst h5
                rw [show jEscapeChar '\n' = ['\\', 'n'] from rfl] at hfl ⊢
                simp only [List.cons_append, List.nil_append, List.length_cons] at hfl ⊢
                cases fuel with
                | zero => omega
                | succ f =>
                    rw [parseStrBody_esc 'n' '\n' f _ (by decide) rfl,
                      ih f rest (by simp only [List.length_append, List.length_cons] at hfl ⊢; omega)]
              · by_cases h6 : c = '\r'
                · subst h6
                  rw [show jEscapeChar '\r' = ['\\', 'r'] from rfl] at hfl ⊢
                  simp only [List.cons_append, List.nil_append, List.length_cons] at hfl ⊢
                  cases fuel with
                  | zero => omega
                  | succ f =>
                      rw [parseStrBody_esc 'r' '\r' f _ (by decide) rfl,
                        ih f rest (by simp only [List.length_append, List.length_cons] at hfl ⊢; omega)]
                · by_cases h7 : c = '\t'
                  · subst h7
                    rw [show jEscapeChar '\t' = ['\\', 't'] from rfl] at hfl ⊢
                    simp only [List.cons_append, List.nil_append, List.length_cons] at hfl ⊢
                    cases fuel with
                    | zero => omega
                    | succ f =>
                        rw [parseStrBody_esc 't' '\t' f _ (by decide) rfl,
                          ih f rest (by simp only [List.length_append, List.length_cons] at hfl ⊢; omega)]
                  · by_cases h8 : c.toNat < 32 ∨ 126 < c.toNat
                    · have hval2 : Nat.isValidChar c.toNat := c.valid
                      by_cases h9 : c.toNat < 65536
                      · have hesc : jEscapeChar c =
                            '\\' :: 'u' :: toHex4 c.toNat := by
                          unfold jEscapeChar
                          rw [if_neg h1, if_neg h2, if_neg h3, if_neg h4,
                            if_neg h5, if_neg h6, if_neg h7, if_pos h8,
                            if_pos h9]
                        rw [hesc] at hfl ⊢
                        simp only [List.cons_append, List.nil_append,
                          List.length_cons, toHex4, List.length_append] at hfl ⊢
                        cases fuel with
                        | zero => omega
                        | succ f =>
                            rw [show ('\\' :: 'u' ::
                                (hexDigitChar (c.toNat / 4096 % 16) ::
                                 hexDigitChar (c.toNat / 256 % 16) ::
                                 hexDigitChar (c.toNat / 16 % 16) ::
                                 hexDigitChar (c.toNat % 16) ::
                                 (jEscape l ++ '"' :: rest)))
                              = '\\' :: 'u' :: (toHex4 c.toNat ++
                                (jEscape l ++ '"' :: rest)) from by
                                simp [toHex4]]
                            rw [parseStrBody_u4 c.toNat f _ h9
                              (by unfold Nat.isValidChar at hval2; omega)
                              (by unfold Nat.isValidChar at hval2; omega),
                              ih f rest (by
                                simp only [List.length_append, List.length_cons] at hfl ⊢
                                omega),
                              ofNat_toNat_char]
                      · have hlt : c.toNat < 1114112 := by
                          unfold Nat.isValidChar at hval2
                          omega
                        have hesc : jEscapeChar c =
                            ('\\' :: 'u' ::
                              toHex4 (55296 + (c.toNat - 65536) / 1024)) ++
                            ('\\' :: 'u' ::
                              toHex4 (56320 + (c.toNat - 65536) % 1024)) := by
                          unfold jEscapeChar
                          rw [if_neg h1, if_neg h2, if_neg h3, if_neg h4,
                            if_neg h5, if_neg h6, if_neg h7, if_pos h8,
                            if_neg h9]
                        rw [hesc] at hfl ⊢
                        simp only [List.cons_append, List.nil_append,
                          List.append_assoc, List.length_cons,
                          List.length_append, toHex4] at hfl ⊢
                        cases fuel with
                        | zero => omega
                        | succ f =>
                            rw [show ('\\' :: 'u' ::
                                (hexDigitChar ((55296 + (c.toNat - 65536) / 1024) / 4096 % 16) ::
                                 hexDigitChar ((55296 + (c.toNat - 65536) / 1024) / 256 % 16) ::
                                 hexDigitChar ((55296 + (c.toNat - 65536) / 1024) / 16 % 16) ::
                                 hexDigitChar ((55296 + (c.toNat - 65536) / 1024) % 16) ::
                                 ('\\' :: 'u' ::
                                  (hexDigitChar ((56320 + (c.toNat - 65536) % 1024) / 4096 % 16) ::
                                   hexDigitChar ((56320 + (c.toNat - 65536) % 1024) / 256 % 16) ::
                                   hexDigitChar ((56320 + (c.toNat - 65536) % 1024) / 16 % 16) ::
                                   hexDigitChar ((56320 + (c.toNat - 65536) % 1024) % 16) ::
                                   (jEscape l ++ '"' :: rest)))))
                              = '\\' :: 'u' ::
                                (toHex4 (55296 + (c.toNat - 65536) / 1024) ++
                                 ('\\' :: 'u' ::
                                  (toHex4 (56320 + (c.toNat - 65536) % 1024) ++
                                   (jEscape l ++ '"' :: rest)))) from by
                                simp [toHex4]]
                            rw [parseStrBody_surr _ _ f _
                              (by omega) (by omega)
                              (by omega) (by omega),
                              ih f rest (by
                                simp only [List.length_append, List.length_cons] at hfl ⊢
                                omega),
                              show 65536 + (55296 + (c.toNat - 65536) / 1024 - 55296)
                                  * 1024 + (56320 + (c.toNat - 65536) % 1024 - 56320)
                                = c.toNat from by omega,
                              ofNat_toNat_char]
                    · have hesc : jEscapeChar c = [c] := by
                        unfold jEscapeChar
                        rw [if_neg h1, if_neg h2, if_neg h3, if_neg h4,
                          if_neg h5, if_neg h6, if_neg h7, if_neg h8]
                      rw [hesc] at hfl ⊢
                      simp only [List.cons_append, List.nil_append,
                        List.length_cons] at hfl ⊢
                      cases fuel with
                      | zero => omega
                      | succ f =>
                          simp only [parseStrBody]
                          rw [if_neg h1, if_neg h2,
                            if_neg (by omega : ¬ (c.toNat < 32)),
                            ih f rest (by
                              simp only [List.length_append, List.length_cons] at hfl ⊢
                              omega)]

theorem digitChar_facts2 (d : Nat) (hd : d < 10) :
    Char.ofNat (d + 48) ≠ ']' ∧ Char.ofNat (d + 48) ≠ '\x7d' := by
  interval_cases d <;> exact (by decide)

theorem skipWs_cons_false (c : Char) (h : jSpace c = false) (l : List Char) :
    skipWs (c :: l) = c :: l := by
  simp [skipWs, h]

/-- The head of a rendered integer: never a JSON structural character. -/
theorem fmtD_shape (n : Int) :
    ∃ c0 t0, (pyFmtD n).data = c0 :: t0 ∧
      c0 ≠ 'n' ∧ c0 ≠ 't' ∧ c0 ≠ 'f' ∧ c0 ≠ '"' ∧ c0 ≠ '[' ∧ c0 ≠ '\x7b' ∧
      jSpace c0 = false ∧ c0 ≠ ']' ∧ c0 ≠ '\x7d' := by
  obtain ⟨d0, ds, hd⟩ := List.exists_cons_of_ne_nil (dVals_ne_nil n.natAbs)
  have hmap := pyNatDec_eq_map n.natAbs
  rw [hd] at hmap
  have hd0 := dVals_lt n.natAbs d0 (by rw [hd]; exact List.mem_cons_self _ _)
  have hfacts := digitChar_facts d0 hd0
  have hfacts2 := digitChar_facts2 d0 hd0
  by_cases hneg : n < 0
  · refine ⟨'-', pyNatDec n.natAbs, ?_, by decide, by decide, by decide,
      by decide, by decide, by decide, by decide, by decide, by decide⟩
    unfold pyFmtD
    rw [if_pos hneg]
  · refine ⟨Char.ofNat (d0 + 48), (ds.map (fun d => Char.ofNat (d + 48))), ?_,
      hfacts.2.2.2.2.2.2.1, hfacts.2.2.2.2.2.2.2.1, hfacts.2.2.2.2.2.2.2.2.1,
      hfacts.2.2.2.2.2.2.2.2.2.1, hfacts.2.2.2.2.2.2.2.2.2.2.1,
      hfacts.2.2.2.2.2.2.2.2.2.2.2.1, hfacts.2.2.2.2.2.1,
      hfacts2.1, hfacts2.2⟩
    unfold pyFmtD
    rw [if_neg hneg]
    show pyNatDec n.natAbs = _
    rw [hmap, List.map_cons]

/-- The head of a dumped value: never whitespace or a closing bracket. -/
theorem dumpV_shape (w : PyVal) :
    ∃ c0 t0, dumpV w = c0 :: t0 ∧ jSpace c0 = false ∧
      c0 ≠ ']' ∧ c0 ≠ '\x7d' := by
  cases w with
  | none => exact ⟨'n', ['u', 'l', 'l'], by simp [dumpV], by decide, by decide, by decide⟩
  | int n =>
      obtain ⟨c0, t0, hcs, _, _, _, _, _, _, hsp, hrb, hbr⟩ := fmtD_shape n
      exact ⟨c0, t0, by simp [dumpV, hcs], hsp, hrb, hbr⟩
  | str s => exact ⟨'"', jEscape s.data ++ ['"'], by simp [dumpV], by decide, by decide, by decide⟩
  | list xs => exact ⟨'[', dumpElems xs ++ [']'], by simp [dumpV], by decide, by decide, by decide⟩
  | dict ps => exact ⟨'\x7b', dumpMembers ps ++ ['\x7d'], by simp [dumpV], by decide, by decide, by decide⟩

theorem dumpElems_head (y : PyVal) (ys : List PyVal) :
    ∃ c1 t1, dumpElems (y :: ys) = c1 :: t1 ∧ jSpace c1 = false ∧
      c1 ≠ ']' ∧ c1 ≠ '\x7d' := by
  obtain ⟨c1, t1, hy, hsp, hrb, hbr⟩ := dumpV_shape y
  cases ys with
  | nil => exact ⟨c1, t1, by simp [dumpElems, hy], hsp, hrb, hbr⟩
  | cons z zs =>
      exact ⟨c1, t1 ++ ',' :: dumpElems (z :: zs),
        by simp [dumpElems, hy], hsp, hrb, hbr⟩

theorem dumpMembers_head (p : String × PyVal) (ps : List (String × PyVal)) :
    ∃ t1, dumpMembers (p :: ps) = '"' :: t1 := by
  obtain ⟨k, v⟩ := p
  cases ps with
  | nil => exact ⟨jEscape k.data ++ '"' :: ':' :: dumpV v, by simp [dumpMembers]⟩
  | cons q qs =>
      exact ⟨jEscape k.data ++ '"' :: ':' :: (dumpV v ++ ',' :: dumpMembers (q :: qs)),
        by simp [dumpMembers]⟩

theorem pyWFL_mem : ∀ (xs : List PyVal), pyWFL xs = true →
    ∀ x ∈ xs, pyWF x = true := by
  intro xs
  induction xs with
  | nil => intro _ x hx; cases hx
  | cons y ys ih =>
      intro h x hx
      simp only [pyWFL, Bool.and_eq_true] at h
      rcases List.mem_cons.mp hx with h1 | h2
      · rw [h1]; exact h.1
      · exact ih h.2 x h2

theorem pyWFD_vals : ∀ (ps : List (String × PyVal)), pyWFD ps = true →
    ∀ p ∈ ps, pyWF p.2 = true := by
  intro ps
  induction ps with
  | nil => intro _ p hp; cases hp
  | cons q qs ih =>
      obtain ⟨k, v⟩ := q
      intro h p hp
      simp only [pyWFD, Bool.and_eq_true] at h
      rcases List.mem_cons.mp hp with h1 | h2
      · rw [h1]; exact h.1
      · exact ih h.2 p h2

set_option maxHeartbeats 1000000 in
/-- Elements roundtrip, given the roundtrip for each element. -/
theorem parseElems_dump_of :
    ∀ (xs : List PyVal), xs ≠ [] →
      (∀ x ∈ xs, ∀ (fuel : Nat) (rest : List Char), noDigitHead rest →
        (dumpV x).length ≤ fuel →
        parseVal fuel (dumpV x ++ rest) = some (x, rest)) →
      ∀ (fuel : Nat) (rest : List Char),
        (dumpElems xs).length + 1 ≤ fuel →
        parseElems fuel (dumpElems xs ++ ']' :: rest) = some (xs, rest) := by
  intro xs
  induction xs with
  | nil => intro h; exact absurd rfl h
  | cons x xs' ih =>
      intro _ hIH fuel rest hfl
      cases fuel with
      | zero => exact absurd hfl (by omega)
      | succ f =>
          cases xs' with
          | nil =>
              have hde : dumpElems [x] = dumpV x := by simp [dumpElems]
              rw [hde] at hfl ⊢
              simp only [parseElems]
              rw [hIH x (by simp) f (']' :: rest)
                (noDigitHead_cons _ _ (by decide)) (by omega)]
              rfl
          | cons y xs'' =>
              have hde : dumpElems (x :: y :: xs'') =
                  dumpV x ++ ',' :: dumpElems (y :: xs'') := by
                simp [dumpElems]
              rw [hde] at hfl ⊢
              rw [List.append_assoc, List.cons_append]
              simp only [parseElems]
              rw [hIH x (by simp) f
                (',' :: (dumpElems (y :: xs'') ++ ']' :: rest))
                (noDigitHead_cons _ _ (by decide))
                (by simp only [List.length_append, List.length_cons] at hfl; omega)]
              show (match parseElems f (skipWs (dumpElems (y :: xs'') ++ ']' :: rest)) with
                  | some (vs, r4) => some (x :: vs, r4)
                  | Option.none => Option.none) = some (x :: y :: xs'', rest)
              obtain ⟨c1, t1, hD, hsp, _, _⟩ := dumpElems_head y xs''
              rw [show skipWs (dumpElems (y :: xs'') ++ ']' :: rest) =
                  dumpElems (y :: xs'') ++ ']' :: rest from by
                rw [hD, List.cons_append]
                exact skipWs_cons_false c1 hsp _]
              rw [ih (by simp) (fun z hz => hIH z (List.mem_cons_of_mem _ hz))
                f rest
                (by simp only [List.length_append, List.length_cons] at hfl ⊢; omega)]

set_option maxHeartbeats 1000000 in
/-- Members roundtrip, given the roundtrip for each value. -/
theorem parseMembers_dump_of :
    ∀ (ps : List (String × PyVal)), ps ≠ [] →
      (∀ p ∈ ps, ∀ (fuel : Nat) (rest : List Char), noDigitHead rest →
        (dumpV p.2).length ≤ fuel →
        parseVal fuel (dumpV p.2 ++ rest) = some (p.2, rest)) →
      ∀ (fuel : Nat) (rest : List Char),
        (dumpMembers ps).length + 1 ≤ fuel →
        parseMembers fuel (dumpMembers ps ++ '\x7d' :: rest) = some (ps, rest) := by
  intro ps
  induction ps with
  | nil => intro h; exact absurd rfl h
  | cons kv ps' ih =>
      obtain ⟨k, v⟩ := kv
      intro _ hIH fuel rest hfl
      cases fuel with
      | zero => exact absurd hfl (by omega)
      | succ f =>
          cases ps' with
          | nil =>
              have hdm : dumpMembers [(k, v)] =
                  '"' :: (jEscape k.data ++ '"' :: ':' :: dumpV v) := by
                simp [dumpMembers]
              rw [hdm] at hfl ⊢
              simp only [List.cons_append, List.append_assoc] at hfl ⊢
              simp only [parseMembers, if_pos rfl, if_true]
              rw [parseStrBody_escape k.data _
                (':' :: (dumpV v ++ '\x7d' :: rest)) (Nat.le_succ _)]
              show (match parseVal f (skipWs (dumpV v ++ '\x7d' :: rest)) with
                  | some (v2, r3) =>
                      (match skipWs r3 with
                       | [] => (Option.none : Option (List (String × PyVal) × List Char))
                       | c3 :: r4 =>
                          if c3 = ',' then
                            match parseMembers f (skipWs r4) with
                            | some (ms, r5) => some ((k, v2) :: ms, r5)
                            | Option.none => Option.none
                          else if c3 = '\x7d' then some ([(k, v2)], r4)
                          else Option.none)
                  | Option.none => Option.none) = some ([(k, v)], rest)
              obtain ⟨c1, t1, hv1, hsp1, _, _⟩ := dumpV_shape v
              rw [show skipWs (dumpV v ++ '\x7d' :: rest) =
                  dumpV v ++ '\x7d' :: rest from by
                rw [hv1, List.cons_append]
                exact skipWs_cons_false c1 hsp1 _]
              rw [hIH (k, v) (by simp) f ('\x7d' :: rest)
                (noDigitHead_cons _ _ (by decide))
                (by show (dumpV v).length ≤ f
                    simp only [List.length_append, List.length_cons] at hfl
                    omega)]
              rfl
          | cons q qs =>
              have hdm : dumpMembers ((k, v) :: q :: qs) =
                  ('"' :: (jEscape k.data ++ '"' :: ':' :: dumpV v)) ++
                    ',' :: dumpMembers (q :: qs) := by
                simp [dumpMembers]
              rw [hdm] at hfl ⊢
              simp only [List.cons_append, List.append_assoc] at hfl ⊢
              simp only [parseMembers, if_pos rfl, if_true]
              rw [parseStrBody_escape k.data _
                (':' :: (dumpV v ++ (',' :: (dumpMembers (q :: qs) ++ '\x7d' :: rest))))
                (Nat.le_succ _)]
              show (match parseVal f (skipWs (dumpV v ++
                      (',' :: (dumpMembers (q :: qs) ++ '\x7d' :: rest)))) with
                  | some (v2, r3) =>
                      (match skipWs r3 with
                       | [] => (Option.none : Option (List (String × PyVal) × List Char))
                       | c3 :: r4 =>
                          if c3 = ',' then
                            match parseMembers f (skipWs r4) with
                            | some (ms, r5) => some ((k, v2) :: ms, r5)
                            | Option.none => Option.none
                          else if c3 = '\x7d' then some ([(k, v2)], r4)
                          else Option.none)
                  | Option.none => Option.none) = some ((k, v) :: q :: qs, rest)
              obtain ⟨c1, t1, hv1, hsp1, _, _⟩ := dumpV_shape v
              rw [show skipWs (dumpV v ++
                  (',' :: (dumpMembers (q :: qs) ++ '\x7d' :: rest))) =
                  dumpV v ++ (',' :: (dumpMembers (q :: qs) ++ '\x7d' :: rest)) from by
                rw [hv1, List.cons_append]
                exact skipWs_cons_false c1 hsp1 _]
              rw [hIH (k, v) (by simp) f
                (',' :: (dumpMembers (q :: qs) ++ '\x7d' :: rest))
                (noDigitHead_cons _ _ (by decide))
                (by show (dumpV v).length ≤ f
                    simp only [List.length_append, List.length_cons] at hfl
                    omega)]
              show (match parseMembers f (skipWs (dumpMembers (q :: qs) ++ '\x7d' :: rest)) with
                  | some (ms, r5) => some ((k, v) :: ms, r5)
                  | Option.none => Option.none) = some ((k, v) :: q :: qs, rest)
              obtain ⟨t2, hD⟩ := dumpMembers_head q qs
              rw [show skipWs (dumpMembers (q :: qs) ++ '\x7d' :: rest) =
                  dumpMembers (q :: qs) ++ '\x7d' :: rest from by
                rw [hD, List.cons_append]
                exact skipWs_cons_false '"' (by decide) _]
              rw [ih (by simp) (fun p hp => hIH p (List.mem_cons_of_mem _ hp))
                f rest
                (by simp only [List.length_append, List.length_cons] at hfl ⊢; omega)]

set_option maxHeartbeats 1000000 in
/-- The value roundtrip, by strong induction on the value size. -/
theorem parseVal_dump_aux :
    ∀ (N : Nat) (w : PyVal), sizeOf w ≤ N → pyWF w = true →
      ∀ (fuel : Nat) (rest : List Char), noDigitHead rest →
        (dumpV w).length ≤ fuel →
        parseVal fuel (dumpV w ++ rest) = some (w, rest) := by
  intro N
  induction N with
  | zero =>
      intro w hsz
      exfalso
      cases w <;> simp at hsz
  | succ N ihN =>
      intro w hsz hwf fuel rest hnd hfl
      cases w with
      | none =>
          have hdv : dumpV .none = ['n', 'u', 'l', 'l'] := by simp [dumpV]
          rw [hdv] at hfl ⊢
          cases fuel with
          | zero => exact absurd hfl (by simp)
          | succ f => rfl
      | int n =>
          obtain ⟨c0, t0, hcs, hn1, ht1, hf1, hq1, hlb1, hbr1, hsp1, _, _⟩ :=
            fmtD_shape n
          have hdv : dumpV (.int n) = (pyFmtD n).data := by simp [dumpV]
          rw [hdv] at hfl ⊢
          cases fuel with
          | zero => rw [hcs] at hfl; exact absurd hfl (by simp)
          | succ f =>
              rw [hcs, List.cons_append]
              simp only [parseVal]
              rw [if_neg hn1, if_neg ht1, if_neg hf1, if_neg hq1,
                if_neg hlb1, if_neg hbr1]
              rw [show c0 :: (t0 ++ rest) = (pyFmtD n).data ++ rest from by
                rw [hcs, List.cons_append]]
              rw [parseNum_dump n rest hnd]
      | str s =>
          have hdv : dumpV (.str s) = '"' :: (jEscape s.data ++ ['"']) := by
            simp [dumpV]
          rw [hdv] at hfl ⊢
          cases fuel with
          | zero => exact absurd hfl (by simp)
          | succ f =>
              rw [show ('"' :: (jEscape s.data ++ ['"'])) ++ rest =
                '"' :: (jEscape s.data ++ '"' :: rest) from by simp]
              simp only [parseVal]
              rw [if_neg (by decide), if_neg (by decide), if_neg (by decide),
                if_true]
              rw [parseStrBody_escape s.data _ rest (Nat.le_succ _)]
      | list xs =>
          cases xs with
          | nil =>
              have hdv : dumpV (.list []) = ['[', ']'] := by
                simp [dumpV, dumpElems]
              rw [hdv] at hfl ⊢
              cases fuel with
              | zero => exact absurd hfl (by simp)
              | succ f => rfl
          | cons x xs' =>
              have hdv : dumpV (.list (x :: xs')) =
                  '[' :: (dumpElems (x :: xs') ++ [']']) := by simp [dumpV]
              rw [hdv] at hfl ⊢
              cases fuel with
              | zero => exact absurd hfl (by simp)
              | succ f =>
                  rw [show ('[' :: (dumpElems (x :: xs') ++ [']'])) ++ rest =
                    '[' :: (dumpElems (x :: xs') ++ ']' :: rest) from by simp]
                  simp only [parseVal]
                  rw [if_neg (by decide), if_neg (by decide), if_neg (by decide),
                    if_neg (by decide), if_true]
                  obtain ⟨c1, t1, hD, hsp, hrb, _⟩ := dumpElems_head x xs'
                  rw [hD, List.cons_append, skipWs_cons_false c1 hsp]
                  show (if c1 = ']' then some (PyVal.list [], t1 ++ ']' :: rest)
                    else match parseElems f (c1 :: (t1 ++ ']' :: rest)) with
                      | some (vs, r) => some (PyVal.list vs, r)
                      | Option.none => Option.none) = some (PyVal.list (x :: xs'), rest)
                  rw [if_neg hrb]
                  rw [show c1 :: (t1 ++ ']' :: rest) =
                    dumpElems (x :: xs') ++ ']' :: rest from by
                    rw [hD, List.cons_append]]
                  have hwfl : pyWFL (x :: xs') = true := by
                    simpa [pyWF] using hwf
                  rw [parseElems_dump_of (x :: xs') (by simp)
                    (fun y hy fuel2 rest2 hnd2 hfl2 => by
                      have hsy := List.sizeOf_lt_of_mem hy
                      have hszl : sizeOf (PyVal.list (x :: xs')) =
                          1 + sizeOf (x :: xs') := by simp
                      exact ihN y (by omega)
                        (pyWFL_mem (x :: xs') hwfl y hy) fuel2 rest2 hnd2 hfl2)
                    f rest
                    (by simp only [List.length_cons, List.length_append] at hfl ⊢
                        omega)]
      | dict ps =>
          cases ps with
          | nil =>
              have hdv : dumpV (.dict []) = ['\x7b', '\x7d'] := by
                simp [dumpV, dumpMembers]
              rw [hdv] at hfl ⊢
              cases fuel with
              | zero => exact absurd hfl (by simp)
              | succ f => rfl
          | cons p ps' =>
              have hdv : dumpV (.dict (p :: ps')) =
                  '\x7b' :: (dumpMembers (p :: ps') ++ ['\x7d']) := by simp [dumpV]
              rw [hdv] at hfl ⊢
              cases fuel with
              | zero => exact absurd hfl (by simp)
              | succ f =>
                  rw [show ('\x7b' :: (dumpMembers (p :: ps') ++ ['\x7d'])) ++ rest =
                    '\x7b' :: (dumpMembers (p :: ps') ++ '\x7d' :: rest) from by simp]
                  simp only [parseVal]
                  rw [if_neg (by decide), if_neg (by decide), if_neg (by decide),
                    if_neg (by decide), if_neg (by decide), if_true]
                  obtain ⟨t1, hD⟩ := dumpMembers_head p ps'
                  rw [hD, List.cons_append, skipWs_cons_false '"' (by decide)]
                  show (match parseMembers f (('"' : Char) :: (t1 ++ '\x7d' :: rest)) with
                      | some (ms, r) => some (PyVal.dict (dictOf ms), r)
                      | Option.none => Option.none) = some (PyVal.dict (p :: ps'), rest)
                  rw [show ('"' : Char) :: (t1 ++ '\x7d' :: rest) =
                    dumpMembers (p :: ps') ++ '\x7d' :: rest from by
                    rw [hD, List.cons_append]]
                  have hwfd : (((p :: ps').map Prod.fst).Nodup) ∧
                      pyWFD (p :: ps') = true := by
                    simpa [pyWF, Bool.and_eq_true, decide_eq_true_eq] using hwf
                  rw [parseMembers_dump_of (p :: ps') (by simp)
                    (fun q hq fuel2 rest2 hnd2 hfl2 => by
                      have hsq := List.sizeOf_lt_of_mem hq
                      have hszd : sizeOf (PyVal.dict (p :: ps')) =
                          1 + sizeOf (p :: ps') := by simp
                      have hsq2 : sizeOf q = 1 + sizeOf q.1 + sizeOf q.2 := by
                        obtain ⟨qk, qv⟩ := q
                        simp
                      exact ihN q.2 (by omega)
                        (pyWFD_vals (p :: ps') hwfd.2 q hq) fuel2 rest2 hnd2 hfl2)
                    f rest
                    (by simp only [List.length_cons, List.length_append] at hfl ⊢
                        omega)]
                  have hdof : dictOf (p :: ps') = p :: ps' :=
                    dictOf_nodup (p :: ps') hwfd.1
                  show some (PyVal.dict (dictOf (p :: ps')), rest) =
                    some (PyVal.dict (p :: ps'), rest)
                  rw [hdof]

/-- The value roundtrip. -/
theorem parseVal_dump (w : PyVal) (hwf : pyWF w = true)
    (fuel : Nat) (rest : List Char) (hnd : noDigitHead rest)
    (hfl : (dumpV w).length ≤ fuel) :
    parseVal fuel (dumpV w ++ rest) = some (w, rest) :=
  parseVal_dump_aux (sizeOf w) w le_rfl hwf fuel rest hnd hfl

/-- `json.loads` inverts `json.dumps` on well-formed values. -/
theorem pyJsonLoads_dumps (w : PyVal) (hwf : pyWF w = true) :
    pyJsonLoads (pyJsonDumps w) = some w := by
  unfold pyJsonLoads pyJsonDumps
  obtain ⟨c0, t0, hdv, hsp, _, _⟩ := dumpV_shape w
  have hsk : skipWs (dumpV w) = dumpV w := by
    rw [hdv]; exact skipWs_cons_false c0 hsp _
  rw [show (String.mk (dumpV w)).data = dumpV w from rfl, hsk]
  have hp := parseVal_dump w hwf (2 * (dumpV w).length + 2) []
    noDigitHead_nil (by omega)
  rw [List.append_nil] at hp
  rw [hp]
  rfl

theorem aset_keys_mem {K V : Type} [DecidableEq K] :
    ∀ (d : List (K × V)) (k : K) (v : V) (k' : K),
      k' ∈ (aset d k v).map Prod.fst → k' = k ∨ k' ∈ d.map Prod.fst := by
  intro d k v
  induction d with
  | nil => intro k' h; simp [aset] at h; exact Or.inl h
  | cons p rest ih =>
      obtain ⟨k2, v2⟩ := p
      intro k' h
      simp only [aset] at h
      by_cases hk : k2 = k
      · rw [if_pos hk] at h
        simp only [List.map_cons, List.mem_cons] at h ⊢
        rcases h with h | h
        · exact Or.inr (Or.inl h)
        · exact Or.inr (Or.inr h)
      · rw [if_neg hk] at h
        simp only [List.map_cons, List.mem_cons] at h ⊢
        rcases h with h | h
        · exact Or.inr (Or.inl h)
        · rcases ih k' h with h2 | h2
          · exact Or.inl h2
          · exact Or.inr (Or.inr h2)

theorem aset_keys_nodup {K V : Type} [DecidableEq K] :
    ∀ (d : List (K × V)) (k : K) (v : V),
      (d.map Prod.fst).Nodup → ((aset d k v).map Prod.fst).Nodup := by
  intro d k v
  induction d with
  | nil => intro _; simp [aset]
  | cons p rest ih =>
      obtain ⟨k2, v2⟩ := p
      intro hn
      simp only [List.map_cons, List.nodup_cons] at hn
      simp only [aset]
      by_cases hk : k2 = k
      · rw [if_pos hk]
        simp only [List.map_cons, List.nodup_cons]
        exact ⟨hn.1, hn.2⟩
      · rw [if_neg hk]
        simp only [List.map_cons, List.nodup_cons]
        refine ⟨?_, ih hn.2⟩
        intro hmem
        rcases aset_keys_mem rest k v k2 hmem with h | h
        · exact hk h
        · exact hn.1 h

theorem pyWFD_aset :
    ∀ (d : List (String × PyVal)) (k : String) (v : PyVal),
      pyWFD d = true → pyWF v = true → pyWFD (aset d k v) = true := by
  intro d k v
  induction d with
  | nil =>
      intro _ hv
      show pyWFD [(k, v)] = true
      simp [pyWFD, hv]
  | cons p rest ih =>
      obtain ⟨k2, v2⟩ := p
      intro hd hv
      simp only [pyWFD, Bool.and_eq_true] at hd
      simp only [aset]
      by_cases hk : k2 = k
      · rw [if_pos hk]
        simp only [pyWFD, Bool.and_eq_true]
        exact ⟨hv, hd.2⟩
      · rw [if_neg hk]
        simp only [pyWFD, Bool.and_eq_true]
        exact ⟨hd.1, ih hd.2 hv⟩

theorem dictOf_aux_nodup :
    ∀ (ps acc : List (String × PyVal)), ((acc.map Prod.fst).Nodup) →
      (((ps.foldl (fun d p => aset d p.1 p.2) acc).map Prod.fst).Nodup) := by
  intro ps
  induction ps with
  | nil => intro acc h; simpa using h
  | cons p rest ih =>
      intro acc h
      simp only [List.foldl_cons]
      exact ih _ (aset_keys_nodup acc p.1 p.2 h)

theorem dictOf_keys_nodup (ps : List (String × PyVal)) :
    ((dictOf ps).map Prod.fst).Nodup :=
  dictOf_aux_nodup ps [] (by simp)

theorem dictOf_aux_wfd :
    ∀ (ps acc : List (String × PyVal)), pyWFD acc = true →
      (∀ p ∈ ps, pyWF p.2 = true) →
      pyWFD (ps.foldl (fun d p => aset d p.1 p.2) acc) = true := by
  intro ps
  induction ps with
  | nil => intro acc h _; simpa using h
  | cons p rest ih =>
      intro acc hacc hps
      simp only [List.foldl_cons]
      exact ih _ (pyWFD_aset acc p.1 p.2 hacc (hps p (List.mem_cons_self _ _)))
        (fun q hq => hps q (List.mem_cons_of_mem _ hq))

theorem pyWFD_dictOf (ps : List (String × PyVal)) (h : pyWFD ps = true) :
    pyWFD (dictOf ps) = true :=
  dictOf_aux_wfd ps [] rfl (pyWFD_vals ps h)

set_option maxHeartbeats 1000000 in
/-- Everything the scanner produces is well-formed (dicts are built by
repeated assignment, so their keys are distinct). -/
theorem parse_wf : ∀ (fuel : Nat),
    (∀ cs v r, parseVal fuel cs = some (v, r) → pyWF v = true) ∧
    (∀ cs vs r, parseElems fuel cs = some (vs, r) → pyWFL vs = true) ∧
    (∀ cs ms r, parseMembers fuel cs = some (ms, r) → pyWFD ms = true) := by
  intro fuel
  induction fuel with
  | zero =>
      refine ⟨?_, ?_, ?_⟩ <;> (intro cs v r h; exact Option.noConfusion h)
  | succ f ih =>
      obtain ⟨ihV, ihE, ihM⟩ := ih
      refine ⟨?_, ?_, ?_⟩
      · intro cs v r h
        cases cs with
        | nil => exact Option.noConfusion h
        | cons c rest =>
            simp only [parseVal] at h
            split at h
            · split at h
              · injection h with h1
                injection h1 with hv hr
                subst hv
                rfl
              · exact Option.noConfusion h
            · split at h
              · split at h
                · injection h with h1
                  injection h1 with hv hr
                  subst hv
                  rfl
                · exact Option.noConfusion h
              · split at h
                · split at h
                  · injection h with h1
                    injection h1 with hv hr
                    subst hv
                    rfl
                  · exact Option.noConfusion h
                · split at h
                  · split at h
                    · injection h with h1
                      injection h1 with hv hr
                      subst hv
                      rfl
                    · exact Option.noConfusion h
                  · split at h
                    · split at h
                      · exact Option.noConfusion h
                      · split at h
                        · injection h with h1
                          injection h1 with hv hr
                          subst hv
                          rfl
                        · split at h
                          · rename_i vs r4 heq
                            injection h with h1
                            injection h1 with hv hr
                            subst hv
                            show pyWF (.list vs) = true
                            simp only [pyWF]
                            exact ihE _ _ _ heq
                          · exact Option.noConfusion h
                    · split at h
                      · split at h
                        · exact Option.noConfusion h
                        · split at h
                          · injection h with h1
                            injection h1 with hv hr
                            subst hv
                            rfl
                          · split at h
                            · rename_i ms r4 heq
                              injection h with h1
                              injection h1 with hv hr
                              subst hv
                              show pyWF (.dict (dictOf ms)) = true
                              simp only [pyWF, Bool.and_eq_true,
                                decide_eq_true_eq]
                              exact ⟨dictOf_keys_nodup ms,
                                pyWFD_dictOf ms (ihM _ _ _ heq)⟩
                            · exact Option.noConfusion h
                      · split at h
                        · injection h with h1
                          injection h1 with hv hr
                          subst hv
                          rfl
                        · exact Option.noConfusion h
      · intro cs vs r h
        simp only [parseElems] at h
        split at h
        · rename_i v r1 heq1
          split at h
          · exact Option.noConfusion h
          · split at h
            · split at h
              · rename_i vs2 r4 heq2
                injection h with h1
                injection h1 with hv hr
                subst hv
                show pyWFL (v :: vs2) = true
                simp only [pyWFL, Bool.and_eq_true]
                exact ⟨ihV _ _ _ heq1, ihE _ _ _ heq2⟩
              · exact Option.noConfusion h
            · split at h
              · injection h with h1
                injection h1 with hv hr
                subst hv
                show pyWFL [v] = true
                simp only [pyWFL, Bool.and_eq_true]
                exact ⟨ihV _ _ _ heq1, trivial⟩
              · exact Option.noConfusion h
        · exact Option.noConfusion h
      · intro cs ms r h
        cases cs with
        | nil => exact Option.noConfusion h
        | cons c rest =>
            simp only [parseMembers] at h
            split at h
            · split at h
              · rename_i kcs r1 heq0
                split at h
                · exact Option.noConfusion h
                · split at h
                  · split at h
                    · rename_i v r3 heq1
                      split at h
                      · exact Option.noConfusion h
                      · split at h
                        · split at h
                          · rename_i ms2 r5 heq2
                            injection h with h1
                            injection h1 with hv hr
                            subst hv
                            show pyWFD ((⟨kcs⟩, v) :: ms2) = true
                            simp only [pyWFD, Bool.and_eq_true]
                            exact ⟨ihV _ _ _ heq1, ihM _ _ _ heq2⟩
                          · exact Option.noConfusion h
                        · split at h
                          · injection h with h1
                            injection h1 with hv hr
                            subst hv
                            show pyWFD [(⟨kcs⟩, v)] = true
                            simp only [pyWFD, Bool.and_eq_true]
                            exact ⟨ihV _ _ _ heq1, trivial⟩
                          · exact Option.noConfusion h
                    · exact Option.noConfusion h
                  · exact Option.noConfusion h
              · exact Option.noConfusion h
            · exact Option.noConfusion h

/-- What `json.loads` returns is well-formed. -/
theorem pyJsonLoads_wf (s : String) (w : PyVal)
    (h : pyJsonLoads s = some w) : pyWF w = true := by
  unfold pyJsonLoads at h
  split at h
  · rename_i v r heq
    split at h
    · injection h with h1
      subst h1
      exact (parse_wf _).1 _ _ _ heq
    · exact Option.noConfusion h
  · exact Option.noConfusion h


/-! ## Claim C2 — the main statement -/

/-- `JsonType.norm` is stable on the canonical dump of a well-formed
value. -/
theorem jsonNorm_stable (w : PyVal) (hw : pyWF w = true) :
    jsonNorm (.str (pyJsonDumps w)) = .ok (.str (pyJsonDumps w), []) := by
  simp only [jsonNorm, pyJsonLoads_dumps w hw]

set_option maxHeartbeats 4000000 in
/-- C2: for every scalar type `T` registered in the default `TypeLib`
(`str`, `int`, `bool`, `json`, `guid`, `time`, `syn:tag` and their
registered subtypes) and every well-formed input `v` that `T`'s norm
accepts, re-normalizing the repr of the normalized value returns the
normalized value unchanged. -/
theorem c2_scalar_norm_repr_roundtrip
    (T : String)
    (hT : T ∈ ["str", "int", "bool", "json", "guid", "time", "syn:tag",
      "syn:prop", "syn:type", "syn:glob", "int:min", "int:max", "str:lwr",
      "str:txt", "str:hex"])
    (fuel : Nat) (rnd : String) (hrnd : isguid rnd = true)
    (v n rv : PyVal) (subs : Subs) (hv : pyWF v = true)
    (hnorm : getTypeNorm (fuel + 3) dflt rnd T v Option.none = .ok (n, subs))
    (hrepr : getTypeRepr dflt T n = .ok rv) :
    ∃ subs2, getTypeNorm (fuel + 3) dflt rnd T rv Option.none = .ok (n, subs2) := by
  simp only [List.mem_cons, List.not_mem_nil, or_false] at hT
  rcases hT with rfl | rfl | rfl | rfl | rfl | rfl | rfl | rfl | rfl | rfl | rfl | rfl | rfl | rfl | rfl
  · have ht : reqDataType dflt "str" = .ok ⟨"str", [("ctor", .str "synapse.lib.types.StrType"), ("doc", .str "The base string type")],
        .strB ⟨.int 0, Option.none, Option.none, Option.none, Option.none, Option.none⟩⟩ := rfl
    refine ⟨[], ?_⟩
    have hstep : ∀ u, getTypeNorm (fuel + 3) dflt rnd "str" u Option.none =
        strNorm [("ctor", .str "synapse.lib.types.StrType"), ("doc", .str "The base string type")] ⟨.int 0, Option.none, Option.none, Option.none, Option.none, Option.none⟩ u := fun u => by
      simp only [getTypeNorm]
      rw [ht]
      simp only [normT]
    rw [hstep] at hnorm ⊢
    have hrv : rv = n := by
      unfold getTypeRepr at hrepr
      rw [ht] at hrepr
      simp only [reprT] at hrepr
      injection hrepr with h2
      exact h2.symm
    rw [hrv]
    exact strNorm_stable [("ctor", .str "synapse.lib.types.StrType"), ("doc", .str "The base string type")] (.int 0) Option.none Option.none v n subs hnorm
  · have ht : reqDataType dflt "int" = .ok ⟨"int", [("ctor", .str "synapse.lib.types.IntType"), ("doc", .str "The base integer type")],
        .intB ⟨.str "%d", Option.none, Option.none, MinMax.none⟩⟩ := rfl
    refine ⟨[], ?_⟩
    have hstep : ∀ u, getTypeNorm (fuel + 3) dflt rnd "int" u Option.none =
        intNorm ⟨.str "%d", Option.none, Option.none, MinMax.none⟩ u Option.none := fun u => by
      simp only [getTypeNorm]
      rw [ht]
      simp only [normT]
    rw [hstep] at hnorm ⊢
    unfold getTypeRepr at hrepr
    rw [ht] at hrepr
    simp only [reprT] at hrepr
    cases n with
    | int m =>
        have hrv : rv = .str (pyFmtD m) := by
          have h2 : (Except.ok (PyVal.str (pyFmtD m)) : Except Err PyVal) =
              .ok rv := hrepr
          injection h2 with h3
          exact h3.symm
        rw [hrv]
        rw [intNorm_fmtD MinMax.none m]
    | none => exact Except.noConfusion (hrepr : Except.error Err.typeError = Except.ok rv)
    | str s2 => exact Except.noConfusion (hrepr : Except.error Err.typeError = Except.ok rv)
    | list xs => exact Except.noConfusion (hrepr : Except.error Err.typeError = Except.ok rv)
    | dict ps => exact Except.noConfusion (hrepr : Except.error Err.typeError = Except.ok rv)
  · have ht : reqDataType dflt "bool" = .ok ⟨"bool", [("ctor", .str "synapse.lib.types.BoolType"), ("doc", .str "A boolean type")], .boolB⟩ := rfl
    refine ⟨[], ?_⟩
    have hstep : ∀ u, getTypeNorm (fuel + 3) dflt rnd "bool" u Option.none =
        boolNorm u := fun u => by
      simp only [getTypeNorm]
      rw [ht]
      simp only [normT]
    rw [hstep] at hnorm ⊢
    unfold getTypeRepr at hrepr
    rw [ht] at hrepr
    simp only [reprT] at hrepr
    obtain ⟨hn01, hsubs⟩ := boolNorm_shape v n subs hnorm
    rcases hn01 with h1 | h1
    · subst h1
      have hrv : rv = .str "True" := by
        have h2 : (Except.ok (PyVal.str "True") : Except Err PyVal) = .ok rv := hrepr
        injection h2 with h3
        exact h3.symm
      rw [hrv]
      rfl
    · subst h1
      have hrv : rv = .str "False" := by
        have h2 : (Except.ok (PyVal.str "False") : Except Err PyVal) = .ok rv := hrepr
        injection h2 with h3
        exact h3.symm
      rw [hrv]
      rfl
  · have ht : reqDataType dflt "json" = .ok ⟨"json", [("ctor", .str "synapse.lib.types.JsonType"), ("doc", .str "A json type (stored as str)")], .jsonB⟩ := rfl
    refine ⟨[], ?_⟩
    have hstep : ∀ u, getTypeNorm (fuel + 3) dflt rnd "json" u Option.none =
        jsonNorm u := fun u => by
      simp only [getTypeNorm]
      rw [ht]
      simp only [normT]
    rw [hstep] at hnorm ⊢
    have hrv : rv = n := by
      unfold getTypeRepr at hrepr
      rw [ht] at hrepr
      simp only [reprT] at hrepr
      injection hrepr with h2
      exact h2.symm
    rw [hrv]
    cases v with
    | str sv =>
        cases hl : pyJsonLoads sv with
        | none =>
            simp only [jsonNorm, hl] at hnorm
            exact Except.noConfusion hnorm
        | some w =>
            have hw := pyJsonLoads_wf sv w hl
            simp only [jsonNorm, hl] at hnorm
            rw [Except.ok.injEq, Prod.mk.injEq] at hnorm
            rw [← hnorm.1]
            exact jsonNorm_stable w hw
    | none =>
        simp only [jsonNorm] at hnorm
        rw [Except.ok.injEq, Prod.mk.injEq] at hnorm
        rw [← hnorm.1]
        exact jsonNorm_stable .none hv
    | int m =>
        simp only [jsonNorm] at hnorm
        rw [Except.ok.injEq, Prod.mk.injEq] at hnorm
        rw [← hnorm.1]
        exact jsonNorm_stable (.int m) hv
    | list xs =>
        simp only [jsonNorm] at hnorm
        rw [Except.ok.injEq, Prod.mk.injEq] at hnorm
        rw [← hnorm.1]
        exact jsonNorm_stable (.list xs) hv
    | dict ps =>
        simp only [jsonNorm] at hnorm
        rw [Except.ok.injEq, Prod.mk.injEq] at hnorm
        rw [← hnorm.1]
        exact jsonNorm_stable (.dict ps) hv
  · have ht : reqDataType dflt "guid" = .ok ⟨"guid", [("ctor", .str "synapse.lib.types.GuidType"), ("doc", .str "A Globally Unique Identifier type")], .guidB Option.none⟩ := rfl
    refine ⟨[], ?_⟩
    have hstep : ∀ u, getTypeNorm (fuel + 3) dflt rnd "guid" u Option.none =
        guidNorm Option.none rnd u := fun u => by
      simp only [getTypeNorm]
      rw [ht]
      simp only [normT]
    rw [hstep] at hnorm ⊢
    have hrv : rv = n := by
      unfold getTypeRepr at hrepr
      rw [ht] at hrepr
      simp only [reprT] at hrepr
      injection hrepr with h2
      exact h2.symm
    rw [hrv]
    obtain ⟨g, hn, hg⟩ := guidNorm_shape Option.none rnd v n subs hrnd hnorm
    subst hn
    exact guidNorm_stable Option.none rnd g hg
  · have ht : reqDataType dflt "time" = .ok ⟨"time", [("ctor", .str "synapse.lib.types.TimeType"), ("doc", .str "Timestamp in milliseconds since epoch"), ("ex", .str "20161216084632")], .timeB MinMax.none⟩ := rfl
    refine ⟨[], ?_⟩
    have hstep : ∀ u, getTypeNorm (fuel + 3) dflt rnd "time" u Option.none =
        timeNorm MinMax.none u Option.none := fun u => by
      simp only [getTypeNorm]
      rw [ht]
      simp only [normT]
    rw [hstep] at hnorm ⊢
    unfold getTypeRepr at hrepr
    rw [ht] at hrepr
    simp only [reprT] at hrepr
    cases n with
    | int k =>
        cases k with
        | ofNat m =>
            have hrv : rv = .str ⟨pyNatDec m⟩ := by
              have h2 : (Except.ok (PyVal.str ⟨pyNatDec m⟩) : Except Err PyVal) =
                  .ok rv := hrepr
              injection h2 with h3
              exact h3.symm
            rw [hrv]
            exact timeNorm_render MinMax.none m
        | negSucc m =>
            exact Except.noConfusion (hrepr : Except.error Err.typeError = Except.ok rv)
    | none => exact Except.noConfusion (hrepr : Except.error Err.typeError = Except.ok rv)
    | str s2 => exact Except.noConfusion (hrepr : Except.error Err.typeError = Except.ok rv)
    | list xs => exact Except.noConfusion (hrepr : Except.error Err.typeError = Except.ok rv)
    | dict ps => exact Except.noConfusion (hrepr : Except.error Err.typeError = Except.ok rv)
  · have ht : reqDataType dflt "syn:tag" = .ok ⟨"syn:tag", [("ctor", .str "synapse.lib.types.TagType"), ("doc", .str "A synapse tag"), ("ex", .str "foo.bar")], .tagB⟩ := rfl
    refine ⟨[], ?_⟩
    have hstep : ∀ u, getTypeNorm (fuel + 3) dflt rnd "syn:tag" u Option.none =
        tagNorm (fuel + 1) dflt rnd u := fun u => by
      simp only [getTypeNorm]
      rw [ht]
      simp only [normT]
    rw [hstep] at hnorm ⊢
    have hrv : rv = n := by
      unfold getTypeRepr at hrepr
      rw [ht] at hrepr
      simp only [reprT] at hrepr
      injection hrepr with h2
      exact h2.symm
    rw [hrv]
    obtain ⟨g, hn, hm, hat, hlow⟩ := tagNorm_shape fuel dflt rnd v n subs hnorm
    subst hn
    exact tagNorm_stable fuel dflt rnd g hm hat hlow
  · have ht : reqDataType dflt "syn:prop" = .ok ⟨"syn:prop", [("subof", .str "str"), ("regex", .str "^([\\w]+:)*([\\w]+|\\*)$"), ("lower", .int 1), ("ctor", .str "synapse.lib.types.StrType"), ("doc", .str "The base string type")],
        .strB ⟨.int 0, Option.none, Option.none, (some "^([\\w]+:)*([\\w]+|\\*)$"), Option.none, Option.none⟩⟩ := rfl
    refine ⟨[], ?_⟩
    have hstep : ∀ u, getTypeNorm (fuel + 3) dflt rnd "syn:prop" u Option.none =
        strNorm [("subof", .str "str"), ("regex", .str "^([\\w]+:)*([\\w]+|\\*)$"), ("lower", .int 1), ("ctor", .str "synapse.lib.types.StrType"), ("doc", .str "The base string type")] ⟨.int 0, Option.none, Option.none, (some "^([\\w]+:)*([\\w]+|\\*)$"), Option.none, Option.none⟩ u := fun u => by
      simp only [getTypeNorm]
      rw [ht]
      simp only [normT]
    rw [hstep] at hnorm ⊢
    have hrv : rv = n := by
      unfold getTypeRepr at hrepr
      rw [ht] at hrepr
      simp only [reprT] at hrepr
      injection hrepr with h2
      exact h2.symm
    rw [hrv]
    exact strNorm_stable [("subof", .str "str"), ("regex", .str "^([\\w]+:)*([\\w]+|\\*)$"), ("lower", .int 1), ("ctor", .str "synapse.lib.types.StrType"), ("doc", .str "The base string type")] (.int 0) (some "^([\\w]+:)*([\\w]+|\\*)$") Option.none v n subs hnorm
  · have ht : reqDataType dflt "syn:type" = .ok ⟨"syn:type", [("subof", .str "str"), ("regex", .str "^([\\w]+:)*[\\w]+$"), ("lower", .int 1), ("ctor", .str "synapse.lib.types.StrType"), ("doc", .str "The base string type")],
        .strB ⟨.int 0, Option.none, Option.none, (some "^([\\w]+:)*[\\w]+$"), Option.none, Option.none⟩⟩ := rfl
    refine ⟨[], ?_⟩
    have hstep : ∀ u, getTypeNorm (fuel + 3) dflt rnd "syn:type" u Option.none =
        strNorm [("subof", .str "str"), ("regex", .str "^([\\w]+:)*[\\w]+$"), ("lower", .int 1), ("ctor", .str "synapse.lib.types.StrType"), ("doc", .str "The base string type")] ⟨.int 0, Option.none, Option.none, (some "^([\\w]+:)*[\\w]+$"), Option.none, Option.none⟩ u := fun u => by
      simp only [getTypeNorm]
      rw [ht]
      simp only [normT]
    rw [hstep] at hnorm ⊢
    have hrv : rv = n := by
      unfold getTypeRepr at hrepr
      rw [ht] at hrepr
      simp only [reprT] at hrepr
      injection hrepr with h2
      exact h2.symm
    rw [hrv]
    exact strNorm_stable [("subof", .str "str"), ("regex", .str "^([\\w]+:)*[\\w]+$"), ("lower", .int 1), ("ctor", .str "synapse.lib.types.StrType"), ("doc", .str "The base string type")] (.int 0) (some "^([\\w]+:)*[\\w]+$") Option.none v n subs hnorm
  · have ht : reqDataType dflt "syn:glob" = .ok ⟨"syn:glob", [("subof", .str "str"), ("regex", .str "^([\\w]+:)*[\\w]+:\\*$"), ("lower", .int 1), ("ctor", .str "synapse.lib.types.StrType"), ("doc", .str "The base string type")],
        .strB ⟨.int 0, Option.none, Option.none, (some "^([\\w]+:)*[\\w]+:\\*$"), Option.none, Option.none⟩⟩ := rfl
    refine ⟨[], ?_⟩
    have hstep : ∀ u, getTypeNorm (fuel + 3) dflt rnd "syn:glob" u Option.none =
        strNorm [("subof", .str "str"), ("regex", .str "^([\\w]+:)*[\\w]+:\\*$"), ("lower", .int 1), ("ctor", .str "synapse.lib.types.StrType"), ("doc", .str "The base string type")] ⟨.int 0, Option.none, Option.none, (some "^([\\w]+:)*[\\w]+:\\*$"), Option.none, Option.none⟩ u := fun u => by
      simp only [getTypeNorm]
      rw [ht]
      simp only [normT]
    rw [hstep] at hnorm ⊢
    have hrv : rv = n := by
      unfold getTypeRepr at hrepr
      rw [ht] at hrepr
      simp only [reprT] at hrepr
      injection hrepr with h2
      exact h2.symm
    rw [hrv]
    exact strNorm_stable [("subof", .str "str"), ("regex", .str "^([\\w]+:)*[\\w]+:\\*$"), ("lower", .int 1), ("ctor", .str "synapse.lib.types.StrType"), ("doc", .str "The base string type")] (.int 0) (some "^([\\w]+:)*[\\w]+:\\*$") Option.none v n subs hnorm
  · have ht : reqDataType dflt "int:min" = .ok ⟨"int:min", [("subof", .str "int"), ("ismin", .int 1), ("ctor", .str "synapse.lib.types.IntType"), ("doc", .str "The base integer type")],
        .intB ⟨.str "%d", Option.none, Option.none, MinMax.useMin⟩⟩ := rfl
    refine ⟨[], ?_⟩
    have hstep : ∀ u, getTypeNorm (fuel + 3) dflt rnd "int:min" u Option.none =
        intNorm ⟨.str "%d", Option.none, Option.none, MinMax.useMin⟩ u Option.none := fun u => by
      simp only [getTypeNorm]
      rw [ht]
      simp only [normT]
    rw [hstep] at hnorm ⊢
    unfold getTypeRepr at hrepr
    rw [ht] at hrepr
    simp only [reprT] at hrepr
    cases n with
    | int m =>
        have hrv : rv = .str (pyFmtD m) := by
          have h2 : (Except.ok (PyVal.str (pyFmtD m)) : Except Err PyVal) =
              .ok rv := hrepr
          injection h2 with h3
          exact h3.symm
        rw [hrv]
        rw [intNorm_fmtD MinMax.useMin m]
    | none => exact Except.noConfusion (hrepr : Except.error Err.typeError = Except.ok rv)
    | str s2 => exact Except.noConfusion (hrepr : Except.error Err.typeError = Except.ok rv)
    | list xs => exact Except.noConfusion (hrepr : Except.error Err.typeError = Except.ok rv)
    | dict ps => exact Except.noConfusion (hrepr : Except.error Err.typeError = Except.ok rv)
  · have ht : reqDataType dflt "int:max" = .ok ⟨"int:max", [("subof", .str "int"), ("ismax", .int 1), ("ctor", .str "synapse.lib.types.IntType"), ("doc", .str "The base integer type")],
        .intB ⟨.str "%d", Option.none, Option.none, MinMax.useMax⟩⟩ := rfl
    refine ⟨[], ?_⟩
    have hstep : ∀ u, getTypeNorm (fuel + 3) dflt rnd "int:max" u Option.none =
        intNorm ⟨.str "%d", Option.none, Option.none, MinMax.useMax⟩ u Option.none := fun u => by
      simp only [getTypeNorm]
      rw [ht]
      simp only [normT]
    rw [hstep] at hnorm ⊢
    unfold getTypeRepr at hrepr
    rw [ht] at hrepr
    simp only [reprT] at hrepr
    cases n with
    | int m =>
        have hrv : rv = .str (pyFmtD m) := by
          have h2 : (Except.ok (PyVal.str (pyFmtD m)) : Except Err PyVal) =
              .ok rv := hrepr
          injection h2 with h3
          exact h3.symm
        rw [hrv]
        rw [intNorm_fmtD MinMax.useMax m]
    | none => exact Except.noConfusion (hrepr : Except.error Err.typeError = Except.ok rv)
    | str s2 => exact Except.noConfusion (hrepr : Except.error Err.typeError = Except.ok rv)
    | list xs => exact Except.noConfusion (hrepr : Except.error Err.typeError = Except.ok rv)
    | dict ps => exact Except.noConfusion (hrepr : Except.error Err.typeError = Except.ok rv)
  · have ht : reqDataType dflt "str:lwr" = .ok ⟨"str:lwr", [("subof", .str "str"), ("lower", .int 1), ("strip", .int 1), ("ctor", .str "synapse.lib.types.StrType"), ("doc", .str "The base string type")],
        .strB ⟨.int 1, Option.none, Option.none, Option.none, Option.none, Option.none⟩⟩ := rfl
    refine ⟨[], ?_⟩
    have hstep : ∀ u, getTypeNorm (fuel + 3) dflt rnd "str:lwr" u Option.none =
        strNorm [("subof", .str "str"), ("lower", .int 1), ("strip", .int 1), ("ctor", .str "synapse.lib.types.StrType"), ("doc", .str "The base string type")] ⟨.int 1, Option.none, Option.none, Option.none, Option.none, Option.none⟩ u := fun u => by
      simp only [getTypeNorm]
      rw [ht]
      simp only [normT]
    rw [hstep] at hnorm ⊢
    have hrv : rv = n := by
      unfold getTypeRepr at hrepr
      rw [ht] at hrepr
      simp only [reprT] at hrepr
      injection hrepr with h2
      exact h2.symm
    rw [hrv]
    exact strNorm_stable [("subof", .str "str"), ("lower", .int 1), ("strip", .int 1), ("ctor", .str "synapse.lib.types.StrType"), ("doc", .str "The base string type")] (.int 1) Option.none Option.none v n subs hnorm
  · have ht : reqDataType dflt "str:txt" = .ok ⟨"str:txt", [("subof", .str "str"), ("doc", .str "Multi-line text or text blob."), ("ctor", .str "synapse.lib.types.StrType")],
        .strB ⟨.int 0, Option.none, Option.none, Option.none, Option.none, Option.none⟩⟩ := rfl
    refine ⟨[], ?_⟩
    have hstep : ∀ u, getTypeNorm (fuel + 3) dflt rnd "str:txt" u Option.none =
        strNorm [("subof", .str "str"), ("doc", .str "Multi-line text or text blob."), ("ctor", .str "synapse.lib.types.StrType")] ⟨.int 0, Option.none, Option.none, Option.none, Option.none, Option.none⟩ u := fun u => by
      simp only [getTypeNorm]
      rw [ht]
      simp only [normT]
    rw [hstep] at hnorm ⊢
    have hrv : rv = n := by
      unfold getTypeRepr at hrepr
      rw [ht] at hrepr
      simp only [reprT] at hrepr
      injection hrepr with h2
      exact h2.symm
    rw [hrv]
    exact strNorm_stable [("subof", .str "str"), ("doc", .str "Multi-line text or text blob."), ("ctor", .str "synapse.lib.types.StrType")] (.int 0) Option.none Option.none v n subs hnorm
  · have ht : reqDataType dflt "str:hex" = .ok ⟨"str:hex", [("subof", .str "str"), ("frob_int_fmt", .str "%x"), ("regex", .str "^[0-9a-f]+$"), ("lower", .int 1), ("ctor", .str "synapse.lib.types.StrType"), ("doc", .str "The base string type")],
        .strB ⟨.int 0, Option.none, Option.none, (some "^[0-9a-f]+$"), Option.none, (some (.str "%x"))⟩⟩ := rfl
    refine ⟨[], ?_⟩
    have hstep : ∀ u, getTypeNorm (fuel + 3) dflt rnd "str:hex" u Option.none =
        strNorm [("subof", .str "str"), ("frob_int_fmt", .str "%x"), ("regex", .str "^[0-9a-f]+$"), ("lower", .int 1), ("ctor", .str "synapse.lib.types.StrType"), ("doc", .str "The base string type")] ⟨.int 0, Option.none, Option.none, (some "^[0-9a-f]+$"), Option.none, (some (.str "%x"))⟩ u := fun u => by
      simp only [getTypeNorm]
      rw [ht]
      simp only [normT]
    rw [hstep] at hnorm ⊢
    have hrv : rv = n := by
      unfold getTypeRepr at hrepr
      rw [ht] at hrepr
      simp only [reprT] at hrepr
      injection hrepr with h2
      exact h2.symm
    rw [hrv]
    exact strNorm_stable [("subof", .str "str"), ("frob_int_fmt", .str "%x"), ("regex", .str "^[0-9a-f]+$"), ("lower", .int 1), ("ctor", .str "synapse.lib.types.StrType"), ("doc", .str "The base string type")] (.int 0) (some "^[0-9a-f]+$") (some (.str "%x")) v n subs hnorm

/-- C2 witness: the `bool` type at input `"YES"` normalizes to `1`, whose
repr `"True"` re-normalizes to `1`. -/
theorem c2_witness :
    ("bool" : String) ∈ (["str", "int", "bool", "json", "guid", "time",
      "syn:tag", "syn:prop", "syn:type", "syn:glob", "int:min", "int:max",
      "str:lwr", "str:txt", "str:hex"] : List String) ∧
    isguid "aaaaaaaaaaaaaaaaaaaaaaaaaaaaaaaa" = true ∧
    pyWF (.str "YES") = true ∧
    getTypeNorm 3 dflt "aaaaaaaaaaaaaaaaaaaaaaaaaaaaaaaa" "bool" (.str "YES") Option.none =
      .ok (.int 1, []) ∧
    getTypeRepr dflt "bool" (.int 1) = .ok (.str "True") ∧
    ∃ subs2, getTypeNorm 3 dflt "aaaaaaaaaaaaaaaaaaaaaaaaaaaaaaaa" "bool" (.str "True") Option.none =
      .ok (.int 1, subs2) :=
  ⟨by decide, by decide, rfl, rfl, rfl,
    c2_scalar_norm_repr_roundtrip "bool" (by decide) 0 "aaaaaaaaaaaaaaaaaaaaaaaaaaaaaaaa" (by decide)
      (.str "YES") (.int 1) (.str "True") [] rfl rfl rfl⟩

end Synapse
